import Mathlib

/-!
# kiss-ds: block pool, bounded queue, ring, arena and array

A shallow embedding of `KISS_QUEUE.c`, `KISS_BLOCKPOOL.c`, `KISS_RING.c`,
`KISS_ARENA.c` and `KISS_ARRAY.c`.

Conventions of the embedding.

* `KISS_UINT` is `uint32_t`, `KISS_UINT16` is `uint16_t`; values are kept as `Nat`
  and every C operation that can leave the range is followed by an explicit
  reduction modulo `2^32` (`2^16`).
* `size_t` and pointers are 64 bits wide, `int` is 32 bits wide and the conversion
  of an unsigned value to `int` is the two's complement one.
* Memory is a total map from byte addresses to byte values; a multi-byte object is
  stored little endian.  The queue addresses its buffer by offset
  (`pBuffer[off]`), so its memory is indexed by offset; offsets at or past
  `TotalSize` stand for the bytes that follow the buffer in memory.
* `KISS_ASSERT` is compiled out (release configuration); the conditions of the two
  assertions on the pin counter of the queue are kept as predicates of their own.
* The query functions of the queue take it by `const` pointer and store nothing
  into it; `queueQuery` presents one such call as a step that returns the queue
  together with the result.
* A client of the pool is a list of steps (`PoolOp`); `held` follows the blocks the
  client holds and says whether the steps are a valid usage of the pool.
* The ring addresses its buffer by offset like the queue; `RingOp` lists calls with
  valid pointers and `modelStep` is the list model they are compared with.
* The arena only computes addresses; its pointer arithmetic is taken modulo `2^64`.
* The array addresses its buffer by offset as well; a position is an `Int` (the C
  `int`), an item pointer is `Option Mem` with `none` for `NULL`, and `arrayItems`
  reads the elements back as byte strings.
-/

namespace KissDS

/-! ## Machine model -/

/-- Number of values of a `uint32_t`. -/
def U32 : Nat := 4294967296

/-- Number of values of a `uint16_t`. -/
def U16 : Nat := 65536

/-- Number of values of a 64-bit `size_t` or pointer. -/
def U64 : Nat := 18446744073709551616

/-- Byte addressed memory. -/
abbrev Mem := Nat → Nat

/-- Load of a little-endian `uint32_t` at address `a`. -/
def read32 (m : Mem) (a : Nat) : Nat :=
  m a % 256 + 256 * (m (a + 1) % 256) + 65536 * (m (a + 2) % 256)
    + 16777216 * (m (a + 3) % 256)

/-- Store of a little-endian `uint32_t` at address `a`. -/
def write32 (m : Mem) (a v : Nat) : Mem := fun x =>
  if x = a then v % 256
  else if x = a + 1 then v / 256 % 256
  else if x = a + 2 then v / 65536 % 256
  else if x = a + 3 then v / 16777216 % 256
  else m x

/-- The call `memcpy(dst, src, n)`; `src` is the memory the source pointer designates. -/
def memcpy (m : Mem) (dst : Nat) (src : Mem) (n : Nat) : Mem := fun x =>
  if dst ≤ x ∧ x < dst + n then src (x - dst) else m x

/-- The call `memset(dst, v, n)`; the value is converted to `unsigned char`. -/
def memset (m : Mem) (dst v n : Nat) : Mem := fun x =>
  if dst ≤ x ∧ x < dst + n then v % 256 else m x

/-- Conversion of a `uint32_t` value to `int`. -/
def toInt (v : Nat) : Int :=
  if v % U32 < 2147483648 then (v % U32 : Nat) else (v % U32 : Nat) - 4294967296

/-- The bytes `m[a], ..., m[a + n - 1]`. -/
def readBytes (m : Mem) (a : Nat) : Nat → List Nat
  | 0 => []
  | n + 1 => m a :: readBytes m (a + 1) n

/-- A byte string seen as the memory a source pointer designates. -/
def bytes (x : List Nat) : Mem := fun i => x.getD i 0

/-- The zero-filled buffer. -/
def zeroMem : Mem := fun _ => 0

/-! ## KISS_QUEUE -/

/-- The queue object; `pBuffer` is the storage region, indexed by offset. -/
structure KISS_QUEUE where
  pBuffer : Mem
  TotalSize : Nat
  NumElements : Nat
  oHead : Nat
  oTail : Nat
  UseCount : Nat

/-- The value of `sizeof(KISS_QUEUE_ITEM)`: two `KISS_UINT` fields, `oNext` at offset 0
and `oSize` at offset 4. -/
def sizeofItem : Nat := 8

def KISS_QUEUE_Create (pData : Mem) (Size : Nat) : KISS_QUEUE :=
  { pBuffer := pData, TotalSize := Size, NumElements := 0, oHead := 0, oTail := 0,
    UseCount := 0 }

def KISS_QUEUE_Clear (q : KISS_QUEUE) : KISS_QUEUE :=
  { q with oHead := 0, oTail := 0, NumElements := 0 }

/-- The tail of `__alloc_item` after the placement decision: write the header of the new
record at `oNext`, make it the tail and return the payload address. -/
def placeItem (q : KISS_QUEUE) (oNext Size : Nat) : KISS_QUEUE × Option Nat :=
  let b1 := write32 q.pBuffer oNext ((oNext + sizeofItem + Size) % U32)
  let b2 := write32 b1 (oNext + 4) (Size % U32)
  ({ q with pBuffer := b2, oTail := oNext, NumElements := (q.NumElements + 1) % U32 },
    some (oNext + sizeofItem))

/-- The function `__alloc_item`; the result `none` is the `NULL` return. -/
def __alloc_item (q : KISS_QUEUE) (Size : Nat) : KISS_QUEUE × Option Nat :=
  let oNext := read32 q.pBuffer q.oTail
  let oNextNext := (oNext + sizeofItem + Size) % U32
  if oNextNext ≤ q.TotalSize ∨ oNextNext ≤ q.oHead then
    placeItem q oNext Size
  else if 0 + sizeofItem + Size < q.oHead then
    placeItem { q with pBuffer := write32 q.pBuffer q.oTail 0 } 0 Size
  else
    (q, none)

def KISS_QUEUE_Put (q : KISS_QUEUE) (pSrc : Mem) (Size : Nat) : KISS_QUEUE × Int :=
  match __alloc_item q Size with
  | (q1, some pDest) => ({ q1 with pBuffer := memcpy q1.pBuffer pDest pSrc Size }, 0)
  | (q1, none) => (q1, 1)

/-- One entry of a source list. -/
structure KISS_QUEUE_SRCLIST where
  pSrc : Mem
  Size : Nat

/-- The first loop of `KISS_QUEUE_PutEx`: the 32-bit sum of the chunk sizes. -/
def srcListSize (pSrcList : Nat → KISS_QUEUE_SRCLIST) : Nat → Nat
  | 0 => 0
  | n + 1 => (srcListSize pSrcList n + (pSrcList n).Size) % U32

/-- The second loop of `KISS_QUEUE_PutEx`, chunks `0 .. n-1` copied starting at `pDest`;
returns the memory and the advanced destination. -/
def srcListCopy (pSrcList : Nat → KISS_QUEUE_SRCLIST) (m : Mem) (pDest : Nat) :
    Nat → Mem × Nat
  | 0 => (m, pDest)
  | n + 1 =>
    let r := srcListCopy pSrcList m pDest n
    (memcpy r.1 r.2 (pSrcList n).pSrc (pSrcList n).Size, r.2 + (pSrcList n).Size)

/-- The function `KISS_QUEUE_PutEx`; `none` is a `NULL` source list. -/
def KISS_QUEUE_PutEx (q : KISS_QUEUE) (pSrcList : Option (Nat → KISS_QUEUE_SRCLIST))
    (NumSrc : Nat) : KISS_QUEUE × Int :=
  match pSrcList with
  | some l =>
    match __alloc_item q (srcListSize l NumSrc) with
    | (q1, some pDest) =>
      ({ q1 with pBuffer := (srcListCopy l q1.pBuffer pDest NumSrc).1 }, 0)
    | (q1, none) => (q1, 1)
  | none => (q, 1)

/-- The function `KISS_QUEUE_GetPtr`: the queue, the return code and the pointer stored
through `ppData` (as an offset into the buffer), if any. -/
def KISS_QUEUE_GetPtr (q : KISS_QUEUE) : KISS_QUEUE × Int × Option Nat :=
  if q.NumElements > 0 then
    ({ q with UseCount := (q.UseCount + 1) % U16 }, 0, some (q.oHead + sizeofItem))
  else (q, 1, none)

def KISS_QUEUE_PeekPtr (q : KISS_QUEUE) : Int × Option Nat :=
  if q.NumElements > 0 then (0, some (q.oHead + sizeofItem)) else (1, none)

def KISS_QUEUE_Purge (q : KISS_QUEUE) : KISS_QUEUE :=
  if q.NumElements > 0 then
    { q with
      UseCount := if q.UseCount > 0 then q.UseCount - 1 else q.UseCount
      oHead := read32 q.pBuffer q.oHead
      NumElements := q.NumElements - 1 }
  else q

def KISS_QUEUE_GetItemCnt (q : KISS_QUEUE) : Int := toInt q.NumElements

def KISS_QUEUE_IsInUse (q : KISS_QUEUE) : Bool := q.UseCount != 0

def KISS_QUEUE_GetItemSize (q : KISS_QUEUE) : Int :=
  if q.NumElements > 0 then toInt (read32 q.pBuffer (q.oHead + 4)) else 0

/-! ### Test drivers for the queue -/

/-- Put the payloads in order; returns the queue and, for every call, the return code
and the offset of the tail record after the call. -/
def putAll : KISS_QUEUE → List (List Nat) → KISS_QUEUE × List (Int × Nat)
  | q, [] => (q, [])
  | q, x :: xs =>
    let r := KISS_QUEUE_Put q (bytes x) x.length
    let r2 := putAll r.1 xs
    (r2.1, (r.2, r.1.oTail) :: r2.2)

/-- What one retrieval observes. -/
structure Obs where
  size : Int
  rc : Int
  data : Option (List Nat)
  cntBefore : Int
  cntAfter : Int
  deriving DecidableEq

/-- The sequence `GetItemSize`, `GetPtr`, read of `len` bytes at the pointer, `Purge`. -/
def getOne (q : KISS_QUEUE) (len : Nat) : KISS_QUEUE × Obs :=
  let g := KISS_QUEUE_GetPtr q
  let q2 := KISS_QUEUE_Purge g.1
  (q2, { size := KISS_QUEUE_GetItemSize q
         rc := g.2.1
         data := g.2.2.map (fun p => readBytes g.1.pBuffer p len)
         cntBefore := KISS_QUEUE_GetItemCnt q
         cntAfter := KISS_QUEUE_GetItemCnt q2 })

/-- Retrieve items one after the other, reading `lens[i]` bytes of the i-th. -/
def getAll : KISS_QUEUE → List Nat → KISS_QUEUE × List Obs
  | q, [] => (q, [])
  | q, len :: lens =>
    let r := getOne q len
    let r2 := getAll r.1 lens
    (r2.1, r.2 :: r2.2)

/-! ## KISS_BLOCKPOOL -/

/-- The pool object together with the memory its pointers refer to; a pointer is an
address and `0` is `NULL`. -/
structure KISS_BLOCKPOOL where
  mem : Mem
  pPool : Nat
  pHead : Nat
  pTail : Nat
  MaxUsed : Nat
  NumBlocks : Nat
  BlocksUsed : Nat
  BlockSize : Nat

/-- Load of a little-endian 64-bit pointer at address `a`. -/
def read64 (m : Mem) (a : Nat) : Nat :=
  read32 m a + U32 * read32 m (a + 4)

/-- Store of a little-endian 64-bit pointer at address `a`. -/
def write64 (m : Mem) (a v : Nat) : Mem :=
  write32 (write32 m a (v % U32)) (a + 4) (v / U32 % U32)

def KISS_BLOCKPOOL_Create (mem : Mem) (pPool NumBlocks BlockSize : Nat) : KISS_BLOCKPOOL :=
  { mem := memset mem pPool 0xCDCDCDCD (NumBlocks * BlockSize % U64)
    pPool := pPool, pHead := 0, pTail := 0, MaxUsed := 0, NumBlocks := NumBlocks,
    BlocksUsed := 0, BlockSize := BlockSize }

def KISS_BLOCKPOOL_IsInPool (p : KISS_BLOCKPOOL) (pMemBlock : Nat) : Bool :=
  let Size := p.BlockSize * p.NumBlocks % U64
  let Offset := (pMemBlock + U64 - p.pPool) % U64
  decide (pMemBlock ≥ p.pPool) && decide (Offset < Size)

/-- The function `KISS_BLOCKPOOL_Alloc`: the pool and the returned pointer. -/
def KISS_BLOCKPOOL_Alloc (p : KISS_BLOCKPOOL) : KISS_BLOCKPOOL × Nat :=
  if p.BlocksUsed < p.NumBlocks then
    if (p.MaxUsed + U32 - p.BlocksUsed) % U32 > 0 ∧ p.pHead ≠ 0 then
      if p.pHead ≠ p.pTail then
        ({ p with BlocksUsed := (p.BlocksUsed + 1) % U32, pHead := read64 p.mem p.pHead },
          p.pHead)
      else
        ({ p with BlocksUsed := (p.BlocksUsed + 1) % U32, pHead := 0, pTail := 0 }, p.pHead)
    else if (p.BlocksUsed + 1) % U32 > p.MaxUsed then
      let pResult := p.pPool + p.MaxUsed * p.BlockSize % U32
      ({ p with
          BlocksUsed := (p.BlocksUsed + 1) % U32
          mem := memset p.mem pResult 0 p.BlockSize
          MaxUsed := (p.BlocksUsed + 1) % U32 }, pResult)
    else (p, 0)
  else (p, 0)

def KISS_BLOCKPOOL_FreeEx (p : KISS_BLOCKPOOL) (pMemBlock : Nat) : KISS_BLOCKPOOL :=
  if p.BlocksUsed > 0 ∧ KISS_BLOCKPOOL_IsInPool p pMemBlock = true then
    let m1 := write64 p.mem pMemBlock 0
    if (p.MaxUsed + U32 - p.BlocksUsed) % U32 > 0 then
      { p with mem := write64 m1 p.pTail pMemBlock, pTail := pMemBlock,
               BlocksUsed := p.BlocksUsed - 1 }
    else
      { p with mem := m1, pHead := pMemBlock, pTail := pMemBlock,
               BlocksUsed := p.BlocksUsed - 1 }
  else p

def KISS_BLOCKPOOL_GetNumBlocks (p : KISS_BLOCKPOOL) : Int := toInt p.NumBlocks

def KISS_BLOCKPOOL_GetBlockSize (p : KISS_BLOCKPOOL) : Int := toInt p.BlockSize

def KISS_BLOCKPOOL_GetNumFreeBlocks (p : KISS_BLOCKPOOL) : Int :=
  toInt ((p.NumBlocks + U32 - p.BlocksUsed) % U32)

def KISS_BLOCKPOOL_GetMaxUsed (p : KISS_BLOCKPOOL) : Int := toInt p.MaxUsed

/-! ### Test drivers for the pool -/

/-- Call `KISS_BLOCKPOOL_Alloc` `n` times; returns the pool and the pointers in call
order. -/
def allocN : KISS_BLOCKPOOL → Nat → KISS_BLOCKPOOL × List Nat
  | p, 0 => (p, [])
  | p, n + 1 =>
    let r := KISS_BLOCKPOOL_Alloc p
    let r2 := allocN r.1 n
    (r2.1, r.2 :: r2.2)

/-- Call `KISS_BLOCKPOOL_FreeEx` on the pointers in list order. -/
def freeAll : KISS_BLOCKPOOL → List Nat → KISS_BLOCKPOOL
  | p, [] => p
  | p, b :: bs => freeAll (KISS_BLOCKPOOL_FreeEx p b) bs

/-! ## Specification-side definitions -/

/-- Bytes taken by the records of the payloads: header and payload of each. -/
def recordBytes : List (List Nat) → Nat
  | [] => 0
  | x :: xs => sizeofItem + x.length + recordBytes xs

/-- Start offsets of the records of the payloads when stored back to back from `pos`. -/
def layout : Nat → List (List Nat) → List Nat
  | _, [] => []
  | pos, x :: xs => pos :: layout (pos + sizeofItem + x.length) xs

/-- What retrieving the payloads in order must observe when `n` items are queued. -/
def expectObs : Nat → List (List Nat) → List Obs
  | _, [] => []
  | n, x :: xs =>
    { size := x.length, rc := 0, data := some x, cntBefore := n, cntAfter := (n - 1 : Nat) }
      :: expectObs (n - 1) xs

/-- The memory holds, from `pos` on, the linked records of the payloads. -/
def Chain (m : Mem) : Nat → List (List Nat) → Prop
  | _, [] => True
  | pos, x :: xs =>
    read32 m pos = pos + sizeofItem + x.length ∧ read32 m (pos + 4) = x.length ∧
      readBytes m (pos + sizeofItem) x.length = x ∧ Chain m (pos + sizeofItem + x.length) xs

/-- Addresses of the blocks `k, k+1, ..., k+n-1` of a pool at `p` with block size `B`. -/
def blockAddrs (p B : Nat) : Nat → Nat → List Nat
  | _, 0 => []
  | k, n + 1 => (p + k * B) :: blockAddrs p B (k + 1) n

/-- The first `j` blocks of `L` are linked in list order, the last of them holding
`NULL`. -/
def LinkedTo (m : Mem) (L : List Nat) (j : Nat) : Prop :=
  ∀ i, i < j → read64 m (L.getD i 0) = if i + 1 < j then L.getD (i + 1) 0 else 0

/-- The first words of the blocks of `L` lie apart. -/
def Apart (L : List Nat) : Prop :=
  ∀ i j, i < j → j < L.length → L.getD i 0 + 8 ≤ L.getD j 0 ∨ L.getD j 0 + 8 ≤ L.getD i 0

/-- The four bytes of the 32-bit integer `i`, as the tests pass them (`&i`, 4 bytes). -/
def le32 (i : Nat) : List Nat := [i % 256, i / 256 % 256, i / 65536 % 256, i / 16777216 % 256]

/-! ### Call sequences on the pool -/

/-- One step of a client of the pool: a call of `KISS_BLOCKPOOL_Alloc`, a call of
`KISS_BLOCKPOOL_FreeEx` with some pointer, or a store of one byte by the client. -/
inductive PoolOp where
  | alloc : PoolOp
  | free (pMemBlock : Nat) : PoolOp
  | write (a v : Nat) : PoolOp
  deriving DecidableEq

/-- Store of the byte `v` at address `a`. -/
def writeByte (m : Mem) (a v : Nat) : Mem := fun x => if x = a then v % 256 else m x

/-- The pool after one step. -/
def poolStep (P : KISS_BLOCKPOOL) : PoolOp → KISS_BLOCKPOOL
  | PoolOp.alloc => (KISS_BLOCKPOOL_Alloc P).1
  | PoolOp.free b => KISS_BLOCKPOOL_FreeEx P b
  | PoolOp.write a v => { P with mem := writeByte P.mem a v }

/-- The pool after a sequence of steps. -/
def poolRun : KISS_BLOCKPOOL → List PoolOp → KISS_BLOCKPOOL
  | P, [] => P
  | P, op :: ops => poolRun (poolStep P op) ops

/-- Valid usage: starting with the client holding the blocks `A`, the blocks it holds
after the steps, or `none` when a step is not allowed. Allowed are: any call of `Alloc`
(a non-`NULL` result is then held); `FreeEx` of a held block (no longer held afterwards)
or of a pointer outside the pool; a store into a held block. -/
def held : KISS_BLOCKPOOL → List Nat → List PoolOp → Option (List Nat)
  | _, A, [] => some A
  | P, A, PoolOp.alloc :: ops =>
    held (KISS_BLOCKPOOL_Alloc P).1
      (if (KISS_BLOCKPOOL_Alloc P).2 = 0 then A else (KISS_BLOCKPOOL_Alloc P).2 :: A) ops
  | P, A, PoolOp.free b :: ops =>
    if b ∈ A then held (KISS_BLOCKPOOL_FreeEx P b) (A.erase b) ops
    else if KISS_BLOCKPOOL_IsInPool P b = false then held (KISS_BLOCKPOOL_FreeEx P b) A ops
    else none
  | P, A, PoolOp.write a v :: ops =>
    if A.any (fun b => decide (b ≤ a ∧ a < b + P.BlockSize)) then
      held { P with mem := writeByte P.mem a v } A ops
    else none

/-- The first `n` nodes of the chain that starts at `p` and follows the link stored in
the first word of each node, up to a `NULL` link. -/
def chainFrom (m : Mem) : Nat → Nat → List Nat
  | _, 0 => []
  | p, n + 1 => if p = 0 then [] else p :: chainFrom m (read64 m p) n

/-- Call `KISS_QUEUE_GetPtr` `n` times. -/
def getPtrN : KISS_QUEUE → Nat → KISS_QUEUE
  | q, 0 => q
  | q, n + 1 => getPtrN (KISS_QUEUE_GetPtr q).1 n

/-- The condition of the `KISS_ASSERT` inside `KISS_QUEUE_Purge` (`UseCount == 0` after the
decrement), `true` when the assertion is not reached. -/
def KISS_QUEUE_Purge_assert (q : KISS_QUEUE) : Bool :=
  if q.NumElements > 0 ∧ q.UseCount > 0 then q.UseCount - 1 == 0 else true

/-- The condition of the `KISS_ASSERT` inside `KISS_QUEUE_GetPtr` (`UseCount != 0` after the
increment), `true` when the assertion is not reached. -/
def KISS_QUEUE_GetPtr_assert (q : KISS_QUEUE) : Bool :=
  if q.NumElements > 0 then (q.UseCount + 1) % U16 != 0 else true

/-- Valid-usage invariant of the pool at address `p` with `T` blocks of `B` bytes: the
client holds the blocks `A`, the free list is `F` in link order, and together they are
the blocks below the high-water mark. -/
def PoolInv (p T B : Nat) (P : KISS_BLOCKPOOL) (A F : List Nat) : Prop :=
  P.pPool = p ∧ P.NumBlocks = T ∧ P.BlockSize = B ∧ P.MaxUsed ≤ T ∧
  P.BlocksUsed = A.length ∧ A.length + F.length = P.MaxUsed ∧
  (A ++ F).Perm (blockAddrs p B 0 P.MaxUsed) ∧
  LinkedTo P.mem F F.length ∧ P.pHead = F.getD 0 0 ∧ P.pTail = F.getD (F.length - 1) 0

/-! ### Call sequences on the queue -/

/-- The source list of the chunks `cs`: entry `i` designates the bytes of chunk `i`. -/
def srcListOf (cs : List (List Nat)) : Nat → KISS_QUEUE_SRCLIST :=
  fun i => { pSrc := bytes (cs.getD i []), Size := (cs.getD i []).length }

/-- One step of a client of the queue: `KISS_QUEUE_Put` of a payload, `KISS_QUEUE_PutEx`
of a list of chunks, `KISS_QUEUE_GetPtr` or `KISS_QUEUE_Purge`. -/
inductive QueueOp where
  | put (x : List Nat) : QueueOp
  | putEx (cs : List (List Nat)) : QueueOp
  | getPtr : QueueOp
  | purge : QueueOp
  deriving DecidableEq

/-- The queue after one step. -/
def queueStep (q : KISS_QUEUE) : QueueOp → KISS_QUEUE
  | QueueOp.put x => (KISS_QUEUE_Put q (bytes x) x.length).1
  | QueueOp.putEx cs => (KISS_QUEUE_PutEx q (some (srcListOf cs)) cs.length).1
  | QueueOp.getPtr => (KISS_QUEUE_GetPtr q).1
  | QueueOp.purge => KISS_QUEUE_Purge q

/-- The queue after a sequence of steps. -/
def queueRun : KISS_QUEUE → List QueueOp → KISS_QUEUE
  | q, [] => q
  | q, op :: ops => queueRun (queueStep q op) ops

/-- The offset reached from `p` by following the next-offset field of the record header
`k` times. -/
def walk (m : Mem) : Nat → Nat → Nat
  | p, 0 => p
  | p, k + 1 => walk m (read32 m p) k

/-- Total length of the chunks `0 .. n-1` of a source list. -/
def srcTotal (l : Nat → KISS_QUEUE_SRCLIST) : Nat → Nat
  | 0 => 0
  | n + 1 => srcTotal l n + (l n).Size

/-- The concatenation of the chunks `0 .. n-1` of a source list, as the memory a single
source pointer designates. -/
def concatSrc (l : Nat → KISS_QUEUE_SRCLIST) : Nat → Mem
  | 0 => fun _ => 0
  | n + 1 => fun i => if i < srcTotal l n then concatSrc l n i else (l n).pSrc (i - srcTotal l n)

/-- The largest value `BlocksUsed` takes along the steps, starting from the value `h`. -/
def highWater : KISS_BLOCKPOOL → Nat → List PoolOp → Nat
  | _, h, [] => h
  | P, h, op :: ops => highWater (poolStep P op) (max h (poolStep P op).BlocksUsed) ops

/-! ### Query calls on the queue -/

/-- A call of one of the four query functions of the queue, which take the queue by
`const` pointer. -/
inductive QueueQuery where
  | peekPtr
  | getItemCnt
  | getItemSize
  | isInUse

/-- One query call as a step: the queue object after the call, the returned value (the
`KISS_BOOL` of `KISS_QUEUE_IsInUse` as 1 or 0) and the pointer stored through `ppData`, if
any. None of the four functions stores to the queue object or to its buffer. -/
def queueQuery (q : KISS_QUEUE) : QueueQuery → KISS_QUEUE × Int × Option Nat
  | QueueQuery.peekPtr => (q, KISS_QUEUE_PeekPtr q)
  | QueueQuery.getItemCnt => (q, KISS_QUEUE_GetItemCnt q, none)
  | QueueQuery.getItemSize => (q, KISS_QUEUE_GetItemSize q, none)
  | QueueQuery.isInUse => (q, if KISS_QUEUE_IsInUse q then 1 else 0, none)

/-- Query calls one after the other: the queue after the last call and the results. -/
def queueQueries : KISS_QUEUE → List QueueQuery → KISS_QUEUE × List (Int × Option Nat)
  | q, [] => (q, [])
  | q, c :: cs =>
    let r := queueQuery q c
    let r2 := queueQueries r.1 cs
    (r2.1, r.2 :: r2.2)

/-! ## KISS_RING -/

/-- The ring object; `pBuffer` is the storage region, indexed by offset. -/
structure KISS_RING where
  pBuffer : Mem
  MaxCount : Nat
  NumUsed : Nat
  oHead : Nat
  oTail : Nat
  ItemSize : Nat
  UseCount : Nat

def KISS_RING_Create (sizeofMsg maxnofmsg : Nat) (pBuffer : Mem) : KISS_RING :=
  { pBuffer := pBuffer, MaxCount := maxnofmsg, ItemSize := sizeofMsg, oHead := 0, oTail := 0,
    NumUsed := 0, UseCount := 0 }

def KISS_RING_Clear (r : KISS_RING) : KISS_RING :=
  { r with oHead := r.oTail, NumUsed := 0 }

/-- The function `KISS_RING_Put`: the ring and the return code. The slot offset
`oTail * ItemSize` is a 32-bit product. -/
def KISS_RING_Put (r : KISS_RING) (pElement : Mem) : KISS_RING × Nat :=
  if r.NumUsed < r.MaxCount then
    ({ r with
        pBuffer := memcpy r.pBuffer (r.oTail * r.ItemSize % U32) pElement r.ItemSize
        oTail := (r.oTail + 1) % U32 % r.MaxCount
        NumUsed := (r.NumUsed + 1) % U32 }, 0)
  else (r, 1)

def KISS_RING_Put1 (r : KISS_RING) (pElement : Mem) : KISS_RING × Nat :=
  if r.NumUsed < r.MaxCount then
    ({ r with
        pBuffer := writeByte r.pBuffer (r.oTail * r.ItemSize % U32) (pElement 0)
        oTail := (r.oTail + 1) % U32 % r.MaxCount
        NumUsed := (r.NumUsed + 1) % U32 }, 0)
  else (r, 1)

/-- The function `KISS_RING_PutFront`; `oHead + MaxCount - 1` is a 32-bit expression. -/
def KISS_RING_PutFront (r : KISS_RING) (pElement : Mem) : KISS_RING × Nat :=
  if r.NumUsed < r.MaxCount then
    let oHead := (r.oHead + r.MaxCount + U32 - 1) % U32 % r.MaxCount
    ({ r with
        oHead := oHead
        pBuffer := memcpy r.pBuffer (oHead * r.ItemSize % U32) pElement r.ItemSize
        NumUsed := (r.NumUsed + 1) % U32 }, 0)
  else (r, 1)

def KISS_RING_PutFront1 (r : KISS_RING) (pElement : Mem) : KISS_RING × Nat :=
  if r.NumUsed < r.MaxCount then
    let oHead := (r.oHead + r.MaxCount + U32 - 1) % U32 % r.MaxCount
    ({ r with
        oHead := oHead
        pBuffer := writeByte r.pBuffer (oHead * r.ItemSize % U32) (pElement 0)
        NumUsed := (r.NumUsed + 1) % U32 }, 0)
  else (r, 1)

/-- The function `KISS_RING_Get`: the ring, the return code and the memory at `pData`
after the call; `none` is a `NULL` destination. The local `int oNext` holds a value
below `2^32` that is converted back when it is stored in `oHead`. -/
def KISS_RING_Get (r : KISS_RING) (pData : Option Mem) : KISS_RING × Nat × Option Mem :=
  match pData with
  | some d =>
    if r.NumUsed > 0 then
      ({ r with oHead := (r.oHead + 1) % U32 % r.MaxCount, NumUsed := r.NumUsed - 1 }, 0,
        some (memcpy d 0 (fun i => r.pBuffer (r.oHead * r.ItemSize % U32 + i)) r.ItemSize))
    else (r, 1, some d)
  | none => (r, 1, none)

def KISS_RING_Get1 (r : KISS_RING) (pData : Option Mem) : KISS_RING × Nat × Option Mem :=
  match pData with
  | some d =>
    if r.NumUsed > 0 then
      ({ r with oHead := (r.oHead + 1) % U32 % r.MaxCount, NumUsed := r.NumUsed - 1 }, 0,
        some (writeByte d 0 (r.pBuffer (r.oHead * r.ItemSize % U32))))
    else (r, 1, some d)
  | none => (r, 1, none)

/-- The function `KISS_RING_Peek`: the return code and the memory at `pDest` after the
call. -/
def KISS_RING_Peek (r : KISS_RING) (pDest : Mem) : Nat × Mem :=
  if r.NumUsed > 0 then
    (0, memcpy pDest 0 (fun i => r.pBuffer (r.oHead * r.ItemSize % U32 + i)) r.ItemSize)
  else (1, pDest)

/-- The function `KISS_RING_GetPtr`: the ring, the return code and the pointer held by
`*ppDest` after the call, as an offset into the buffer; `none` is a `NULL` `ppDest`. -/
def KISS_RING_GetPtr (r : KISS_RING) (ppDest : Option Nat) : KISS_RING × Nat × Option Nat :=
  match ppDest with
  | some old =>
    if r.NumUsed > 0 then
      ({ r with UseCount := (r.UseCount + 1) % U16 }, 0,
        some (r.oHead * r.ItemSize % U32))
    else (r, 1, some old)
  | none => (r, 1, none)

def KISS_RING_Purge (r : KISS_RING) : KISS_RING :=
  let r1 := if r.UseCount > 0 then { r with UseCount := r.UseCount - 1 } else r
  if r1.UseCount = 0 then
    if r1.NumUsed > 0 then
      { r1 with oHead := (r1.oHead + 1) % U32 % r1.MaxCount, NumUsed := r1.NumUsed - 1 }
    else r1
  else r1

def KISS_RING_GetItemCnt (r : KISS_RING) : Int := toInt r.NumUsed

/-! ### Call sequences on the ring -/

/-- One call on the ring with valid pointers: an element to put, or a retrieval into a
destination. -/
inductive RingOp where
  | put (pElement : Mem) : RingOp
  | put1 (pElement : Mem) : RingOp
  | putFront (pElement : Mem) : RingOp
  | putFront1 (pElement : Mem) : RingOp
  | get : RingOp
  | get1 : RingOp

/-- The calls that store a single character. -/
def RingOp.isChar : RingOp → Bool
  | RingOp.put1 _ => true
  | RingOp.putFront1 _ => true
  | _ => false

/-- What one call observes: the return code, the bytes delivered at the destination (none
for a put or a failed call) and `KISS_RING_GetItemCnt` after the call. -/
structure RingObs where
  rc : Nat
  data : List Nat
  cnt : Int
  deriving DecidableEq

/-- One call on the ring; a retrieval gets a zero-filled destination and the observation
reads `ItemSize` bytes (one byte for `Get1`) from it. -/
def ringStep (r : KISS_RING) : RingOp → KISS_RING × RingObs
  | RingOp.put e =>
    ((KISS_RING_Put r e).1,
      { rc := (KISS_RING_Put r e).2, data := [],
        cnt := KISS_RING_GetItemCnt (KISS_RING_Put r e).1 })
  | RingOp.put1 e =>
    ((KISS_RING_Put1 r e).1,
      { rc := (KISS_RING_Put1 r e).2, data := [],
        cnt := KISS_RING_GetItemCnt (KISS_RING_Put1 r e).1 })
  | RingOp.putFront e =>
    ((KISS_RING_PutFront r e).1,
      { rc := (KISS_RING_PutFront r e).2, data := [],
        cnt := KISS_RING_GetItemCnt (KISS_RING_PutFront r e).1 })
  | RingOp.putFront1 e =>
    ((KISS_RING_PutFront1 r e).1,
      { rc := (KISS_RING_PutFront1 r e).2, data := [],
        cnt := KISS_RING_GetItemCnt (KISS_RING_PutFront1 r e).1 })
  | RingOp.get =>
    ((KISS_RING_Get r (some zeroMem)).1,
      { rc := (KISS_RING_Get r (some zeroMem)).2.1
        data := if (KISS_RING_Get r (some zeroMem)).2.1 = 0 then
            readBytes ((KISS_RING_Get r (some zeroMem)).2.2.getD zeroMem) 0 r.ItemSize
          else []
        cnt := KISS_RING_GetItemCnt (KISS_RING_Get r (some zeroMem)).1 })
  | RingOp.get1 =>
    ((KISS_RING_Get1 r (some zeroMem)).1,
      { rc := (KISS_RING_Get1 r (some zeroMem)).2.1
        data := if (KISS_RING_Get1 r (some zeroMem)).2.1 = 0 then
            readBytes ((KISS_RING_Get1 r (some zeroMem)).2.2.getD zeroMem) 0 1
          else []
        cnt := KISS_RING_GetItemCnt (KISS_RING_Get1 r (some zeroMem)).1 })

/-- A sequence of calls on the ring: the ring after them and what each call observed. -/
def ringRun : KISS_RING → List RingOp → KISS_RING × List RingObs
  | r, [] => (r, [])
  | r, op :: ops =>
    ((ringRun (ringStep r op).1 ops).1, (ringStep r op).2 :: (ringRun (ringStep r op).1 ops).2)

/-! ### The list model of the ring -/

/-- One call on the list model of a ring of capacity `m` with items of `s` bytes: the
items are kept oldest first; a put appends while fewer than `m` items are held, a put to
the front prepends, a retrieval removes the oldest item and delivers it (`Get1` its first
byte). -/
def modelStep (m s : Nat) (L : List (List Nat)) : RingOp → List (List Nat) × RingObs
  | RingOp.put e =>
    if L.length < m then (L ++ [readBytes e 0 s], { rc := 0, data := [], cnt := L.length + 1 })
    else (L, { rc := 1, data := [], cnt := L.length })
  | RingOp.put1 e =>
    if L.length < m then (L ++ [[e 0 % 256]], { rc := 0, data := [], cnt := L.length + 1 })
    else (L, { rc := 1, data := [], cnt := L.length })
  | RingOp.putFront e =>
    if L.length < m then (readBytes e 0 s :: L, { rc := 0, data := [], cnt := L.length + 1 })
    else (L, { rc := 1, data := [], cnt := L.length })
  | RingOp.putFront1 e =>
    if L.length < m then ([e 0 % 256] :: L, { rc := 0, data := [], cnt := L.length + 1 })
    else (L, { rc := 1, data := [], cnt := L.length })
  | RingOp.get =>
    match L with
    | x :: L2 => (L2, { rc := 0, data := x, cnt := L2.length })
    | [] => ([], { rc := 1, data := [], cnt := 0 })
  | RingOp.get1 =>
    match L with
    | x :: L2 => (L2, { rc := 0, data := [x.getD 0 0 % 256], cnt := L2.length })
    | [] => ([], { rc := 1, data := [], cnt := 0 })

/-- A sequence of calls on the list model. -/
def modelRun (m s : Nat) : List (List Nat) → List RingOp → List (List Nat) × List RingObs
  | L, [] => (L, [])
  | L, op :: ops =>
    ((modelRun m s (modelStep m s L op).1 ops).1,
      (modelStep m s L op).2 :: (modelRun m s (modelStep m s L op).1 ops).2)

/-- The ring `r` of capacity `m` with items of `s` bytes holds the items `L`, oldest
first: `L[i]` is stored in slot `(oHead + i) mod m`. -/
def RingHolds (m s : Nat) (r : KISS_RING) (L : List (List Nat)) : Prop :=
  r.MaxCount = m ∧ r.ItemSize = s ∧ r.NumUsed = L.length ∧ L.length ≤ m ∧ r.oHead < m ∧
  r.oTail = (r.oHead + L.length) % m ∧
  ∀ i, i < L.length → readBytes r.pBuffer ((r.oHead + i) % m * s) s = L.getD i []

/-- The calls that push the characters of `str` to the front of the ring, last character
first. -/
def pushFrontOps (str : List Nat) : List RingOp :=
  str.reverse.map (fun c => RingOp.putFront1 (bytes [c]))

/-! ## KISS_ARENA -/

/-- The arena object; pointers are 64-bit addresses, so pointer arithmetic is taken modulo
`2^64`. -/
structure KISS_ARENA where
  pArena : Nat
  pArenaTop : Nat
  ArenaSize : Nat
  deriving DecidableEq

def KISS_ARENA_Create (pBuffer Size : Nat) : KISS_ARENA :=
  { ArenaSize := Size
    pArena := (pBuffer + Size + U64 - 1) % U64
    pArenaTop := (pBuffer + Size + U64 - 1) % U64 }

def KISS_ARENA_Clear (a : KISS_ARENA) : KISS_ARENA :=
  { a with pArenaTop := a.pArena }

/-- The function `KISS_ARENA_BytesAllocated`: the pointer difference, converted to
`KISS_UINT` and returned as `int`. -/
def KISS_ARENA_BytesAllocated (a : KISS_ARENA) : Int :=
  toInt ((a.pArena + U64 - a.pArenaTop) % U64 % U32)

/-- The function `KISS_ARENA_Alloc`: the arena and the returned pointer (`0` is
`NULL`). -/
def KISS_ARENA_Alloc (a : KISS_ARENA) (Size : Nat) : KISS_ARENA × Nat :=
  let pResult := (a.pArenaTop + U64 - Size) % U64
  if pResult ≥ (a.pArena + U64 - a.ArenaSize) % U64 then
    ({ a with pArenaTop := pResult }, pResult)
  else (a, 0)

/-! ### Call sequences on the arena -/

/-- One call on the arena: `KISS_ARENA_Alloc` with a 32-bit size, or `KISS_ARENA_Clear`. -/
inductive ArenaOp where
  | alloc (Size : Nat) : ArenaOp
  | clear : ArenaOp
  deriving DecidableEq

/-- The arena after one call; the size argument is converted to `KISS_UINT`. -/
def arenaStep (a : KISS_ARENA) : ArenaOp → KISS_ARENA
  | ArenaOp.alloc Size => (KISS_ARENA_Alloc a (Size % U32)).1
  | ArenaOp.clear => KISS_ARENA_Clear a

/-- The arena after a sequence of calls. -/
def arenaRun : KISS_ARENA → List ArenaOp → KISS_ARENA
  | a, [] => a
  | a, op :: ops => arenaRun (arenaStep a op) ops

/-- Invariant of an arena over the `A` bytes at address `p`: `pArena` is the address of the
last byte and the top lies between one below the buffer and `pArena`. -/
def ArenaInv (p A : Nat) (a : KISS_ARENA) : Prop :=
  a.ArenaSize = A ∧ a.pArena = p + A - 1 ∧ p - 1 ≤ a.pArenaTop ∧ a.pArenaTop ≤ p + A - 1


/-! ### Aligned allocation in the arena -/

/-- The macro `KISS_ALIGN_DOWN(n, a)` as `KISS_ARENA_AllocEx` uses it: `n` is a 64-bit
`uintptr_t` and `a` a 32-bit `KISS_UINT`, so `~((a) - 1)` is a 32-bit value that is
zero-extended before the `&`. -/
def KISS_ALIGN_DOWN (n a : Nat) : Nat :=
  n &&& (U32 - 1 - (a + U32 - 1) % U32)

/-- The function `KISS_ARENA_AllocEx`: the arena and the returned pointer (`0` is
`NULL`). -/
def KISS_ARENA_AllocEx (a : KISS_ARENA) (Size Alignment : Nat) : KISS_ARENA × Nat :=
  let pResult := KISS_ALIGN_DOWN ((a.pArenaTop + U64 - Size) % U64) Alignment
  if pResult ≥ (a.pArena + U64 - a.ArenaSize) % U64 then
    ({ a with pArenaTop := pResult }, pResult)
  else (a, 0)


/-! ### Arbitrary calls on the ring -/

/-- One call of a function of the ring with arbitrary arguments; `none` is a `NULL`
pointer. -/
inductive RingCall where
  | put (pElement : Mem) : RingCall
  | put1 (pElement : Mem) : RingCall
  | putFront (pElement : Mem) : RingCall
  | putFront1 (pElement : Mem) : RingCall
  | get (pData : Option Mem) : RingCall
  | get1 (pData : Option Mem) : RingCall
  | peek (pDest : Mem) : RingCall
  | getPtr (ppDest : Option Nat) : RingCall
  | purge : RingCall
  | clear : RingCall

/-- The ring after one call. -/
def ringCall (r : KISS_RING) : RingCall → KISS_RING
  | RingCall.put e => (KISS_RING_Put r e).1
  | RingCall.put1 e => (KISS_RING_Put1 r e).1
  | RingCall.putFront e => (KISS_RING_PutFront r e).1
  | RingCall.putFront1 e => (KISS_RING_PutFront1 r e).1
  | RingCall.get d => (KISS_RING_Get r d).1
  | RingCall.get1 d => (KISS_RING_Get1 r d).1
  | RingCall.peek _ => r
  | RingCall.getPtr pp => (KISS_RING_GetPtr r pp).1
  | RingCall.purge => KISS_RING_Purge r
  | RingCall.clear => KISS_RING_Clear r

/-- The ring after a sequence of calls. -/
def ringCalls : KISS_RING → List RingCall → KISS_RING
  | r, [] => r
  | r, c :: cs => ringCalls (ringCall r c) cs

/-- The index invariant of a ring with `m` slots. -/
def RingIndexInv (m : Nat) (r : KISS_RING) : Prop :=
  r.MaxCount = m ∧ r.oHead < m ∧ r.oTail < m ∧ r.NumUsed ≤ m ∧
  r.oTail = (r.oHead + r.NumUsed) % m

/-! ### The placement of a record in the queue (specification side) -/

/-- A successful placement as the description of the placement algorithm words it: the
call `r` on the queue `q` returned 0, the header at `pos` holds the next-offset
`pos + 8 + Size` and the size, the payload bytes follow the header, the bytes outside the
record are those of `base`, the record is the tail, the item count grew by one, and the
head, the use count and the total size are those of `q`. -/
def PlacedAt (q : KISS_QUEUE) (base src : Mem) (Size pos : Nat) (r : KISS_QUEUE × Int) : Prop :=
  r.2 = 0 ∧
  read32 r.1.pBuffer pos = pos + sizeofItem + Size ∧
  read32 r.1.pBuffer (pos + 4) = Size ∧
  readBytes r.1.pBuffer (pos + sizeofItem) Size = readBytes src 0 Size ∧
  (∀ x, x < pos ∨ pos + sizeofItem + Size ≤ x → r.1.pBuffer x = base x) ∧
  r.1.oTail = pos ∧
  r.1.NumElements = q.NumElements + 1 ∧
  r.1.oHead = q.oHead ∧
  r.1.UseCount = q.UseCount ∧
  r.1.TotalSize = q.TotalSize

/-! ## KISS_ARRAY -/

/-- The array object; `pBuffer` is the storage region, indexed by offset. -/
structure KISS_ARRAY where
  pBuffer : Mem
  Capacity : Nat
  Count : Nat
  ItemSize : Nat

/-- Conversion of an `int` value to `uint32_t`. -/
def toU32 (i : Int) : Nat := (i % 4294967296).toNat

/-- Conversion of an `int` value to `size_t`. -/
def toU64 (i : Int) : Nat := (i % 18446744073709551616).toNat

def KISS_ARRAY_Create (ItemSize ItemCapacity : Nat) (pMemBuffer : Mem) : KISS_ARRAY :=
  { pBuffer := pMemBuffer, Capacity := ItemCapacity, Count := 0, ItemSize := ItemSize }

def KISS_ARRAY_Clear (a : KISS_ARRAY) : KISS_ARRAY :=
  { a with Count := 0 }

def KISS_ARRAY_GetItemSize (a : KISS_ARRAY) : Nat := a.ItemSize

def KISS_ARRAY_GetItemCount (a : KISS_ARRAY) : Nat := a.Count

def KISS_ARRAY_GetItemCapacity (a : KISS_ARRAY) : Nat := a.Capacity

/-- The loop of `__MakeSpaceInArray`, `idx` running down to 1: the element at index
`idx - 1` behind `pSrc` is copied to the same index behind `pDst`; the byte offset is a
32-bit product. -/
def makeSpaceLoop (pDst pSrc ElementSize : Nat) : Nat → Mem → Mem
  | 0, m => m
  | idx + 1, m =>
    let offset := ElementSize * idx % U32
    makeSpaceLoop pDst pSrc ElementSize idx
      (memcpy m (pDst + offset) (fun i => m (pSrc + offset + i)) ElementSize)

/-- The function `__MakeSpaceInArray`; the loop counter is `int idx = Count`. -/
def __MakeSpaceInArray (m : Mem) (pDst pSrc ElementSize Count : Nat) : Mem :=
  makeSpaceLoop pDst pSrc ElementSize (toInt Count).toNat m

/-- The loop of `__FillHoleInArray` with `r` iterations left, `idx` running up. -/
def fillHoleLoop (pDst pSrc ElementSize : Nat) : Nat → Nat → Mem → Mem
  | 0, _, m => m
  | r + 1, idx, m =>
    let offset := ElementSize * idx % U32
    fillHoleLoop pDst pSrc ElementSize r (idx + 1)
      (memcpy m (pDst + offset) (fun i => m (pSrc + offset + i)) ElementSize)

/-- The function `__FillHoleInArray`; the loop runs while `idx < (int)Count`. -/
def __FillHoleInArray (m : Mem) (pDst pSrc ElementSize Count : Nat) : Mem :=
  fillHoleLoop pDst pSrc ElementSize (toInt Count).toNat 0 m

/-- The end of the insert functions: copy the item to `pDstItem`, or zero the element
when `pItem` is `NULL` (`none`). -/
def storeItem (m : Mem) (pDstItem : Nat) (pItem : Option Mem) (ItemSize : Nat) : Mem :=
  match pItem with
  | some src => memcpy m pDstItem src ItemSize
  | none => memset m pDstItem 0 ItemSize

/-- The function `KISS_ARRAY_PutFront`: the array and the returned pointer as an offset
into the buffer (`none` is `NULL`). -/
def KISS_ARRAY_PutFront (a : KISS_ARRAY) (pItem : Option Mem) : KISS_ARRAY × Option Nat :=
  if a.Count ≥ a.Capacity then (a, none)
  else
    let pDstItem := 0
    let m1 := __MakeSpaceInArray a.pBuffer (1 * a.ItemSize % U64) pDstItem a.ItemSize a.Count
    ({ a with pBuffer := storeItem m1 pDstItem pItem a.ItemSize, Count := (a.Count + 1) % U32 },
      some pDstItem)

def KISS_ARRAY_PutBack (a : KISS_ARRAY) (pItem : Option Mem) : KISS_ARRAY × Option Nat :=
  if a.Count ≥ a.Capacity then (a, none)
  else
    let pDstItem := a.ItemSize * a.Count % U64
    ({ a with pBuffer := storeItem a.pBuffer pDstItem pItem a.ItemSize,
              Count := (a.Count + 1) % U32 }, some pDstItem)

def KISS_ARRAY_InsertAt (a : KISS_ARRAY) (Position : Int) (pItem : Option Mem) :
    KISS_ARRAY × Option Nat :=
  if a.Count ≥ a.Capacity then (a, none)
  else
    let Position := if Position < 0 then toInt (a.Count + toU32 Position + 1) else Position
    if Position ≥ 0 ∧ Position ≤ toInt a.Count then
      let pDstItem := a.ItemSize * Position.toNat % U64
      let m1 := __MakeSpaceInArray a.pBuffer ((Position.toNat + 1) * a.ItemSize % U64) pDstItem
        a.ItemSize ((a.Count + U32 - Position.toNat) % U32)
      ({ a with pBuffer := storeItem m1 pDstItem pItem a.ItemSize,
                Count := (a.Count + 1) % U32 }, some pDstItem)
    else (a, none)

/-- The copy loop at the end of `KISS_ARRAY_Splice` with `r` iterations left. -/
def spliceCopyLoop (pItems : Mem) (ItemSize : Nat) : Nat → Nat → Nat → Mem → Mem
  | 0, _, _, m => m
  | r + 1, i, pDst, m =>
    spliceCopyLoop pItems ItemSize r (i + 1) ((pDst + ItemSize) % U64)
      (memcpy m pDst (fun j => pItems (ItemSize * i % U64 + j)) ItemSize)

/-- The function `KISS_ARRAY_Splice`; `pItems` is only read when `ItemCount > 0`. -/
def KISS_ARRAY_Splice (a : KISS_ARRAY) (StartIndex : Int) (DeleteCount : Nat) (pItems : Mem)
    (ItemCount : Nat) : KISS_ARRAY × Int :=
  if DeleteCount > a.Count then (a, -1)
  else if (a.Count + ItemCount + U32 - DeleteCount) % U32 ≥ a.Capacity then (a, -1)
  else
    let StartIndex := if StartIndex < 0 then toInt (a.Count + toU32 StartIndex + 1)
      else StartIndex
    if StartIndex ≥ 0 ∧ StartIndex ≤ toInt a.Count then
      let pDst := a.ItemSize * StartIndex.toNat % U64
      let r : Mem × Nat :=
        if DeleteCount > ItemCount then
          let delta := toInt (DeleteCount + U32 - ItemCount)
          let pSrc := (pDst + toU64 delta * a.ItemSize) % U64
          (__FillHoleInArray a.pBuffer pDst pSrc a.ItemSize
              ((a.Count + U32 - toU32 (StartIndex + delta)) % U32),
            (a.Count + U32 - toU32 delta) % U32)
        else if ItemCount > DeleteCount then
          let delta := toInt (ItemCount + U32 - DeleteCount)
          let pSrc := (pDst + toU64 delta * a.ItemSize) % U64
          (__MakeSpaceInArray a.pBuffer pSrc pDst a.ItemSize
              ((a.Count + U32 - toU32 (StartIndex + delta)) % U32),
            (a.Count + toU32 delta) % U32)
        else (a.pBuffer, a.Count)
      ({ a with pBuffer := spliceCopyLoop pItems a.ItemSize ItemCount 0 pDst r.1,
                Count := r.2 }, toInt r.2)
    else (a, -1)

/-- The function `KISS_ARRAY_Erase`: the array and the returned `int`. -/
def KISS_ARRAY_Erase (a : KISS_ARRAY) (Position : Int) (Num : Nat) : KISS_ARRAY × Int :=
  if a.Count > 0 then
    let Position := if Position < 0 then toInt (a.Count + toU32 Position) else Position
    if Position ≥ 0 ∧ Position < toInt a.Count then
      let r : Mem × Nat :=
        if (Position.toNat + Num) % U32 > a.Count then
          (a.pBuffer, (a.Count + U32 - Position.toNat) % U32)
        else
          (__FillHoleInArray a.pBuffer (Position.toNat * a.ItemSize % U64)
              ((Position.toNat + Num) * a.ItemSize % U64) a.ItemSize
              ((a.Count + U32 - (Position.toNat + Num) % U32) % U32), Num)
      let pEnd := (a.Count + U64 - r.2) % U64 * a.ItemSize % U64
      let cnt := (a.Count + U32 - r.2) % U32
      ({ a with pBuffer := memset r.1 pEnd 0 (a.ItemSize * r.2 % U64), Count := cnt }, toInt cnt)
    else (a, 0)
  else (a, 0)

/-- The function `KISS_ARRAY_Remove`: the array and the returned `int`. -/
def KISS_ARRAY_Remove (a : KISS_ARRAY) (Position : Int) (Num : Nat) : KISS_ARRAY × Int :=
  if a.Count > 0 then
    let Position := if Position < 0 then toInt (a.Count + toU32 Position) else Position
    if Position ≥ 0 ∧ Position < toInt a.Count then
      let Num1 := if (Position.toNat + Num) % U32 > a.Count then
          (a.Count + U32 - Position.toNat) % U32 else Num
      let pDestElements := Position.toNat * a.ItemSize % U64
      let pSrcElements := (a.Count + U32 - Num1) % U32 * a.ItemSize % U64
      let m1 := if pDestElements ≠ pSrcElements then
          __FillHoleInArray a.pBuffer pDestElements pSrcElements a.ItemSize Num1
        else a.pBuffer
      let cnt := (a.Count + U32 - Num1) % U32
      ({ a with pBuffer := memset m1 pSrcElements 0 (a.ItemSize * Num1 % U64), Count := cnt },
        toInt cnt)
    else (a, 0)
  else (a, 0)

/-! ### Test drivers for the array -/

/-- Call `KISS_ARRAY_PutBack` with the items in list order. -/
def putBackAll : KISS_ARRAY → List (List Nat) → KISS_ARRAY
  | a, [] => a
  | a, x :: xs => putBackAll (KISS_ARRAY_PutBack a (some (bytes x))).1 xs

/-! ### The elements of an array (specification side) -/

/-- The elements `k, ..., k + c - 1` of an array stored in `m` with element size `s`. -/
def readItems (m : Mem) (s : Nat) : Nat → Nat → List (List Nat)
  | _, 0 => []
  | k, c + 1 => readBytes m (k * s) s :: readItems m s (k + 1) c

/-- The elements the array holds, in order. -/
def arrayItems (a : KISS_ARRAY) : List (List Nat) :=
  readItems a.pBuffer a.ItemSize 0 a.Count

/-- The bytes of the element an insert function is to store for `pItem`: the item, or
zeroes for `NULL`. -/
def itemBytes (pItem : Option Mem) (s : Nat) : List Nat :=
  match pItem with
  | some src => readBytes src 0 s
  | none => List.replicate s 0

/-! ## Lemmas

### Memory -/

theorem write32_outside (m : Mem) (a v x : Nat) (h : x < a ∨ a + 4 ≤ x) :
    write32 m a v x = m x := by
  unfold write32
  have h0 : x ≠ a := by omega
  have h1 : x ≠ a + 1 := by omega
  have h2 : x ≠ a + 2 := by omega
  have h3 : x ≠ a + 3 := by omega
  simp [h0, h1, h2, h3]

theorem read32_congr (m m2 : Mem) (a : Nat)
    (h : ∀ x, a ≤ x → x < a + 4 → m2 x = m x) : read32 m2 a = read32 m a := by
  unfold read32
  rw [h a (by omega) (by omega), h (a + 1) (by omega) (by omega),
    h (a + 2) (by omega) (by omega), h (a + 3) (by omega) (by omega)]

theorem read32_lt (m : Mem) (a : Nat) : read32 m a < U32 := by
  unfold read32 U32
  omega

theorem read32_write32_same (m : Mem) (a v : Nat) :
    read32 (write32 m a v) a = v % U32 := by
  unfold read32 write32 U32
  simp
  omega

theorem read32_write32_disj (m : Mem) (a v b : Nat) (h : b + 4 ≤ a ∨ a + 4 ≤ b) :
    read32 (write32 m a v) b = read32 m b := by
  apply read32_congr
  intro x h1 h2
  exact write32_outside m a v x (by omega)

theorem memcpy_outside (m : Mem) (d : Nat) (s : Mem) (n x : Nat) (h : x < d ∨ d + n ≤ x) :
    memcpy m d s n x = m x := by
  unfold memcpy
  have : ¬ (d ≤ x ∧ x < d + n) := by omega
  simp [this]

theorem memcpy_inside (m : Mem) (d : Nat) (s : Mem) (n i : Nat) (h : i < n) :
    memcpy m d s n (d + i) = s i := by
  unfold memcpy
  have : d ≤ d + i ∧ d + i < d + n := by omega
  simp [this]

theorem readBytes_congr (m m2 : Mem) (n a : Nat)
    (h : ∀ x, a ≤ x → x < a + n → m2 x = m x) : readBytes m2 a n = readBytes m a n := by
  induction n generalizing a with
  | zero => rfl
  | succ n ih =>
    simp only [readBytes]
    rw [h a (by omega) (by omega), ih (a + 1) (fun x h1 h2 => h x (by omega) (by omega))]

theorem readBytes_eq (x : List Nat) (m : Mem) (a : Nat)
    (h : ∀ i, i < x.length → m (a + i) = bytes x i) : readBytes m a x.length = x := by
  induction x generalizing a with
  | nil => rfl
  | cons y ys ih =>
    simp only [List.length_cons, readBytes]
    have h0 := h 0 (by simp)
    simp [bytes] at h0
    rw [h0, ih (a + 1)]
    intro i hi
    have := h (i + 1) (by simp; omega)
    simp [bytes] at this
    simp [bytes]
    rw [← this]
    congr 1
    omega

theorem read32_zeroMem (a : Nat) : read32 zeroMem a = 0 := by
  simp [read32, zeroMem]

/-! ### Queue: records stored back to back -/

theorem recordBytes_length (xs : List (List Nat)) : 8 * xs.length ≤ recordBytes xs := by
  induction xs with
  | nil => simp [recordBytes]
  | cons x xs ih => simp [recordBytes, sizeofItem]; omega

theorem toInt_small (v : Nat) (h : v < 2147483648) : toInt v = v := by
  unfold toInt U32
  have : v % 4294967296 = v := by omega
  simp [this, h]

/-- A put that fits behind the tail record is accepted there. -/
theorem put_fits (q : KISS_QUEUE) (src : Mem) (Size : Nat)
    (hfit : read32 q.pBuffer q.oTail + sizeofItem + Size ≤ q.TotalSize)
    (hT : q.TotalSize < U32) :
    KISS_QUEUE_Put q src Size =
      ({ q with
          pBuffer := memcpy (write32 (write32 q.pBuffer (read32 q.pBuffer q.oTail)
              (read32 q.pBuffer q.oTail + sizeofItem + Size))
              (read32 q.pBuffer q.oTail + 4) Size)
            (read32 q.pBuffer q.oTail + sizeofItem) src Size
          oTail := read32 q.pBuffer q.oTail
          NumElements := (q.NumElements + 1) % U32 }, 0) := by
  have h1 : (read32 q.pBuffer q.oTail + sizeofItem + Size) % U32
      = read32 q.pBuffer q.oTail + sizeofItem + Size := Nat.mod_eq_of_lt (by omega)
  have h2 : Size % U32 = Size := Nat.mod_eq_of_lt (by unfold sizeofItem at hfit; omega)
  simp only [KISS_QUEUE_Put, __alloc_item, placeItem, h1, h2]
  rw [if_pos (Or.inl hfit)]

theorem putAll_fits (xs : List (List Nat)) (q : KISS_QUEUE)
    (hfit : read32 q.pBuffer q.oTail + recordBytes xs ≤ q.TotalSize)
    (hT : q.TotalSize < U32) (hn : q.NumElements + xs.length < U32) :
    (putAll q xs).2 = (layout (read32 q.pBuffer q.oTail) xs).map (fun pos => (0, pos)) ∧
    (putAll q xs).1.NumElements = q.NumElements + xs.length ∧
    (putAll q xs).1.oHead = q.oHead ∧
    (putAll q xs).1.TotalSize = q.TotalSize ∧
    (∀ a, a < read32 q.pBuffer q.oTail → (putAll q xs).1.pBuffer a = q.pBuffer a) ∧
    read32 (putAll q xs).1.pBuffer (putAll q xs).1.oTail
      = read32 q.pBuffer q.oTail + recordBytes xs ∧
    Chain (putAll q xs).1.pBuffer (read32 q.pBuffer q.oTail) xs := by
  induction xs generalizing q with
  | nil => simp [putAll, layout, Chain, recordBytes]
  | cons x xs ih =>
    have hrb : recordBytes (x :: xs) = sizeofItem + x.length + recordBytes xs := rfl
    rw [hrb] at hfit
    have hput := put_fits q (bytes x) x.length (by omega) hT
    have hlen : (x :: xs).length = xs.length + 1 := by simp
    rw [hlen] at hn
    have hne : (q.NumElements + 1) % U32 = q.NumElements + 1 := Nat.mod_eq_of_lt (by omega)
    simp only [putAll, hput, layout, Chain, hne]
    generalize hw : read32 q.pBuffer q.oTail = w at *
    have hx : x.length < U32 := by unfold sizeofItem at hfit; omega
    -- the buffer after the first put
    generalize hb1 : memcpy (write32 (write32 q.pBuffer w (w + sizeofItem + x.length))
        (w + 4) x.length) (w + sizeofItem) (bytes x) x.length = b1 at *
    have hb1w : read32 b1 w = w + sizeofItem + x.length := by
      rw [← hb1]
      rw [read32_congr _ _ w (fun y h1 h2 => memcpy_outside _ _ _ _ y (by unfold sizeofItem; omega))]
      rw [read32_write32_disj _ _ _ _ (by omega), read32_write32_same]
      exact Nat.mod_eq_of_lt (by omega)
    have hb1s : read32 b1 (w + 4) = x.length := by
      rw [← hb1]
      rw [read32_congr _ _ (w + 4) (fun y h1 h2 => memcpy_outside _ _ _ _ y (by unfold sizeofItem; omega))]
      rw [read32_write32_same]
      exact Nat.mod_eq_of_lt hx
    have hb1d : readBytes b1 (w + sizeofItem) x.length = x := by
      apply readBytes_eq
      intro i hi
      rw [← hb1]
      exact memcpy_inside _ _ _ _ i hi
    have hb1lo : ∀ a, a < w → b1 a = q.pBuffer a := by
      intro a ha
      rw [← hb1, memcpy_outside _ _ _ _ a (by omega), write32_outside _ _ _ a (by omega),
        write32_outside _ _ _ a (by omega)]
    have IH := ih { q with pBuffer := b1, oTail := w, NumElements := q.NumElements + 1 }
      (by simp only [hb1w]; omega) hT (by simp only; omega)
    simp only [hb1w] at IH
    obtain ⟨i1, i2, i3, i4, i5, i7, i6⟩ := IH
    refine ⟨?_, ?_, i3, i4, ?_, ?_, ?_, ?_, ?_, i6⟩
    · simp [i1]
    · rw [i2, hlen]; omega
    · intro a ha
      rw [i5 a (by omega), hb1lo a ha]
    · rw [i7, hrb]; omega
    · rw [read32_congr b1 _ w (fun y h1 h2 => i5 y (by unfold sizeofItem; omega)), hb1w]
    · rw [read32_congr b1 _ (w + 4) (fun y h1 h2 => i5 y (by unfold sizeofItem; omega)), hb1s]
    · rw [readBytes_congr b1 _ _ _ (fun y h1 h2 => i5 y (by omega)), hb1d]

theorem getAll_chain (xs : List (List Nat)) (q : KISS_QUEUE)
    (hc : Chain q.pBuffer q.oHead xs) (hn : xs.length ≤ q.NumElements)
    (hcnt : q.NumElements < 2147483648) (hlen : ∀ x ∈ xs, x.length < 2147483648) :
    (getAll q (xs.map List.length)).2 = expectObs q.NumElements xs := by
  induction xs generalizing q with
  | nil => simp [getAll, expectObs]
  | cons x xs ih =>
    obtain ⟨c1, c2, c3, c4⟩ := hc
    have hpos : q.NumElements > 0 := by simp at hn; omega
    have hx : x.length < 2147483648 := hlen x (by simp)
    simp only [List.map_cons, getAll, expectObs, getOne, KISS_QUEUE_GetPtr, KISS_QUEUE_Purge,
      KISS_QUEUE_GetItemSize, KISS_QUEUE_GetItemCnt, if_pos hpos, c1, c2, c3, Option.map_some']
    rw [toInt_small _ hx, toInt_small _ hcnt, toInt_small _ (by omega)]
    have IH := ih { q with
        UseCount := if (q.UseCount + 1) % U16 > 0 then (q.UseCount + 1) % U16 - 1
          else (q.UseCount + 1) % U16
        oHead := q.oHead + sizeofItem + x.length
        NumElements := q.NumElements - 1 } c4 (by simp at hn ⊢; omega) (by simp; omega)
      (fun y hy => hlen y (by simp [hy]))
    simp only at IH
    rw [IH]

/-- Retrieving the records of a chain leaves the buffer alone and moves the head behind
them. -/
theorem getAll_state (xs : List (List Nat)) (q : KISS_QUEUE)
    (hc : Chain q.pBuffer q.oHead xs) (hn : xs.length ≤ q.NumElements) :
    (getAll q (xs.map List.length)).1.pBuffer = q.pBuffer ∧
    (getAll q (xs.map List.length)).1.oHead = q.oHead + recordBytes xs ∧
    (getAll q (xs.map List.length)).1.oTail = q.oTail ∧
    (getAll q (xs.map List.length)).1.TotalSize = q.TotalSize ∧
    (getAll q (xs.map List.length)).1.NumElements = q.NumElements - xs.length := by
  induction xs generalizing q with
  | nil => simp [getAll, recordBytes]
  | cons x xs ih =>
    obtain ⟨c1, c2, c3, c4⟩ := hc
    have hpos : q.NumElements > 0 := by simp at hn; omega
    simp only [List.map_cons, getAll, getOne, KISS_QUEUE_GetPtr, KISS_QUEUE_Purge,
      if_pos hpos, c1]
    have IH := ih { q with
        UseCount := if (q.UseCount + 1) % U16 > 0 then (q.UseCount + 1) % U16 - 1
          else (q.UseCount + 1) % U16
        oHead := q.oHead + sizeofItem + x.length
        NumElements := q.NumElements - 1 } c4 (by simp at hn ⊢; omega)
    simp only at IH
    obtain ⟨i1, i2, i3, i4, i5⟩ := IH
    refine ⟨i1, ?_, i3, i4, ?_⟩
    · rw [i2]; simp only [recordBytes]; omega
    · rw [i5]; simp only [List.length_cons]; omega

theorem chain_append (m : Mem) (xs ys : List (List Nat)) (pos : Nat)
    (h : Chain m pos (xs ++ ys)) : Chain m pos xs := by
  induction xs generalizing pos with
  | nil => trivial
  | cons x xs ih =>
    obtain ⟨c1, c2, c3, c4⟩ := h
    exact ⟨c1, c2, c3, ih _ c4⟩

/-- A put that does not fit behind the tail record but is smaller than the space before
the head is placed at offset 0. -/
theorem put_wraps (q : KISS_QUEUE) (src : Mem) (Size : Nat)
    (h1 : q.TotalSize < read32 q.pBuffer q.oTail + sizeofItem + Size)
    (h2 : q.oHead < read32 q.pBuffer q.oTail + sizeofItem + Size)
    (h3 : read32 q.pBuffer q.oTail + sizeofItem + Size < U32)
    (h4 : sizeofItem + Size < q.oHead) :
    KISS_QUEUE_Put q src Size =
      ({ q with
          pBuffer := memcpy (write32 (write32 (write32 q.pBuffer q.oTail 0) 0
              (sizeofItem + Size)) 4 Size) sizeofItem src Size
          oTail := 0
          NumElements := (q.NumElements + 1) % U32 }, 0) := by
  have e1 : (read32 q.pBuffer q.oTail + sizeofItem + Size) % U32
      = read32 q.pBuffer q.oTail + sizeofItem + Size := Nat.mod_eq_of_lt h3
  have e2 : Size % U32 = Size := Nat.mod_eq_of_lt (by omega)
  have e3 : (0 + sizeofItem + Size) % U32 = sizeofItem + Size := by
    rw [Nat.zero_add]; exact Nat.mod_eq_of_lt (by omega)
  simp only [KISS_QUEUE_Put, __alloc_item, placeItem, e1, e2, e3]
  rw [if_neg (by omega), if_pos (by omega)]
  simp only [Nat.zero_add]

theorem recordBytes_uniform (xs : List (List Nat)) (s : Nat) (h : ∀ x ∈ xs, x.length = s) :
    recordBytes xs = xs.length * (sizeofItem + s) := by
  induction xs with
  | nil => simp [recordBytes]
  | cons x xs ih =>
    simp only [recordBytes, List.length_cons]
    rw [ih (fun y hy => h y (by simp [hy])), h x (by simp)]
    ring

theorem layout_uniform (xs : List (List Nat)) (s pos : Nat) (h : ∀ x ∈ xs, x.length = s) :
    layout pos xs = (List.range xs.length).map (fun i => pos + (sizeofItem + s) * i) := by
  induction xs generalizing pos with
  | nil => simp [layout]
  | cons x xs ih =>
    simp only [layout, List.length_cons, List.range_succ_eq_map, List.map_cons, List.map_map]
    rw [ih _ (fun y hy => h y (by simp [hy])), h x (by simp)]
    congr 1
    apply List.map_congr_left
    intro i _
    simp only [Function.comp, Nat.succ_eq_add_one]
    ring

theorem expectObs_rc_data (n : Nat) (xs : List (List Nat)) :
    (expectObs n xs).map (fun o => (o.rc, o.data)) = xs.map (fun x => ((0 : Int), some x)) := by
  induction xs generalizing n with
  | nil => rfl
  | cons x xs ih => simp [expectObs, ih]

/-- A put that fits neither behind the tail record nor before the head is refused and
leaves the queue as it is. -/
theorem put_rejected (q : KISS_QUEUE) (src : Mem) (Size : Nat)
    (h1 : q.TotalSize < read32 q.pBuffer q.oTail + sizeofItem + Size)
    (h2 : q.oHead < read32 q.pBuffer q.oTail + sizeofItem + Size)
    (h3 : read32 q.pBuffer q.oTail + sizeofItem + Size < U32)
    (h4 : q.oHead ≤ sizeofItem + Size) :
    KISS_QUEUE_Put q src Size = (q, 1) := by
  have e1 : (read32 q.pBuffer q.oTail + sizeofItem + Size) % U32
      = read32 q.pBuffer q.oTail + sizeofItem + Size := Nat.mod_eq_of_lt h3
  simp only [KISS_QUEUE_Put, __alloc_item, e1]
  rw [if_neg (by omega), if_neg (by omega)]

/-- Exact fill below the 32-bit limit: `n` payloads of `s` bytes fill a fresh queue over a
zero-filled buffer of `n * (8 + s)` bytes, and while `(n + 1) * (8 + s) < 2^32` one more
put of `s` bytes is refused and leaves the item count at `n`. -/
theorem exact_fill_below_limit (xs : List (List Nat)) (s : Nat) (src : Mem)
    (hxs : ∀ x ∈ xs, x.length = s)
    (hlim : (xs.length + 1) * (sizeofItem + s) < U32) :
    (putAll (KISS_QUEUE_Create zeroMem (xs.length * (sizeofItem + s))) xs).2
      = (List.range xs.length).map (fun i => ((0 : Int), (sizeofItem + s) * i)) ∧
    (KISS_QUEUE_Put (putAll (KISS_QUEUE_Create zeroMem (xs.length * (sizeofItem + s))) xs).1
      src s).2 = 1 ∧
    KISS_QUEUE_GetItemCnt (KISS_QUEUE_Put
      (putAll (KISS_QUEUE_Create zeroMem (xs.length * (sizeofItem + s))) xs).1 src s).1
      = xs.length := by
  have hexp : (xs.length + 1) * (sizeofItem + s)
      = xs.length * (sizeofItem + s) + (sizeofItem + s) := by ring
  have hl := recordBytes_length xs
  have hr := recordBytes_uniform xs s hxs
  generalize hT : xs.length * (sizeofItem + s) = T at *
  have hz : read32 (KISS_QUEUE_Create zeroMem T).pBuffer (KISS_QUEUE_Create zeroMem T).oTail
      = 0 := read32_zeroMem _
  have hA := putAll_fits xs (KISS_QUEUE_Create zeroMem T)
    (by rw [hz, hr]; exact le_of_eq (Nat.zero_add T))
    (by show T < U32; unfold sizeofItem at *; omega)
    (by show 0 + xs.length < U32; unfold sizeofItem U32 at *; omega)
  rw [hz, layout_uniform xs s 0 hxs, hr] at hA
  generalize putAll (KISS_QUEUE_Create zeroMem T) xs = r at *
  obtain ⟨a1, a2, a3, a4, _, a7, _⟩ := hA
  have a2' : r.1.NumElements = xs.length := by rw [a2]; exact Nat.zero_add _
  have a3' : r.1.oHead = 0 := a3
  have a4' : r.1.TotalSize = T := a4
  have hrej := put_rejected r.1 src s (by rw [a7, a4']; unfold sizeofItem; omega)
    (by rw [a7, a3']; unfold sizeofItem; omega) (by rw [a7]; unfold sizeofItem at *; omega)
    (by rw [a3']; omega)
  rw [hrej]
  refine ⟨?_, rfl, ?_⟩
  · rw [a1, List.map_map]
    apply List.map_congr_left
    intro i _
    simp
  · unfold KISS_QUEUE_GetItemCnt
    rw [a2', toInt_small _ (by unfold sizeofItem U32 at *; omega)]

/-! ### Pool: allocate, free in order, allocate again -/

theorem read64_write64_same (m : Mem) (a v : Nat) (hv : v < U64) :
    read64 (write64 m a v) a = v := by
  unfold read64 write64
  rw [read32_write32_disj _ _ _ _ (by omega), read32_write32_same, read32_write32_same]
  unfold U32 U64 at *
  omega

theorem read64_write64_disj (m : Mem) (a v b : Nat) (h : a + 8 ≤ b ∨ b + 8 ≤ a) :
    read64 (write64 m a v) b = read64 m b := by
  unfold read64 write64
  rw [read32_write32_disj _ _ _ b (by omega), read32_write32_disj _ _ _ b (by omega),
    read32_write32_disj _ _ _ (b + 4) (by omega), read32_write32_disj _ _ _ (b + 4) (by omega)]

theorem allocN_fresh (n : Nat) (P : KISS_BLOCKPOOL) (k : Nat)
    (hu : P.BlocksUsed = k) (hm : P.MaxUsed = k) (hh : P.pHead = 0) (ht : P.pTail = 0)
    (hk : k + n ≤ P.NumBlocks) (hT : P.NumBlocks < U32)
    (hoff : (k + n) * P.BlockSize ≤ U32) (hB : 0 < P.BlockSize) :
    (allocN P n).2 = blockAddrs P.pPool P.BlockSize k n ∧
    (allocN P n).1.BlocksUsed = k + n ∧ (allocN P n).1.MaxUsed = k + n ∧
    (allocN P n).1.pHead = 0 ∧ (allocN P n).1.pTail = 0 ∧
    (allocN P n).1.NumBlocks = P.NumBlocks ∧ (allocN P n).1.BlockSize = P.BlockSize ∧
    (allocN P n).1.pPool = P.pPool := by
  induction n generalizing P k with
  | zero => simp [allocN, blockAddrs, hu, hm, hh, ht]
  | succ n ih =>
    have h1 : P.BlocksUsed < P.NumBlocks := by omega
    have h2 : ¬ ((P.MaxUsed + U32 - P.BlocksUsed) % U32 > 0 ∧ P.pHead ≠ 0) := by
      simp [hh]
    have h3 : (P.BlocksUsed + 1) % U32 = k + 1 := by
      rw [hu]; exact Nat.mod_eq_of_lt (by omega)
    have h4 : (P.BlocksUsed + 1) % U32 > P.MaxUsed := by rw [h3, hm]; omega
    have h5 : P.MaxUsed * P.BlockSize % U32 = k * P.BlockSize := by
      rw [hm]
      apply Nat.mod_eq_of_lt
      have : (k + (n + 1)) * P.BlockSize = k * P.BlockSize + (n + 1) * P.BlockSize := by ring
      have : (n + 1) * P.BlockSize = n * P.BlockSize + P.BlockSize := by ring
      omega
    have hA : KISS_BLOCKPOOL_Alloc P =
        ({ P with BlocksUsed := k + 1
                  mem := memset P.mem (P.pPool + k * P.BlockSize) 0 P.BlockSize
                  MaxUsed := k + 1 }, P.pPool + k * P.BlockSize) := by
      unfold KISS_BLOCKPOOL_Alloc
      rw [if_pos h1, if_neg h2, if_pos h4]
      simp only [h3, h5]
    simp only [allocN, hA, blockAddrs]
    have IH := ih { P with BlocksUsed := k + 1
                           mem := memset P.mem (P.pPool + k * P.BlockSize) 0 P.BlockSize
                           MaxUsed := k + 1 } (k + 1) rfl rfl hh ht
      (by simp only; omega) hT (by simp only; rw [show k + 1 + n = k + (n + 1) by omega]; exact hoff) hB
    simp only at IH
    obtain ⟨i1, i2, i3, i4, i5, i6, i7, i8⟩ := IH
    refine ⟨by rw [i1], by omega, by omega, i4, i5, i6, i7, i8⟩

theorem isInPool_frame (P Q : KISS_BLOCKPOOL) (b : Nat) (h1 : Q.pPool = P.pPool)
    (h2 : Q.BlockSize = P.BlockSize) (h3 : Q.NumBlocks = P.NumBlocks) :
    KISS_BLOCKPOOL_IsInPool Q b = KISS_BLOCKPOOL_IsInPool P b := by
  unfold KISS_BLOCKPOOL_IsInPool
  rw [h1, h2, h3]

theorem freeAll_links (L : List Nat) (n : Nat) (P : KISS_BLOCKPOOL) (j : Nat)
    (hj : j + n = L.length)
    (hl : LinkedTo P.mem L j)
    (hh : P.pHead = if 0 < j then L.getD 0 0 else 0)
    (ht : P.pTail = if 0 < j then L.getD (j - 1) 0 else 0)
    (hM : P.MaxUsed < U32) (hd : P.BlocksUsed + j = P.MaxUsed) (hn : n ≤ P.BlocksUsed)
    (hsep : Apart L) (hin : ∀ i, i < L.length → KISS_BLOCKPOOL_IsInPool P (L.getD i 0) = true)
    (hlt : ∀ i, i < L.length → L.getD i 0 < U64) :
    LinkedTo (freeAll P (L.drop j)).mem L L.length ∧
    (freeAll P (L.drop j)).pHead = (if 0 < L.length then L.getD 0 0 else 0) ∧
    (freeAll P (L.drop j)).pTail = (if 0 < L.length then L.getD (L.length - 1) 0 else 0) ∧
    (freeAll P (L.drop j)).MaxUsed = P.MaxUsed ∧
    (freeAll P (L.drop j)).BlocksUsed = P.BlocksUsed - n ∧
    (freeAll P (L.drop j)).NumBlocks = P.NumBlocks ∧
    (freeAll P (L.drop j)).BlockSize = P.BlockSize ∧
    (freeAll P (L.drop j)).pPool = P.pPool := by
  induction n generalizing P j with
  | zero =>
    have hjl : j = L.length := by omega
    subst hjl
    simp only [List.drop_length, freeAll]
    refine ⟨hl, hh, ht, ?_⟩
    simp
  | succ n ih =>
    have hjl : j < L.length := by omega
    rw [List.drop_eq_getElem_cons hjl]
    simp only [freeAll]
    have hb : L[j] = L.getD j 0 := (List.getD_eq_getElem L 0 hjl).symm
    rw [hb]
    generalize hbdef : L.getD j 0 = b
    have hbin : KISS_BLOCKPOOL_IsInPool P b = true := by rw [← hbdef]; exact hin j hjl
    have hblt : b < U64 := by rw [← hbdef]; exact hlt j hjl
    have hcond : P.BlocksUsed > 0 ∧ KISS_BLOCKPOOL_IsInPool P b = true := ⟨by omega, hbin⟩
    have hsub : (P.MaxUsed + U32 - P.BlocksUsed) % U32 = j := by
      have : P.MaxUsed + U32 - P.BlocksUsed = j + U32 := by omega
      rw [this]
      have hjlt : j < U32 := by omega
      unfold U32 at *
      omega
    -- separation of block `j` from the earlier ones
    have hsepj : ∀ i, i < j → L.getD i 0 + 8 ≤ b ∨ b + 8 ≤ L.getD i 0 := by
      intro i hi
      rw [← hbdef]
      exact hsep i j hi hjl
    by_cases hj0 : j = 0
    · -- the free list is empty
      subst hj0
      have hF : KISS_BLOCKPOOL_FreeEx P b =
          { P with mem := write64 P.mem b 0, pHead := b, pTail := b,
                   BlocksUsed := P.BlocksUsed - 1 } := by
        unfold KISS_BLOCKPOOL_FreeEx
        rw [if_pos hcond]
        simp only [hsub]
        rw [if_neg (by omega)]
      rw [hF]
      have IH := ih { P with mem := write64 P.mem b 0, pHead := b, pTail := b,
                             BlocksUsed := P.BlocksUsed - 1 } 1 (by omega)
        (by
          intro i hi
          have hi0 : i = 0 := by omega
          subst hi0
          simp only [hbdef]
          rw [read64_write64_same _ _ _ (by unfold U64; omega), if_neg (by omega)])
        (by simp only; rw [if_pos (by omega), hbdef])
        (by simp only; rw [if_pos (by omega)]; exact hbdef.symm)
        hM (by simp only; omega) (by simp only; omega)
        (fun i hi => (isInPool_frame P _ _ rfl rfl rfl).trans (hin i hi))
      obtain ⟨i1, i2, i3, i4, i5, i6, i7, i8⟩ := IH
      refine ⟨i1, i2, i3, i4, ?_, i6, i7, i8⟩
      rw [i5]
      simp only
      omega
    · -- the block is linked behind the tail
      have hjpos : 0 < j := by omega
      rw [if_pos hjpos] at hh ht
      have hF : KISS_BLOCKPOOL_FreeEx P b =
          { P with mem := write64 (write64 P.mem b 0) (L.getD (j - 1) 0) b, pTail := b,
                   BlocksUsed := P.BlocksUsed - 1 } := by
        unfold KISS_BLOCKPOOL_FreeEx
        rw [if_pos hcond]
        simp only [hsub]
        rw [if_pos (by omega), ht]
      rw [hF]
      have hst := hsepj (j - 1) (by omega)
      have IH := ih { P with mem := write64 (write64 P.mem b 0) (L.getD (j - 1) 0) b,
                             pTail := b, BlocksUsed := P.BlocksUsed - 1 } (j + 1) (by omega)
        (by
          intro i hi
          simp only
          by_cases hij : i = j
          · subst hij
            rw [hbdef, read64_write64_disj _ _ _ _ (by omega),
              read64_write64_same _ _ _ (by unfold U64; omega), if_neg (by omega)]
          · by_cases hij1 : i = j - 1
            · subst hij1
              rw [read64_write64_same _ _ _ hblt]
              have : j - 1 + 1 = j := by omega
              rw [this, hbdef, if_pos (by omega)]
            · have h1 := hsepj i (by omega)
              have h2 := hsep i (j - 1) (by omega) (by omega)
              rw [read64_write64_disj _ _ _ _ (by omega),
                read64_write64_disj _ _ _ _ (by omega), hl i (by omega)]
              rw [if_pos (by omega), if_pos (by omega)])
        (by simp only; rw [if_pos (by omega), hh])
        (by simp only; rw [if_pos (by omega)]; exact hbdef.symm)
        hM (by simp only; omega) (by simp only; omega)
        (fun i hi => (isInPool_frame P _ _ rfl rfl rfl).trans (hin i hi))
      obtain ⟨i1, i2, i3, i4, i5, i6, i7, i8⟩ := IH
      refine ⟨i1, i2, i3, i4, ?_, i6, i7, i8⟩
      rw [i5]
      simp only
      omega

theorem allocN_reuse (L : List Nat) (n : Nat) (P : KISS_BLOCKPOOL) (j : Nat)
    (hj : j + n = L.length)
    (hl : ∀ i, j ≤ i → i < L.length → read64 P.mem (L.getD i 0) = L.getD (i + 1) 0)
    (hh : P.pHead = L.getD j 0)
    (ht : P.pTail = if j < L.length then L.getD (L.length - 1) 0 else 0)
    (hM : P.MaxUsed < U32) (hd : P.BlocksUsed + n = P.MaxUsed)
    (hT : P.MaxUsed ≤ P.NumBlocks)
    (hsep : Apart L) (hnz : ∀ i, i < L.length → L.getD i 0 ≠ 0) :
    (allocN P n).2 = L.drop j ∧ (allocN P n).1.MaxUsed = P.MaxUsed ∧
    (allocN P n).1.BlocksUsed = P.MaxUsed := by
  induction n generalizing P j with
  | zero =>
    have hjl : j = L.length := by omega
    subst hjl
    refine ⟨?_, rfl, ?_⟩
    · simp [allocN]
    · simp only [allocN]; omega
  | succ n ih =>
    have hjl : j < L.length := by omega
    rw [if_pos hjl] at ht
    have h1 : P.BlocksUsed < P.NumBlocks := by omega
    have hsub : (P.MaxUsed + U32 - P.BlocksUsed) % U32 = n + 1 := by
      have : P.MaxUsed + U32 - P.BlocksUsed = n + 1 + U32 := by omega
      rw [this]
      have hjlt : n + 1 < U32 := by omega
      unfold U32 at *
      omega
    have h2 : (P.MaxUsed + U32 - P.BlocksUsed) % U32 > 0 ∧ P.pHead ≠ 0 := by
      rw [hsub, hh]
      exact ⟨by omega, hnz j hjl⟩
    have h3 : (P.BlocksUsed + 1) % U32 = P.BlocksUsed + 1 := Nat.mod_eq_of_lt (by omega)
    rw [List.drop_eq_getElem_cons hjl, ← List.getD_eq_getElem L 0 hjl]
    by_cases hlast : j = L.length - 1
    · have hA : KISS_BLOCKPOOL_Alloc P =
          ({ P with BlocksUsed := P.BlocksUsed + 1, pHead := 0, pTail := 0 },
            L.getD j 0) := by
        unfold KISS_BLOCKPOOL_Alloc
        rw [if_pos h1, if_pos h2, if_neg (by rw [hh, ht, ← hlast]; simp), h3, hh]
      simp only [allocN, hA]
      have IH := ih { P with BlocksUsed := P.BlocksUsed + 1, pHead := 0, pTail := 0 } (j + 1)
        (by omega) (fun i h1 h2 => hl i (by omega) h2)
        (by simp only; rw [List.getD_eq_default _ _ (by omega)])
        (by simp only; rw [if_neg (by omega)]) hM (by simp only; omega) hT
      simp only at IH
      obtain ⟨i1, i2, i3⟩ := IH
      exact ⟨by rw [i1], i2, i3⟩
    · have hne : P.pHead ≠ P.pTail := by
        rw [hh, ht]
        have := hsep j (L.length - 1) (by omega) (by omega)
        omega
      have hA : KISS_BLOCKPOOL_Alloc P =
          ({ P with BlocksUsed := P.BlocksUsed + 1, pHead := L.getD (j + 1) 0 },
            L.getD j 0) := by
        unfold KISS_BLOCKPOOL_Alloc
        rw [if_pos h1, if_pos h2, if_pos hne, h3, hh, hl j (le_refl j) hjl]
      simp only [allocN, hA]
      have IH := ih { P with BlocksUsed := P.BlocksUsed + 1, pHead := L.getD (j + 1) 0 } (j + 1)
        (by omega) (fun i h1 h2 => hl i (by omega) h2) rfl
        (by simp only; rw [ht, if_pos (by omega)]) hM (by simp only; omega) hT
      simp only at IH
      obtain ⟨i1, i2, i3⟩ := IH
      exact ⟨by rw [i1], i2, i3⟩

theorem blockAddrs_length (p B : Nat) (n k : Nat) : (blockAddrs p B k n).length = n := by
  induction n generalizing k with
  | zero => rfl
  | succ n ih => simp [blockAddrs, ih]

theorem blockAddrs_getD (p B : Nat) (n k i : Nat) (hi : i < n) :
    (blockAddrs p B k n).getD i 0 = p + (k + i) * B := by
  induction n generalizing k i with
  | zero => omega
  | succ n ih =>
    cases i with
    | zero => simp [blockAddrs]
    | succ i =>
      simp only [blockAddrs, List.getD_cons_succ]
      rw [ih (k + 1) i (by omega)]
      congr 2
      omega

theorem blockAddrs_apart (p B n : Nat) (hB : 8 ≤ B) : Apart (blockAddrs p B 0 n) := by
  intro i j hij hj
  rw [blockAddrs_length] at hj
  rw [blockAddrs_getD p B n 0 i (by omega), blockAddrs_getD p B n 0 j hj]
  left
  have h : (0 + i + 1) * B ≤ (0 + j) * B := Nat.mul_le_mul_right B (by omega)
  have h2 : (0 + i + 1) * B = (0 + i) * B + B := by ring
  omega

/-- An address at an offset below the pool size lies in the pool. -/
theorem isInPool_block (P : KISS_BLOCKPOOL) (off : Nat) (hp : 0 < P.pPool)
    (hoff : off < P.NumBlocks * P.BlockSize)
    (haddr : P.pPool + P.NumBlocks * P.BlockSize ≤ U64) :
    KISS_BLOCKPOOL_IsInPool P (P.pPool + off) = true := by
  have e1 : P.BlockSize * P.NumBlocks % U64 = P.NumBlocks * P.BlockSize := by
    rw [Nat.mul_comm]
    exact Nat.mod_eq_of_lt (by unfold U64 at *; omega)
  have e2 : (P.pPool + off + U64 - P.pPool) % U64 = off := by
    have : P.pPool + off + U64 - P.pPool = off + U64 := by omega
    rw [this, Nat.add_mod_right]
    exact Nat.mod_eq_of_lt (by omega)
  simp only [KISS_BLOCKPOOL_IsInPool, e1, e2]
  simp
  exact hoff

/-- Counters after `n` allocations of never used blocks, whatever the block size. -/
theorem allocN_fresh_counts (n : Nat) (P : KISS_BLOCKPOOL) (k : Nat)
    (hu : P.BlocksUsed = k) (hm : P.MaxUsed = k) (hh : P.pHead = 0)
    (hk : k + n ≤ P.NumBlocks) (hT : P.NumBlocks < U32) :
    (allocN P n).1.BlocksUsed = k + n ∧ (allocN P n).1.MaxUsed = k + n ∧
    (allocN P n).1.NumBlocks = P.NumBlocks ∧ (allocN P n).1.BlockSize = P.BlockSize ∧
    (allocN P n).1.pPool = P.pPool := by
  induction n generalizing P k with
  | zero => simp [allocN, hu, hm]
  | succ n ih =>
    have h1 : P.BlocksUsed < P.NumBlocks := by omega
    have h2 : ¬ ((P.MaxUsed + U32 - P.BlocksUsed) % U32 > 0 ∧ P.pHead ≠ 0) := by
      simp [hh]
    have h3 : (P.BlocksUsed + 1) % U32 = k + 1 := by
      rw [hu]; exact Nat.mod_eq_of_lt (by omega)
    have h4 : (P.BlocksUsed + 1) % U32 > P.MaxUsed := by rw [h3, hm]; omega
    have hA : KISS_BLOCKPOOL_Alloc P =
        ({ P with BlocksUsed := k + 1
                  mem := memset P.mem (P.pPool + P.MaxUsed * P.BlockSize % U32) 0 P.BlockSize
                  MaxUsed := k + 1 }, P.pPool + P.MaxUsed * P.BlockSize % U32) := by
      unfold KISS_BLOCKPOOL_Alloc
      rw [if_pos h1, if_neg h2, if_pos h4]
      simp only [h3]
    simp only [allocN, hA]
    have IH := ih { P with BlocksUsed := k + 1
                           mem := memset P.mem (P.pPool + P.MaxUsed * P.BlockSize % U32) 0
                             P.BlockSize
                           MaxUsed := k + 1 } (k + 1) rfl rfl hh (by simp only; omega) hT
    simp only at IH
    obtain ⟨i1, i2, i3, i4, i5⟩ := IH
    exact ⟨by omega, by omega, i3, i4, i5⟩

/-- Exhaustion boundary of a fresh pool: after `T = NumBlocks` allocations the next one
returns `NULL` and changes nothing, and after one block of the pool is freed the next
allocation returns that block. -/
theorem exhaustion_boundary (mem : Mem) (p T B b : Nat) (hT : T < U32) (hT1 : 1 ≤ T)
    (hb : b ≠ 0)
    (hin : KISS_BLOCKPOOL_IsInPool (KISS_BLOCKPOOL_Create mem p T B) b = true) :
    KISS_BLOCKPOOL_Alloc (allocN (KISS_BLOCKPOOL_Create mem p T B) T).1
      = ((allocN (KISS_BLOCKPOOL_Create mem p T B) T).1, 0) ∧
    (KISS_BLOCKPOOL_Alloc (KISS_BLOCKPOOL_FreeEx
      (allocN (KISS_BLOCKPOOL_Create mem p T B) T).1 b)).2 = b := by
  have h := allocN_fresh_counts T (KISS_BLOCKPOOL_Create mem p T B) 0 rfl rfl rfl
    (by show 0 + T ≤ T; omega) hT
  have hin2 : KISS_BLOCKPOOL_IsInPool (allocN (KISS_BLOCKPOOL_Create mem p T B) T).1 b = true :=
    (isInPool_frame (KISS_BLOCKPOOL_Create mem p T B) _ b h.2.2.2.2 h.2.2.2.1 h.2.2.1).trans hin
  have e3 : (KISS_BLOCKPOOL_Create mem p T B).NumBlocks = T := rfl
  rw [e3, Nat.zero_add] at h
  generalize (allocN (KISS_BLOCKPOOL_Create mem p T B) T).1 = P at *
  obtain ⟨a1, a2, a3, _, _⟩ := h
  constructor
  · unfold KISS_BLOCKPOOL_Alloc
    rw [if_neg (by omega)]
  · have hsub : (P.MaxUsed + U32 - P.BlocksUsed) % U32 = 0 := by
      rw [a1, a2]
      have : T + U32 - T = U32 := by omega
      rw [this]; rfl
    have hF : KISS_BLOCKPOOL_FreeEx P b =
        { P with mem := write64 P.mem b 0, pHead := b, pTail := b,
                 BlocksUsed := P.BlocksUsed - 1 } := by
      unfold KISS_BLOCKPOOL_FreeEx
      rw [if_pos ⟨by omega, hin2⟩]
      simp only [hsub]
      rw [if_neg (by omega)]
    rw [hF]
    unfold KISS_BLOCKPOOL_Alloc
    simp only
    have hsub2 : (P.MaxUsed + U32 - (P.BlocksUsed - 1)) % U32 = 1 := by
      rw [a1, a2]
      have : T + U32 - (T - 1) = 1 + U32 := by omega
      rw [this]; rfl
    rw [if_pos (by omega), if_pos ⟨by rw [hsub2]; omega, hb⟩]
    simp

/-! ### Pool: counters along arbitrary call sequences -/

theorem sub32 (a b : Nat) (h : b ≤ a) (ha : a < U32) : (a + U32 - b) % U32 = a - b := by
  have : a + U32 - b = (a - b) + U32 := by omega
  rw [this, Nat.add_mod_right]
  exact Nat.mod_eq_of_lt (by omega)

/-- Effect of one `Alloc` on the counters of a pool whose counters are in order. -/
theorem alloc_counters (P : KISS_BLOCKPOOL) (h1 : P.BlocksUsed ≤ P.MaxUsed)
    (h2 : P.MaxUsed ≤ P.NumBlocks) (h3 : P.NumBlocks < U32) :
    (KISS_BLOCKPOOL_Alloc P).1.NumBlocks = P.NumBlocks ∧
    (KISS_BLOCKPOOL_Alloc P).1.BlocksUsed ≤ (KISS_BLOCKPOOL_Alloc P).1.MaxUsed ∧
    (KISS_BLOCKPOOL_Alloc P).1.MaxUsed ≤ P.NumBlocks ∧
    P.MaxUsed ≤ (KISS_BLOCKPOOL_Alloc P).1.MaxUsed ∧
    (KISS_BLOCKPOOL_Alloc P).1.MaxUsed ≤ P.MaxUsed + 1 := by
  have hs := sub32 P.MaxUsed P.BlocksUsed h1 (by omega)
  have hm : P.BlocksUsed < P.NumBlocks → (P.BlocksUsed + 1) % U32 = P.BlocksUsed + 1 :=
    fun h => Nat.mod_eq_of_lt (by omega)
  by_cases c1 : P.BlocksUsed < P.NumBlocks
  · simp only [KISS_BLOCKPOOL_Alloc, if_pos c1, hs, hm c1]
    split_ifs <;> refine ⟨rfl, ?_⟩ <;> simp only <;> omega
  · simp only [KISS_BLOCKPOOL_Alloc, if_neg c1]
    refine ⟨trivial, ?_⟩
    omega

/-- Effect of one `FreeEx` on the counters. -/
theorem free_counters (P : KISS_BLOCKPOOL) (b : Nat) :
    (KISS_BLOCKPOOL_FreeEx P b).NumBlocks = P.NumBlocks ∧
    (KISS_BLOCKPOOL_FreeEx P b).MaxUsed = P.MaxUsed ∧
    (KISS_BLOCKPOOL_FreeEx P b).BlocksUsed ≤ P.BlocksUsed := by
  unfold KISS_BLOCKPOOL_FreeEx
  by_cases c1 : P.BlocksUsed > 0 ∧ KISS_BLOCKPOOL_IsInPool P b = true
  · rw [if_pos c1]
    simp only
    by_cases c2 : (P.MaxUsed + U32 - P.BlocksUsed) % U32 > 0
    · rw [if_pos c2]; exact ⟨rfl, rfl, Nat.sub_le _ _⟩
    · rw [if_neg c2]; exact ⟨rfl, rfl, Nat.sub_le _ _⟩
  · rw [if_neg c1]; exact ⟨rfl, rfl, le_refl _⟩

/-- Effect of one step on the counters of a pool whose counters are in order. -/
theorem step_counters (P : KISS_BLOCKPOOL) (op : PoolOp) (h1 : P.BlocksUsed ≤ P.MaxUsed)
    (h2 : P.MaxUsed ≤ P.NumBlocks) (h3 : P.NumBlocks < U32) :
    (poolStep P op).NumBlocks = P.NumBlocks ∧
    (poolStep P op).BlocksUsed ≤ (poolStep P op).MaxUsed ∧
    (poolStep P op).MaxUsed ≤ P.NumBlocks ∧
    P.MaxUsed ≤ (poolStep P op).MaxUsed ∧
    (poolStep P op).MaxUsed ≤ P.MaxUsed + 1 := by
  cases op with
  | alloc => exact alloc_counters P h1 h2 h3
  | free b =>
    obtain ⟨f1, f2, f3⟩ := free_counters P b
    simp only [poolStep]
    omega
  | write a v => simp only [poolStep]; exact ⟨trivial, h1, h2, le_refl _, Nat.le_succ _⟩

/-- Counters after any sequence of steps from a pool whose counters are in order. -/
theorem run_counters (ops : List PoolOp) (P : KISS_BLOCKPOOL) (h1 : P.BlocksUsed ≤ P.MaxUsed)
    (h2 : P.MaxUsed ≤ P.NumBlocks) (h3 : P.NumBlocks < U32) :
    (poolRun P ops).NumBlocks = P.NumBlocks ∧
    (poolRun P ops).BlocksUsed ≤ (poolRun P ops).MaxUsed ∧
    (poolRun P ops).MaxUsed ≤ P.NumBlocks := by
  induction ops generalizing P with
  | nil => exact ⟨rfl, h1, h2⟩
  | cons op ops ih =>
    obtain ⟨s1, s2, s3, _, _⟩ := step_counters P op h1 h2 h3
    have := ih (poolStep P op) s2 (by omega) (by omega)
    simp only [poolRun]
    rw [s1] at this
    exact this

/-- The range test of `KISS_BLOCKPOOL_IsInPool`, for 64-bit pointers and 32-bit sizes. -/
theorem isInPool_iff (P : KISS_BLOCKPOOL) (b : Nat) (hb : b < U64) (hN : P.NumBlocks < U32)
    (hB : P.BlockSize < U32) :
    KISS_BLOCKPOOL_IsInPool P b = true ↔
      P.pPool ≤ b ∧ b < P.pPool + P.NumBlocks * P.BlockSize := by
  have hprod : P.BlockSize * P.NumBlocks < U64 := by
    have : P.BlockSize * P.NumBlocks < U32 * U32 := Nat.mul_lt_mul'' hB hN
    exact this
  have e1 : P.BlockSize * P.NumBlocks % U64 = P.NumBlocks * P.BlockSize := by
    rw [Nat.mod_eq_of_lt hprod, Nat.mul_comm]
  simp only [KISS_BLOCKPOOL_IsInPool, e1, Bool.and_eq_true, decide_eq_true_eq, ge_iff_le]
  constructor
  · rintro ⟨h1, h2⟩
    have e2 : (b + U64 - P.pPool) % U64 = b - P.pPool := by
      have : b + U64 - P.pPool = (b - P.pPool) + U64 := by omega
      rw [this, Nat.add_mod_right]
      exact Nat.mod_eq_of_lt (by omega)
    rw [e2] at h2
    exact ⟨h1, by omega⟩
  · rintro ⟨h1, h2⟩
    have e2 : (b + U64 - P.pPool) % U64 = b - P.pPool := by
      have : b + U64 - P.pPool = (b - P.pPool) + U64 := by omega
      rw [this, Nat.add_mod_right]
      exact Nat.mod_eq_of_lt (by omega)
    rw [e2]
    exact ⟨h1, by omega⟩

/-! ### Pool: valid usage -/

theorem blockAddrs_succ (p B : Nat) (n k : Nat) :
    blockAddrs p B k (n + 1) = blockAddrs p B k n ++ [p + (k + n) * B] := by
  induction n generalizing k with
  | zero => simp [blockAddrs]
  | succ n ih =>
    rw [blockAddrs, ih (k + 1)]
    simp only [blockAddrs, List.cons_append]
    have : k + 1 + n = k + (n + 1) := by omega
    rw [this]

theorem mem_blockAddrs (p B : Nat) (n : Nat) (x : Nat) :
    x ∈ blockAddrs p B 0 n ↔ ∃ i, i < n ∧ x = p + i * B := by
  induction n with
  | zero => simp [blockAddrs]
  | succ n ih =>
    rw [blockAddrs_succ, List.mem_append, ih, Nat.zero_add]
    constructor
    · rintro (⟨i, hi, rfl⟩ | h)
      · exact ⟨i, by omega, rfl⟩
      · exact ⟨n, by omega, by simpa using h⟩
    · rintro ⟨i, hi, rfl⟩
      by_cases h : i < n
      · exact Or.inl ⟨i, h, rfl⟩
      · have : i = n := by omega
        subst this
        exact Or.inr (by simp)

theorem mul_add_le_of_lt (i j B : Nat) (h : i < j) : i * B + B ≤ j * B := by
  have h1 : (i + 1) * B ≤ j * B := Nat.mul_le_mul_right B h
  have h2 : (i + 1) * B = i * B + B := by ring
  omega

theorem blockAddrs_nodup (p B : Nat) (n : Nat) (hB : 0 < B) : (blockAddrs p B 0 n).Nodup := by
  induction n with
  | zero => simp [blockAddrs]
  | succ n ih =>
    rw [blockAddrs_succ, List.nodup_append]
    refine ⟨ih, List.nodup_singleton _, ?_⟩
    intro x hx hx2
    rw [mem_blockAddrs] at hx
    obtain ⟨i, hi, rfl⟩ := hx
    have := mul_add_le_of_lt i n B hi
    simp at hx2
    omega

/-- Two different blocks of the pool lie at least one block size apart. -/
theorem blocks_apart (p B n x y : Nat) (hx : x ∈ blockAddrs p B 0 n)
    (hy : y ∈ blockAddrs p B 0 n) (hne : x ≠ y) : x + B ≤ y ∨ y + B ≤ x := by
  rw [mem_blockAddrs] at hx hy
  obtain ⟨i, hi, rfl⟩ := hx
  obtain ⟨j, hj, rfl⟩ := hy
  rcases Nat.lt_trichotomy i j with h | h | h
  · left; have := mul_add_le_of_lt i j B h; omega
  · subst h; exact absurd rfl hne
  · right; have := mul_add_le_of_lt j i B h; omega

theorem read64_congr (m m2 : Mem) (a : Nat)
    (h : ∀ x, a ≤ x → x < a + 8 → m2 x = m x) : read64 m2 a = read64 m a := by
  unfold read64
  rw [read32_congr m m2 a (fun x h1 h2 => h x h1 (by omega)),
    read32_congr m m2 (a + 4) (fun x h1 h2 => h x (by omega) (by omega))]

/-- Facts on a block below the high-water mark of a pool of at most `2^32` bytes. -/
theorem block_facts (p T B M x : Nat) (hp : 0 < p) (hB : 8 ≤ B) (hM : M ≤ T)
    (haddr : p + T * B ≤ U64) (hx : x ∈ blockAddrs p B 0 M) :
    x ≠ 0 ∧ p ≤ x ∧ x + B ≤ p + T * B ∧ x < U64 := by
  rw [mem_blockAddrs] at hx
  obtain ⟨i, hi, rfl⟩ := hx
  have := mul_add_le_of_lt i T B (by omega)
  refine ⟨by omega, by omega, by omega, by omega⟩

/-- The invariant holds after `KISS_BLOCKPOOL_Create`. -/
theorem poolInv_create (mem : Mem) (p T B : Nat) :
    PoolInv p T B (KISS_BLOCKPOOL_Create mem p T B) [] [] := by
  refine ⟨rfl, rfl, rfl, Nat.zero_le _, rfl, rfl, ?_, ?_, rfl, rfl⟩
  · exact List.Perm.refl _
  · intro i hi
    simp at hi

/-- One `Alloc` under the invariant: it fails exactly when all blocks are in use and
then changes nothing; otherwise it returns a block of the pool that the client does not
hold, counts it, and keeps the invariant. -/
theorem alloc_inv (p T B : Nat) (P : KISS_BLOCKPOOL) (A F : List Nat)
    (hp : 0 < p) (hB : 8 ≤ B) (hT : T < U32) (hsz : T * B ≤ U32) (haddr : p + T * B ≤ U64)
    (h : PoolInv p T B P A F) :
    ((KISS_BLOCKPOOL_Alloc P).2 = 0 ↔ P.BlocksUsed = T) ∧
    ((KISS_BLOCKPOOL_Alloc P).2 = 0 → (KISS_BLOCKPOOL_Alloc P).1 = P) ∧
    ((KISS_BLOCKPOOL_Alloc P).2 ≠ 0 →
      (KISS_BLOCKPOOL_Alloc P).2 ∉ A ∧
      (KISS_BLOCKPOOL_Alloc P).2 ∈ blockAddrs p B 0 (KISS_BLOCKPOOL_Alloc P).1.MaxUsed ∧
      (KISS_BLOCKPOOL_Alloc P).1.BlocksUsed = P.BlocksUsed + 1 ∧
      ∃ F2, PoolInv p T B (KISS_BLOCKPOOL_Alloc P).1 ((KISS_BLOCKPOOL_Alloc P).2 :: A) F2) := by
  obtain ⟨i1, i2, i3, i4, i5, i6, i7, i8, i9, i10⟩ := h
  have hnd : (A ++ F).Nodup := (List.Perm.nodup_iff i7).mpr (blockAddrs_nodup p B _ (by omega))
  by_cases hfull : P.BlocksUsed < P.NumBlocks
  · have hm : (P.BlocksUsed + 1) % U32 = P.BlocksUsed + 1 := Nat.mod_eq_of_lt (by omega)
    have hs := sub32 P.MaxUsed P.BlocksUsed (by omega) (by omega)
    have hsF : P.MaxUsed - P.BlocksUsed = F.length := by omega
    cases F with
    | nil =>
      -- a never used block
      have hM : P.MaxUsed = P.BlocksUsed := by simp at i6; omega
      have hoff : P.MaxUsed * P.BlockSize % U32 = P.MaxUsed * B := by
        rw [i3]
        have := mul_add_le_of_lt P.MaxUsed T B (by omega)
        exact Nat.mod_eq_of_lt (by omega)
      have hA : KISS_BLOCKPOOL_Alloc P =
          ({ P with BlocksUsed := P.BlocksUsed + 1
                    mem := memset P.mem (p + P.MaxUsed * B) 0 P.BlockSize
                    MaxUsed := P.BlocksUsed + 1 }, p + P.MaxUsed * B) := by
        simp only [KISS_BLOCKPOOL_Alloc, if_pos hfull, hs, hm, hoff, i1]
        rw [if_neg (by simp at hsF; omega), if_pos (by omega)]
      rw [hA]
      have hxnew : p + P.MaxUsed * B ∉ blockAddrs p B 0 P.MaxUsed := by
        intro hx
        rw [mem_blockAddrs] at hx
        obtain ⟨i, hi, he⟩ := hx
        have := mul_add_le_of_lt i P.MaxUsed B hi
        omega
      have hres : p + P.MaxUsed * B ≠ 0 := by omega
      refine ⟨⟨fun h0 => absurd h0 hres, fun h0 => by omega⟩, fun h0 => absurd h0 hres,
        fun _ => ⟨?_, ?_, rfl, [], ?_⟩⟩
      · intro hx
        exact hxnew ((List.Perm.mem_iff i7).mp (List.mem_append_left _ hx))
      · show p + P.MaxUsed * B ∈ blockAddrs p B 0 (P.BlocksUsed + 1)
        rw [← hM, blockAddrs_succ]
        simp
      · refine ⟨i1, i2, i3, ?_, ?_, ?_, ?_, ?_, ?_, ?_⟩
        · show P.BlocksUsed + 1 ≤ T
          omega
        · show P.BlocksUsed + 1 = ((p + P.MaxUsed * B) :: A).length
          simp; omega
        · show ((p + P.MaxUsed * B) :: A).length + ([] : List Nat).length = P.BlocksUsed + 1
          simp; omega
        · show (((p + P.MaxUsed * B) :: A) ++ []).Perm (blockAddrs p B 0 (P.BlocksUsed + 1))
          rw [← hM, blockAddrs_succ, Nat.zero_add, List.append_nil]
          rw [List.append_nil] at i7
          exact (List.Perm.cons _ i7).trans (List.perm_append_singleton _ _).symm
        · intro i hi; simp at hi
        · show P.pHead = _
          simpa using i9
        · show P.pTail = _
          simpa using i10
    | cons f F2 =>
      -- the head of the free list
      have hfmem : f ∈ blockAddrs p B 0 P.MaxUsed :=
        (List.Perm.mem_iff i7).mp (by simp)
      have hf := block_facts p T B P.MaxUsed f hp hB i4 haddr hfmem
      have hhead : P.pHead = f := by simpa using i9
      have hfA : f ∉ A := by
        intro hx
        have := List.nodup_append.mp hnd
        exact this.2.2 hx (by simp)
      have hfF2 : f ∉ F2 := by
        have := (List.nodup_append.mp hnd).2.1
        exact (List.nodup_cons.mp this).1
      have hc2 : P.MaxUsed - P.BlocksUsed > 0 ∧ P.pHead ≠ 0 := by
        rw [hsF, hhead]; exact ⟨by simp, hf.1⟩
      have hperm : (f :: A ++ F2).Perm (blockAddrs p B 0 P.MaxUsed) :=
        (List.perm_middle.symm).trans i7
      have hlink : LinkedTo P.mem F2 F2.length := by
        intro i hi
        have := i8 (i + 1) (by simp; omega)
        simp only [List.getD_cons_succ, List.length_cons] at this
        rw [this]
        by_cases hlast : i + 1 < F2.length
        · rw [if_pos (by omega), if_pos hlast]
        · rw [if_neg (by omega), if_neg hlast]
      cases F2 with
      | nil =>
        have htail : P.pTail = f := by simpa using i10
        have hA : KISS_BLOCKPOOL_Alloc P =
            ({ P with BlocksUsed := P.BlocksUsed + 1, pHead := 0, pTail := 0 }, f) := by
          simp only [KISS_BLOCKPOOL_Alloc, if_pos hfull, hs, hm]
          rw [if_pos hc2, if_neg (by rw [hhead, htail]; simp), hhead]
        rw [hA]
        have hlen : A.length + 1 = P.MaxUsed := by simpa using i6
        refine ⟨⟨fun h0 => absurd h0 hf.1, fun h0 => by omega⟩,
          fun h0 => absurd h0 hf.1, fun _ => ⟨hfA, hfmem, rfl, [], ?_⟩⟩
        refine ⟨i1, i2, i3, i4, ?_, ?_, hperm, hlink, rfl, rfl⟩
        · show P.BlocksUsed + 1 = (f :: A).length
          simp; omega
        · show (f :: A).length + ([] : List Nat).length = P.MaxUsed
          simp; omega
      | cons g F3 =>
        have htail : P.pTail = (g :: F3).getD (F3.length) 0 := by simpa using i10
        have htmem : (g :: F3).getD (F3.length) 0 ∈ g :: F3 := by
          rw [List.getD_eq_getElem _ _ (by simp)]
          exact List.getElem_mem _
        have hne : P.pHead ≠ P.pTail := by
          rw [hhead, htail]
          intro he
          rw [← he] at htmem
          exact hfF2 htmem
        have hnext : read64 P.mem f = g := by
          have := i8 0 (by simp)
          simpa using this
        have hA : KISS_BLOCKPOOL_Alloc P =
            ({ P with BlocksUsed := P.BlocksUsed + 1, pHead := g }, f) := by
          simp only [KISS_BLOCKPOOL_Alloc, if_pos hfull, hs, hm]
          rw [if_pos hc2, if_pos hne, hhead, hnext]
        rw [hA]
        have hlen : A.length + (F3.length + 1 + 1) = P.MaxUsed := by simpa using i6
        refine ⟨⟨fun h0 => absurd h0 hf.1, fun h0 => by omega⟩,
          fun h0 => absurd h0 hf.1, fun _ => ⟨hfA, hfmem, rfl, g :: F3, ?_⟩⟩
        refine ⟨i1, i2, i3, i4, ?_, ?_, hperm, hlink, ?_, ?_⟩
        · show P.BlocksUsed + 1 = (f :: A).length
          simp; omega
        · show (f :: A).length + (g :: F3).length = P.MaxUsed
          simp; omega
        · show g = (g :: F3).getD 0 0
          simp
        · show P.pTail = (g :: F3).getD ((g :: F3).length - 1) 0
          rw [htail]
          simp
  · -- all blocks are in use
    have hA : KISS_BLOCKPOOL_Alloc P = (P, 0) := by
      simp only [KISS_BLOCKPOOL_Alloc, if_neg hfull]
    rw [hA]
    have hle : P.BlocksUsed ≤ T := by omega
    exact ⟨⟨fun _ => by omega, fun _ => rfl⟩, fun _ => rfl, fun h0 => absurd rfl h0⟩

/-- `FreeEx` of a block the client holds keeps the invariant: the block leaves the held
blocks and becomes the last node of the free list. -/
theorem free_inv (p T B : Nat) (P : KISS_BLOCKPOOL) (A F : List Nat) (b : Nat)
    (hp : 0 < p) (hB : 8 ≤ B) (hT : T < U32) (haddr : p + T * B ≤ U64)
    (h : PoolInv p T B P A F) (hb : b ∈ A) :
    PoolInv p T B (KISS_BLOCKPOOL_FreeEx P b) (A.erase b) (F ++ [b]) := by
  obtain ⟨i1, i2, i3, i4, i5, i6, i7, i8, i9, i10⟩ := h
  have hnd : (A ++ F).Nodup := (List.Perm.nodup_iff i7).mpr (blockAddrs_nodup p B _ (by omega))
  have hApos : 0 < A.length := List.length_pos_of_mem hb
  have hmemL : ∀ x, x ∈ F ++ [b] → x ∈ blockAddrs p B 0 P.MaxUsed := by
    intro x hx
    apply (List.Perm.mem_iff i7).mp
    rcases List.mem_append.mp hx with h1 | h1
    · exact List.mem_append_right _ h1
    · simp at h1; subst h1; exact List.mem_append_left _ hb
  have hbF : b ∉ F := fun hx => (List.nodup_append.mp hnd).2.2 hb hx
  have hndL : (F ++ [b]).Nodup := by
    rw [List.nodup_append]
    refine ⟨(List.nodup_append.mp hnd).2.1, List.nodup_singleton _, ?_⟩
    intro x hx hx2
    simp at hx2; subst hx2; exact hbF hx
  have hgetmem : ∀ i, i < (F ++ [b]).length → (F ++ [b]).getD i 0 ∈ F ++ [b] := by
    intro i hi
    rw [List.getD_eq_getElem _ _ hi]
    exact List.getElem_mem _
  have hlen : (F ++ [b]).length = F.length + 1 := by simp
  have key := freeAll_links (F ++ [b]) 1 P F.length (by rw [hlen])
    (by
      intro i hi
      rw [List.getD_append _ _ _ _ hi, i8 i hi]
      by_cases hl : i + 1 < F.length
      · rw [if_pos hl, if_pos hl, List.getD_append _ _ _ _ hl]
      · rw [if_neg hl, if_neg hl])
    (by
      rw [i9]
      by_cases h0 : 0 < F.length
      · rw [if_pos h0, List.getD_append _ _ _ _ h0]
      · rw [if_neg h0, List.getD_eq_default _ _ (by omega)])
    (by
      rw [i10]
      by_cases h0 : 0 < F.length
      · rw [if_pos h0, List.getD_append _ _ _ _ (by omega)]
      · rw [if_neg h0, List.getD_eq_default _ _ (by omega)])
    (by omega) (by omega) (by omega)
    (by
      intro i j hij hj
      have hi := hgetmem i (by omega)
      have hjm := hgetmem j hj
      have hne : (F ++ [b]).getD i 0 ≠ (F ++ [b]).getD j 0 := by
        rw [List.getD_eq_getElem _ _ (by omega), List.getD_eq_getElem _ _ hj]
        intro he
        have := (List.Nodup.getElem_inj_iff hndL).mp he
        omega
      have := blocks_apart p B P.MaxUsed _ _ (hmemL _ hi) (hmemL _ hjm) hne
      omega)
    (by
      intro i hi
      have hx := block_facts p T B P.MaxUsed _ hp hB i4 haddr (hmemL _ (hgetmem i hi))
      have hoff := isInPool_block P ((F ++ [b]).getD i 0 - p) (by rw [i1]; exact hp)
        (by rw [i2, i3]; omega) (by rw [i1, i2, i3]; exact haddr)
      rw [i1] at hoff
      have e : p + ((F ++ [b]).getD i 0 - p) = (F ++ [b]).getD i 0 := by omega
      rw [e] at hoff
      exact hoff)
    (by
      intro i hi
      exact (block_facts p T B P.MaxUsed _ hp hB i4 haddr (hmemL _ (hgetmem i hi))).2.2.2)
  have hdrop : (F ++ [b]).drop F.length = [b] := by simp
  rw [hdrop] at key
  have hfa : freeAll P [b] = KISS_BLOCKPOOL_FreeEx P b := rfl
  rw [hfa, hlen] at key
  obtain ⟨k1, k2, k3, k4, k5, k6, k7, k8⟩ := key
  refine ⟨by rw [k8, i1], by rw [k6, i2], by rw [k7, i3], by rw [k4]; exact i4, ?_, ?_, ?_, ?_, ?_, ?_⟩
  · rw [k5, List.length_erase_of_mem hb, i5]
  · rw [k4, List.length_erase_of_mem hb, hlen]; omega
  · rw [k4]
    have h1 : (A.erase b ++ (F ++ [b])).Perm (b :: (A.erase b ++ F)) := by
      rw [← List.append_assoc]
      exact List.perm_append_singleton _ _
    have h2 : (b :: (A.erase b ++ F)).Perm (A ++ F) := by
      have := (List.perm_cons_erase hb).symm
      exact List.Perm.append_right F this
    exact (h1.trans h2).trans i7
  · rw [hlen]; exact k1
  · rw [k2, if_pos (by omega)]
  · rw [k3, if_pos (by omega), hlen]

/-- A store into a block the client holds keeps the invariant. -/
theorem write_inv (p T B : Nat) (P : KISS_BLOCKPOOL) (A F : List Nat) (a v b : Nat)
    (hB : 8 ≤ B) (h : PoolInv p T B P A F) (hb : b ∈ A) (ha : b ≤ a ∧ a < b + B) :
    PoolInv p T B { P with mem := writeByte P.mem a v } A F := by
  obtain ⟨i1, i2, i3, i4, i5, i6, i7, i8, i9, i10⟩ := h
  have hnd : (A ++ F).Nodup := (List.Perm.nodup_iff i7).mpr (blockAddrs_nodup p B _ (by omega))
  refine ⟨i1, i2, i3, i4, i5, i6, i7, ?_, i9, i10⟩
  intro i hi
  have hfm : F.getD i 0 ∈ F := by
    rw [List.getD_eq_getElem _ _ hi]
    exact List.getElem_mem _
  have hne : b ≠ F.getD i 0 := by
    intro he
    rw [← he] at hfm
    exact (List.nodup_append.mp hnd).2.2 hb hfm
  have hap := blocks_apart p B P.MaxUsed b (F.getD i 0)
    ((List.Perm.mem_iff i7).mp (List.mem_append_left _ hb))
    ((List.Perm.mem_iff i7).mp (List.mem_append_right _ hfm)) hne
  show read64 (writeByte P.mem a v) (F.getD i 0) = _
  rw [read64_congr P.mem _ _ (fun x h1 h2 => by
    unfold writeByte
    rw [if_neg (by omega)])]
  exact i8 i hi

/-- Valid usage keeps the invariant. -/
theorem held_inv (p T B : Nat) (hp : 0 < p) (hB : 8 ≤ B) (hT : T < U32)
    (hsz : T * B ≤ U32) (haddr : p + T * B ≤ U64) (ops : List PoolOp)
    (P : KISS_BLOCKPOOL) (A F A2 : List Nat) (h : PoolInv p T B P A F)
    (hv : held P A ops = some A2) : ∃ F2, PoolInv p T B (poolRun P ops) A2 F2 := by
  induction ops generalizing P A F with
  | nil =>
    simp only [held, Option.some.injEq] at hv
    subst hv
    exact ⟨F, h⟩
  | cons op ops ih =>
    cases op with
    | alloc =>
      simp only [held] at hv
      simp only [poolRun, poolStep]
      obtain ⟨a1, a2, a3⟩ := alloc_inv p T B P A F hp hB hT hsz haddr h
      by_cases h0 : (KISS_BLOCKPOOL_Alloc P).2 = 0
      · rw [if_pos h0] at hv
        rw [a2 h0] at hv ⊢
        exact ih P A F h hv
      · rw [if_neg h0] at hv
        obtain ⟨_, _, _, F2, hF2⟩ := a3 h0
        exact ih _ _ F2 hF2 hv
    | free b =>
      simp only [held] at hv
      simp only [poolRun, poolStep]
      by_cases hb : b ∈ A
      · rw [if_pos hb] at hv
        exact ih _ _ _ (free_inv p T B P A F b hp hB hT haddr h hb) hv
      · rw [if_neg hb] at hv
        by_cases hin : KISS_BLOCKPOOL_IsInPool P b = false
        · rw [if_pos hin] at hv
          have hF : KISS_BLOCKPOOL_FreeEx P b = P := by
            unfold KISS_BLOCKPOOL_FreeEx
            rw [if_neg (by rw [hin]; simp)]
          rw [hF] at hv ⊢
          exact ih P A F h hv
        · rw [if_neg hin] at hv
          exact absurd hv (by simp)
    | write a v =>
      simp only [held] at hv
      simp only [poolRun, poolStep]
      by_cases hw : A.any (fun b => decide (b ≤ a ∧ a < b + P.BlockSize)) = true
      · rw [if_pos hw] at hv
        obtain ⟨b, hb, hba⟩ := List.any_eq_true.mp hw
        have hBs : P.BlockSize = B := h.2.2.1
        rw [hBs] at hba
        exact ih _ _ _ (write_inv p T B P A F a v b hB h hb (by simpa using hba)) hv
      · rw [if_neg hw] at hv
        exact absurd hv (by simp)

/-- The chain read from memory is the free list of the invariant. -/
theorem chainFrom_linked (m : Mem) (F : List Nat) (h : LinkedTo m F F.length)
    (hnz : ∀ x ∈ F, x ≠ 0) : chainFrom m (F.getD 0 0) F.length = F := by
  induction F with
  | nil => rfl
  | cons f F2 ih =>
    have hf : f ≠ 0 := hnz f (by simp)
    simp only [List.getD_cons_zero, List.length_cons, chainFrom, if_neg hf]
    have h0 := h 0 (by simp)
    simp only [List.getD_cons_zero, List.getD_cons_succ, List.length_cons] at h0
    have hnext : read64 m f = F2.getD 0 0 := by
      rw [h0]
      by_cases hl : 0 + 1 < F2.length + 1
      · rw [if_pos hl]
      · rw [if_neg hl, List.getD_eq_default _ _ (by omega)]
    rw [hnext, ih _ (fun x hx => hnz x (by simp [hx]))]
    intro i hi
    have := h (i + 1) (by simp; omega)
    simp only [List.getD_cons_succ, List.length_cons] at this
    rw [this]
    by_cases hlast : i + 1 < F2.length
    · rw [if_pos (by omega), if_pos hlast]
    · rw [if_neg (by omega), if_neg hlast]

/-- Valid usage of a pool of at most `2^32` bytes with blocks of at least 8 bytes: in every
state reached, the chain from `pHead` has `MaxUsed - BlocksUsed` distinct nodes, ends at
`pTail` with a `NULL` link, and consists of exactly the blocks below the high-water mark
that the client does not hold; `Alloc` fails exactly when `BlocksUsed = NumBlocks`, then
changes nothing, and otherwise returns a block below the new high-water mark that the
client does not hold. -/
theorem valid_usage_invariant (mem : Mem) (p T B : Nat) (ops : List PoolOp) (A : List Nat)
    (hp : 0 < p) (hB : 8 ≤ B) (hT : T < U32) (hsz : T * B ≤ U32) (haddr : p + T * B ≤ U64)
    (hv : held (KISS_BLOCKPOOL_Create mem p T B) [] ops = some A) :
    (∃ F : List Nat,
      F = chainFrom (poolRun (KISS_BLOCKPOOL_Create mem p T B) ops).mem
            (poolRun (KISS_BLOCKPOOL_Create mem p T B) ops).pHead
            ((poolRun (KISS_BLOCKPOOL_Create mem p T B) ops).MaxUsed
              - (poolRun (KISS_BLOCKPOOL_Create mem p T B) ops).BlocksUsed) ∧
      F.length = (poolRun (KISS_BLOCKPOOL_Create mem p T B) ops).MaxUsed
        - (poolRun (KISS_BLOCKPOOL_Create mem p T B) ops).BlocksUsed ∧
      F.Nodup ∧
      (poolRun (KISS_BLOCKPOOL_Create mem p T B) ops).pHead = F.getD 0 0 ∧
      (poolRun (KISS_BLOCKPOOL_Create mem p T B) ops).pTail = F.getD (F.length - 1) 0 ∧
      (0 < F.length → read64 (poolRun (KISS_BLOCKPOOL_Create mem p T B) ops).mem
        (poolRun (KISS_BLOCKPOOL_Create mem p T B) ops).pTail = 0) ∧
      (∀ x, x ∈ F ↔ x ∈ blockAddrs p B 0
          (poolRun (KISS_BLOCKPOOL_Create mem p T B) ops).MaxUsed ∧ x ∉ A)) ∧
    (poolRun (KISS_BLOCKPOOL_Create mem p T B) ops).BlocksUsed = A.length ∧
    ((KISS_BLOCKPOOL_Alloc (poolRun (KISS_BLOCKPOOL_Create mem p T B) ops)).2 = 0 ↔
      (poolRun (KISS_BLOCKPOOL_Create mem p T B) ops).BlocksUsed = T) ∧
    ((KISS_BLOCKPOOL_Alloc (poolRun (KISS_BLOCKPOOL_Create mem p T B) ops)).2 = 0 →
      (KISS_BLOCKPOOL_Alloc (poolRun (KISS_BLOCKPOOL_Create mem p T B) ops)).1
        = poolRun (KISS_BLOCKPOOL_Create mem p T B) ops) ∧
    ((KISS_BLOCKPOOL_Alloc (poolRun (KISS_BLOCKPOOL_Create mem p T B) ops)).2 ≠ 0 →
      (KISS_BLOCKPOOL_Alloc (poolRun (KISS_BLOCKPOOL_Create mem p T B) ops)).2 ∉ A ∧
      (KISS_BLOCKPOOL_Alloc (poolRun (KISS_BLOCKPOOL_Create mem p T B) ops)).2 ∈
        blockAddrs p B 0
          (KISS_BLOCKPOOL_Alloc (poolRun (KISS_BLOCKPOOL_Create mem p T B) ops)).1.MaxUsed ∧
      (KISS_BLOCKPOOL_Alloc (poolRun (KISS_BLOCKPOOL_Create mem p T B) ops)).1.MaxUsed ≤ T ∧
      (KISS_BLOCKPOOL_Alloc (poolRun (KISS_BLOCKPOOL_Create mem p T B) ops)).1.BlocksUsed
        = (poolRun (KISS_BLOCKPOOL_Create mem p T B) ops).BlocksUsed + 1) := by
  obtain ⟨F, hF⟩ := held_inv p T B hp hB hT hsz haddr ops _ [] [] A
    (poolInv_create mem p T B) hv
  generalize poolRun (KISS_BLOCKPOOL_Create mem p T B) ops = P at *
  obtain ⟨a1, a2, a3⟩ := alloc_inv p T B P A F hp hB hT hsz haddr hF
  obtain ⟨i1, i2, i3, i4, i5, i6, i7, i8, i9, i10⟩ := hF
  have hnd : (A ++ F).Nodup := (List.Perm.nodup_iff i7).mpr (blockAddrs_nodup p B _ (by omega))
  have hlenF : P.MaxUsed - P.BlocksUsed = F.length := by omega
  have hnz : ∀ x ∈ F, x ≠ 0 := fun x hx =>
    (block_facts p T B P.MaxUsed x hp hB i4 haddr
      ((List.Perm.mem_iff i7).mp (List.mem_append_right _ hx))).1
  refine ⟨⟨F, ?_, hlenF.symm, (List.nodup_append.mp hnd).2.1, i9, i10, ?_, ?_⟩, i5, a1, a2, ?_⟩
  · rw [hlenF, i9, chainFrom_linked P.mem F i8 hnz]
  · intro hpos
    rw [i10, i8 (F.length - 1) (by omega), if_neg (by omega)]
  · intro x
    constructor
    · intro hx
      exact ⟨(List.Perm.mem_iff i7).mp (List.mem_append_right _ hx),
        fun hA => (List.nodup_append.mp hnd).2.2 hA hx⟩
    · rintro ⟨hx, hA⟩
      rcases List.mem_append.mp ((List.Perm.mem_iff i7).mpr hx) with h1 | h1
      · exact absurd h1 hA
      · exact h1
  · intro h0
    obtain ⟨b1, b2, b3, F2, hF2⟩ := a3 h0
    exact ⟨b1, b2, hF2.2.2.2.1, b3⟩

/-! ### Queue: pin counter -/

/-- Repeated `GetPtr` on a non-empty queue only advances the 16-bit pin counter. -/
theorem getPtrN_state (n : Nat) (q : KISS_QUEUE) (h : q.NumElements > 0) :
    getPtrN q n = { q with UseCount := if n = 0 then q.UseCount else (q.UseCount + n) % U16 } := by
  induction n generalizing q with
  | zero => simp [getPtrN]
  | succ n ih =>
    have hg : (KISS_QUEUE_GetPtr q).1 = { q with UseCount := (q.UseCount + 1) % U16 } := by
      simp only [KISS_QUEUE_GetPtr, if_pos h]
    simp only [getPtrN]
    rw [hg, ih { q with UseCount := (q.UseCount + 1) % U16 } h]
    simp only [Nat.succ_ne_zero, if_false]
    by_cases hn : n = 0
    · subst hn; simp
    · simp only [if_neg hn]
      congr 1
      unfold U16
      omega

/-- The assertion inside `KISS_QUEUE_Purge` holds exactly when the queue is empty or at most
one pin is outstanding. -/
theorem purge_assert_iff (q : KISS_QUEUE) :
    KISS_QUEUE_Purge_assert q = true ↔ q.NumElements = 0 ∨ q.UseCount ≤ 1 := by
  unfold KISS_QUEUE_Purge_assert
  split_ifs with h
  · simp only [beq_iff_eq]
    omega
  · simp only [true_iff]
    omega

/-! ### Queue: scatter put -/

/-- The 32-bit sum computed by `KISS_QUEUE_PutEx` is the total length modulo `2^32`. -/
theorem srcListSize_eq (l : Nat → KISS_QUEUE_SRCLIST) (n : Nat) :
    srcListSize l n = srcTotal l n % U32 := by
  induction n with
  | zero => rfl
  | succ n ih =>
    simp only [srcListSize, srcTotal, ih]
    exact Nat.mod_add_mod _ _ _

/-- The chunk-by-chunk copy of `KISS_QUEUE_PutEx` is one copy of the concatenation. -/
theorem srcListCopy_eq (l : Nat → KISS_QUEUE_SRCLIST) (m : Mem) (pDest : Nat) (n : Nat) :
    srcListCopy l m pDest n
      = (memcpy m pDest (concatSrc l n) (srcTotal l n), pDest + srcTotal l n) := by
  induction n with
  | zero =>
    simp only [srcListCopy, srcTotal, concatSrc]
    refine Prod.ext ?_ rfl
    funext x
    simp only [memcpy]
    rw [if_neg (by omega)]
  | succ n ih =>
    simp only [srcListCopy, srcTotal, ih]
    refine Prod.ext ?_ (by simp only; omega)
    funext x
    simp only [memcpy, concatSrc]
    by_cases h1 : pDest + srcTotal l n ≤ x ∧ x < pDest + srcTotal l n + (l n).Size
    · rw [if_pos h1, if_pos (by omega), if_neg (by omega)]
      congr 1
      omega
    · rw [if_neg h1]
      by_cases h2 : pDest ≤ x ∧ x < pDest + srcTotal l n
      · rw [if_pos h2, if_pos (by omega), if_pos (by omega)]
      · rw [if_neg h2, if_neg (by omega)]

/-- The concatenation of the chunks of a list of byte strings, read as memory, is the
flattened list. -/
theorem concatSrc_srcListOf (cs : List (List Nat)) (n : Nat) (hn : n ≤ cs.length) :
    srcTotal (srcListOf cs) n = ((cs.take n).flatten).length ∧
    ∀ i, i < srcTotal (srcListOf cs) n →
      concatSrc (srcListOf cs) n i = bytes ((cs.take n).flatten) i := by
  induction n with
  | zero => simp [srcTotal]
  | succ n ih =>
    obtain ⟨ih1, ih2⟩ := ih (by omega)
    have hlt : n < cs.length := by omega
    have hget : cs.getD n [] = cs[n] := by
      rw [List.getD_eq_getElem?_getD, List.getElem?_eq_getElem hlt]; rfl
    have htake : cs.take (n + 1) = cs.take n ++ [cs[n]] := by
      rw [List.take_succ, List.getElem?_eq_getElem hlt]; rfl
    have hsz : ((srcListOf cs) n).Size = cs[n].length := by
      simp only [srcListOf, hget]
    have hsrc : ((srcListOf cs) n).pSrc = bytes cs[n] := by
      simp only [srcListOf, hget]
    constructor
    · simp only [srcTotal, ih1, hsz, htake, List.flatten_append, List.length_append,
        List.flatten_cons, List.flatten_nil, List.append_nil]
    · intro i hi
      simp only [srcTotal, hsz] at hi
      simp only [concatSrc, htake, List.flatten_append, List.flatten_cons, List.flatten_nil,
        List.append_nil, hsrc]
      by_cases h1 : i < srcTotal (srcListOf cs) n
      · rw [if_pos h1, ih2 i h1]
        simp only [bytes]
        rw [List.getD_append _ _ _ _ (by omega)]
      · rw [if_neg h1]
        simp only [bytes]
        rw [List.getD_append_right _ _ _ _ (by omega), ih1]

/-! ### Pool: high-water mark -/

/-- One step raises `MaxUsed` exactly to the new `BlocksUsed` when that is larger. -/
theorem step_maxUsed (P : KISS_BLOCKPOOL) (op : PoolOp) (h1 : P.BlocksUsed ≤ P.MaxUsed)
    (h2 : P.MaxUsed ≤ P.NumBlocks) (h3 : P.NumBlocks < U32) :
    (poolStep P op).MaxUsed = max P.MaxUsed (poolStep P op).BlocksUsed := by
  cases op with
  | alloc =>
    have hs := sub32 P.MaxUsed P.BlocksUsed h1 (by omega)
    have hm : P.BlocksUsed < P.NumBlocks → (P.BlocksUsed + 1) % U32 = P.BlocksUsed + 1 :=
      fun h => Nat.mod_eq_of_lt (by omega)
    by_cases c1 : P.BlocksUsed < P.NumBlocks
    · simp only [poolStep, KISS_BLOCKPOOL_Alloc, if_pos c1, hs, hm c1]
      split_ifs <;> simp only <;> omega
    · simp only [poolStep, KISS_BLOCKPOOL_Alloc, if_neg c1]
      omega
  | free b =>
    obtain ⟨f1, f2, f3⟩ := free_counters P b
    simp only [poolStep, f2]
    omega
  | write a v =>
    simp only [poolStep]
    omega

/-- `MaxUsed` is the high-water mark of `BlocksUsed`, for every sequence of steps. -/
theorem maxUsed_is_highWater (ops : List PoolOp) (P : KISS_BLOCKPOOL)
    (h1 : P.BlocksUsed ≤ P.MaxUsed) (h2 : P.MaxUsed ≤ P.NumBlocks) (h3 : P.NumBlocks < U32) :
    (poolRun P ops).MaxUsed = highWater P P.MaxUsed ops := by
  induction ops generalizing P with
  | nil => rfl
  | cons op ops ih =>
    obtain ⟨s1, s2, s3, s4, s5⟩ := step_counters P op h1 h2 h3
    simp only [poolRun, highWater]
    rw [ih (poolStep P op) s2 (by omega) (by omega), step_maxUsed P op h1 h2 h3]

/-! ### Ring: slots and the list model -/

/-- Two positions less than `m` apart fall into different slots. -/
theorem slot_ne (m h i j : Nat) (hij : i < j) (hj : j < m) : (h + i) % m ≠ (h + j) % m := by
  intro e
  have h0 := Nat.sub_mod_eq_zero_of_mod_eq e.symm
  have e2 : h + j - (h + i) = j - i := by omega
  rw [e2, Nat.mod_eq_of_lt (by omega)] at h0
  omega

/-- Different slots occupy disjoint byte ranges. -/
theorem slots_apart (a b s : Nat) (h : a ≠ b) : a * s + s ≤ b * s ∨ b * s + s ≤ a * s := by
  rcases Nat.lt_or_gt_of_ne h with h1 | h1
  · exact Or.inl (mul_add_le_of_lt a b s h1)
  · exact Or.inr (mul_add_le_of_lt b a s h1)

/-- The byte offset of a slot of a ring of at most `2^32` bytes fits 32 bits. -/
theorem slot_offset (m s a : Nat) (ha : a < m) (hsz : m * s ≤ U32) : a * s % U32 = a * s := by
  apply Nat.mod_eq_of_lt
  rcases Nat.eq_zero_or_pos s with h0 | h0
  · rw [h0, Nat.mul_zero]; decide
  · have := mul_add_le_of_lt a m s ha
    omega

theorem readBytes_ext (n : Nat) (m1 m2 : Mem) (a b : Nat)
    (h : ∀ i, i < n → m1 (a + i) = m2 (b + i)) : readBytes m1 a n = readBytes m2 b n := by
  induction n generalizing a b with
  | zero => rfl
  | succ n ih =>
    simp only [readBytes]
    have h0 := h 0 (by omega)
    simp only [Nat.add_zero] at h0
    rw [h0, ih (a + 1) (b + 1)]
    intro i hi
    have := h (i + 1) (by omega)
    rw [show a + 1 + i = a + (i + 1) by omega, show b + 1 + i = b + (i + 1) by omega]
    exact this

theorem readBytes_length (m : Mem) (a n : Nat) : (readBytes m a n).length = n := by
  induction n generalizing a with
  | zero => rfl
  | succ n ih => simp [readBytes, ih]

/-- The first byte read is the byte at the address. -/
theorem readBytes_getD_zero (m : Mem) (a n : Nat) (hn : 0 < n) :
    (readBytes m a n).getD 0 0 = m a := by
  cases n with
  | zero => omega
  | succ n => simp [readBytes]

/-- Appending at the tail slot: the ring then holds the old items followed by the new
one. -/
theorem holds_snoc (m s : Nat) (r r2 : KISS_RING) (L : List (List Nat)) (x : List Nat)
    (hm : m < 2147483648) (H : RingHolds m s r L) (hlt : L.length < m)
    (h1 : r2.MaxCount = r.MaxCount) (h2 : r2.ItemSize = r.ItemSize)
    (h3 : r2.NumUsed = (r.NumUsed + 1) % U32) (h4 : r2.oHead = r.oHead)
    (h5 : r2.oTail = (r.oTail + 1) % U32 % r.MaxCount)
    (hx : readBytes r2.pBuffer (r.oTail * s) s = x)
    (hout : ∀ a, a < r.oTail * s ∨ r.oTail * s + s ≤ a → r2.pBuffer a = r.pBuffer a) :
    RingHolds m s r2 (L ++ [x]) := by
  obtain ⟨a1, a2, a3, a4, a5, a6, a7⟩ := H
  have hmpos : 0 < m := by omega
  have ht : r.oTail < m := by rw [a6]; exact Nat.mod_lt _ hmpos
  refine ⟨by rw [h1, a1], by rw [h2, a2], ?_, ?_, by rw [h4]; exact a5, ?_, ?_⟩
  · rw [h3, a3, Nat.mod_eq_of_lt (by unfold U32; omega)]
    simp
  · simp; omega
  · rw [h5, a1, Nat.mod_eq_of_lt (show r.oTail + 1 < U32 by unfold U32; omega), h4, a6,
      Nat.mod_add_mod]
    simp [Nat.add_assoc]
  · intro i hi
    simp only [List.length_append, List.length_singleton] at hi
    rw [h4]
    by_cases hik : i < L.length
    · rw [List.getD_append _ _ _ _ hik, ← a7 i hik]
      apply readBytes_congr
      intro y hy1 hy2
      apply hout
      have hne := slot_ne m r.oHead i L.length hik hlt
      rw [← a6] at hne
      have := slots_apart _ _ s hne
      omega
    · have hik2 : i = L.length := by omega
      rw [List.getD_append_right _ _ _ _ (by omega), hik2, ← a6]
      simp [hx]

/-- Inserting at the slot before the head: the ring then holds the new item followed by
the old ones. -/
theorem holds_cons (m s : Nat) (r r2 : KISS_RING) (L : List (List Nat)) (x : List Nat)
    (hm : m ≤ 2147483648) (H : RingHolds m s r L) (hlt : L.length < m)
    (h1 : r2.MaxCount = r.MaxCount) (h2 : r2.ItemSize = r.ItemSize)
    (h3 : r2.NumUsed = (r.NumUsed + 1) % U32)
    (h4 : r2.oHead = (r.oHead + r.MaxCount + U32 - 1) % U32 % r.MaxCount)
    (h5 : r2.oTail = r.oTail)
    (hx : readBytes r2.pBuffer (r2.oHead * s) s = x)
    (hout : ∀ a, a < r2.oHead * s ∨ r2.oHead * s + s ≤ a → r2.pBuffer a = r.pBuffer a) :
    RingHolds m s r2 (x :: L) := by
  obtain ⟨a1, a2, a3, a4, a5, a6, a7⟩ := H
  have hmpos : 0 < m := by omega
  have e1 : (r.oHead + r.MaxCount + U32 - 1) % U32 = r.oHead + m - 1 := by
    rw [a1]
    have : r.oHead + m + U32 - 1 = (r.oHead + m - 1) + U32 := by omega
    rw [this, Nat.add_mod_right]
    exact Nat.mod_eq_of_lt (by unfold U32; omega)
  have hh : r2.oHead = (r.oHead + m - 1) % m := by rw [h4, e1, a1]
  have hh2 : r2.oHead < m := by rw [hh]; exact Nat.mod_lt _ hmpos
  have hstep : ∀ i, (r2.oHead + (i + 1)) % m = (r.oHead + i) % m := by
    intro i
    rw [hh, Nat.mod_add_mod]
    have : r.oHead + m - 1 + (i + 1) = r.oHead + i + m := by omega
    rw [this, Nat.add_mod_right]
  refine ⟨by rw [h1, a1], by rw [h2, a2], ?_, ?_, hh2, ?_, ?_⟩
  · rw [h3, a3, Nat.mod_eq_of_lt (by unfold U32; omega)]
    simp
  · simp; omega
  · rw [h5, a6, List.length_cons, hstep]
  · intro i hi
    simp only [List.length_cons] at hi
    cases i with
    | zero =>
      simp only [Nat.add_zero, List.getD_cons_zero]
      rw [Nat.mod_eq_of_lt hh2]
      exact hx
    | succ i =>
      rw [List.getD_cons_succ, hstep, ← a7 i (by omega)]
      apply readBytes_congr
      intro y hy1 hy2
      apply hout
      have hne := slot_ne m r2.oHead 0 (i + 1) (by omega) (by omega)
      rw [hstep, Nat.add_zero, Nat.mod_eq_of_lt hh2] at hne
      have := slots_apart _ _ s hne
      omega

/-- Removing at the head: the head slot holds the oldest item and the ring then holds the
others. -/
theorem holds_tail (m s : Nat) (r r2 : KISS_RING) (L : List (List Nat)) (x : List Nat)
    (hm : m < U32) (H : RingHolds m s r (x :: L))
    (h1 : r2.MaxCount = r.MaxCount) (h2 : r2.ItemSize = r.ItemSize)
    (h3 : r2.NumUsed = r.NumUsed - 1)
    (h4 : r2.oHead = (r.oHead + 1) % U32 % r.MaxCount)
    (h5 : r2.oTail = r.oTail) (h6 : r2.pBuffer = r.pBuffer) :
    readBytes r.pBuffer (r.oHead * s) s = x ∧ RingHolds m s r2 L := by
  obtain ⟨a1, a2, a3, a4, a5, a6, a7⟩ := H
  have hmpos : 0 < m := by omega
  simp only [List.length_cons] at a3 a4 a6 a7
  have hh : r2.oHead = (r.oHead + 1) % m := by
    rw [h4, a1, Nat.mod_eq_of_lt (show r.oHead + 1 < U32 by omega)]
  have hstep : ∀ i, (r2.oHead + i) % m = (r.oHead + (i + 1)) % m := by
    intro i
    rw [hh, Nat.mod_add_mod]
    congr 1
    omega
  constructor
  · have := a7 0 (by omega)
    simp only [Nat.add_zero, List.getD_cons_zero] at this
    rw [Nat.mod_eq_of_lt a5] at this
    exact this
  · refine ⟨by rw [h1, a1], by rw [h2, a2], by rw [h3, a3]; simp, by omega, ?_, ?_, ?_⟩
    · rw [hh]; exact Nat.mod_lt _ hmpos
    · rw [h5, a6, hstep]
    · intro i hi
      rw [hstep, h6]
      have := a7 (i + 1) (by omega)
      rw [List.getD_cons_succ] at this
      exact this

/-- The item count of a ring that holds `L`. -/
theorem cnt_of_holds (m s : Nat) (r : KISS_RING) (L : List (List Nat)) (hm : m < 2147483648)
    (H : RingHolds m s r L) : KISS_RING_GetItemCnt r = L.length := by
  obtain ⟨a1, a2, a3, a4, a5, a6, a7⟩ := H
  unfold KISS_RING_GetItemCnt
  rw [a3, toInt_small _ (by omega)]

/-- `KISS_RING_Put` on a ring that is not full. -/
theorem put_holds (m s : Nat) (r : KISS_RING) (L : List (List Nat)) (e : Mem)
    (hm : m < 2147483648) (hsz : m * s ≤ U32) (H : RingHolds m s r L) (hlt : L.length < m) :
    (KISS_RING_Put r e).2 = 0 ∧
    RingHolds m s (KISS_RING_Put r e).1 (L ++ [readBytes e 0 s]) := by
  have H0 := H
  obtain ⟨a1, a2, a3, a4, a5, a6, a7⟩ := H
  have ht : r.oTail < m := by rw [a6]; exact Nat.mod_lt _ (by omega)
  have hc : r.NumUsed < r.MaxCount := by omega
  simp only [KISS_RING_Put, if_pos hc, a2, slot_offset m s r.oTail ht hsz]
  refine ⟨trivial, holds_snoc m s r _ L _ hm H0 hlt rfl a2.symm rfl rfl rfl ?_ ?_⟩
  · apply readBytes_ext
    intro i hi
    dsimp only
    rw [memcpy_inside _ _ _ _ _ hi, Nat.zero_add]
  · intro a ha
    dsimp only at ha ⊢
    exact memcpy_outside _ _ _ _ _ ha

/-- `KISS_RING_Put1` on a ring of one-byte items that is not full. -/
theorem put1_holds (m : Nat) (r : KISS_RING) (L : List (List Nat)) (e : Mem)
    (hm : m < 2147483648) (hsz : m * 1 ≤ U32) (H : RingHolds m 1 r L) (hlt : L.length < m) :
    (KISS_RING_Put1 r e).2 = 0 ∧
    RingHolds m 1 (KISS_RING_Put1 r e).1 (L ++ [[e 0 % 256]]) := by
  have H0 := H
  obtain ⟨a1, a2, a3, a4, a5, a6, a7⟩ := H
  have ht : r.oTail < m := by rw [a6]; exact Nat.mod_lt _ (by omega)
  have hc : r.NumUsed < r.MaxCount := by omega
  simp only [KISS_RING_Put1, if_pos hc, a2, slot_offset m 1 r.oTail ht hsz]
  refine ⟨trivial, holds_snoc m 1 r _ L _ hm H0 hlt rfl a2.symm rfl rfl rfl ?_ ?_⟩
  · simp [readBytes, writeByte]
  · intro a ha
    dsimp only at ha ⊢
    simp only [writeByte]
    rw [if_neg (by omega)]

/-- `KISS_RING_PutFront` on a ring that is not full. -/
theorem putFront_holds (m s : Nat) (r : KISS_RING) (L : List (List Nat)) (e : Mem)
    (hm : m ≤ 2147483648) (hsz : m * s ≤ U32) (H : RingHolds m s r L) (hlt : L.length < m) :
    (KISS_RING_PutFront r e).2 = 0 ∧
    RingHolds m s (KISS_RING_PutFront r e).1 (readBytes e 0 s :: L) := by
  have H0 := H
  obtain ⟨a1, a2, a3, a4, a5, a6, a7⟩ := H
  have hh : (r.oHead + r.MaxCount + U32 - 1) % U32 % r.MaxCount < m := by
    rw [a1]; exact Nat.mod_lt _ (by omega)
  have hc : r.NumUsed < r.MaxCount := by omega
  simp only [KISS_RING_PutFront, if_pos hc, a2, slot_offset m s _ hh hsz]
  refine ⟨trivial, holds_cons m s r _ L _ hm H0 hlt rfl a2.symm rfl rfl rfl ?_ ?_⟩
  · apply readBytes_ext
    intro i hi
    dsimp only
    rw [memcpy_inside _ _ _ _ _ hi, Nat.zero_add]
  · intro a ha
    dsimp only at ha ⊢
    exact memcpy_outside _ _ _ _ _ ha

/-- `KISS_RING_PutFront1` on a ring of one-byte items that is not full. -/
theorem putFront1_holds (m : Nat) (r : KISS_RING) (L : List (List Nat)) (e : Mem)
    (hm : m ≤ 2147483648) (hsz : m * 1 ≤ U32) (H : RingHolds m 1 r L) (hlt : L.length < m) :
    (KISS_RING_PutFront1 r e).2 = 0 ∧
    RingHolds m 1 (KISS_RING_PutFront1 r e).1 ([e 0 % 256] :: L) := by
  have H0 := H
  obtain ⟨a1, a2, a3, a4, a5, a6, a7⟩ := H
  have hh : (r.oHead + r.MaxCount + U32 - 1) % U32 % r.MaxCount < m := by
    rw [a1]; exact Nat.mod_lt _ (by omega)
  have hc : r.NumUsed < r.MaxCount := by omega
  simp only [KISS_RING_PutFront1, if_pos hc, a2, slot_offset m 1 _ hh hsz]
  refine ⟨trivial, holds_cons m 1 r _ L _ hm H0 hlt rfl a2.symm rfl rfl rfl ?_ ?_⟩
  · simp [readBytes, writeByte]
  · intro a ha
    dsimp only at ha ⊢
    simp only [writeByte]
    rw [if_neg (by omega)]

/-- A put on a full ring is refused and changes nothing. -/
theorem put_full (r : KISS_RING) (e : Mem) (h : r.NumUsed = r.MaxCount) :
    KISS_RING_Put r e = (r, 1) ∧ KISS_RING_Put1 r e = (r, 1) ∧
    KISS_RING_PutFront r e = (r, 1) ∧ KISS_RING_PutFront1 r e = (r, 1) := by
  have hc : ¬ r.NumUsed < r.MaxCount := by omega
  simp only [KISS_RING_Put, KISS_RING_Put1, KISS_RING_PutFront, KISS_RING_PutFront1, if_neg hc]
  exact ⟨trivial, trivial, trivial, trivial⟩

/-- `KISS_RING_Get` on a ring that holds an item: the item is copied to the destination
and leaves the ring. -/
theorem get_holds (m s : Nat) (r : KISS_RING) (L : List (List Nat)) (x : List Nat) (d : Mem)
    (hm : m < U32) (hsz : m * s ≤ U32) (H : RingHolds m s r (x :: L)) :
    (KISS_RING_Get r (some d)).2.1 = 0 ∧
    readBytes ((KISS_RING_Get r (some d)).2.2.getD zeroMem) 0 s = x ∧
    RingHolds m s (KISS_RING_Get r (some d)).1 L := by
  have H0 := H
  obtain ⟨a1, a2, a3, a4, a5, a6, a7⟩ := H
  have hc : r.NumUsed > 0 := by rw [a3]; simp
  obtain ⟨t1, t2⟩ := holds_tail m s r
    { r with oHead := (r.oHead + 1) % U32 % r.MaxCount, NumUsed := r.NumUsed - 1 } L x hm H0
    rfl rfl rfl rfl rfl rfl
  simp only [KISS_RING_Get, if_pos hc, a2, slot_offset m s r.oHead a5 hsz, Option.getD_some]
  simp only [a2] at t2
  refine ⟨trivial, ?_, t2⟩
  rw [← t1]
  apply readBytes_ext
  intro i hi
  rw [memcpy_inside _ _ _ _ _ hi]

/-- `KISS_RING_Get1` on a ring that holds an item: the first byte of the item is stored at
the destination and the item leaves the ring. -/
theorem get1_holds (m s : Nat) (r : KISS_RING) (L : List (List Nat)) (x : List Nat) (d : Mem)
    (hm : m < U32) (hsz : m * s ≤ U32) (hs : 0 < s) (H : RingHolds m s r (x :: L)) :
    (KISS_RING_Get1 r (some d)).2.1 = 0 ∧
    readBytes ((KISS_RING_Get1 r (some d)).2.2.getD zeroMem) 0 1 = [x.getD 0 0 % 256] ∧
    RingHolds m s (KISS_RING_Get1 r (some d)).1 L := by
  have H0 := H
  obtain ⟨a1, a2, a3, a4, a5, a6, a7⟩ := H
  have hc : r.NumUsed > 0 := by rw [a3]; simp
  obtain ⟨t1, t2⟩ := holds_tail m s r
    { r with oHead := (r.oHead + 1) % U32 % r.MaxCount, NumUsed := r.NumUsed - 1 } L x hm H0
    rfl rfl rfl rfl rfl rfl
  simp only [KISS_RING_Get1, if_pos hc, a2, slot_offset m s r.oHead a5 hsz, Option.getD_some]
  simp only [a2] at t2
  refine ⟨trivial, ?_, t2⟩
  rw [← t1, readBytes_getD_zero _ _ _ hs]
  simp [readBytes, writeByte]

/-- A retrieval from an empty ring is refused and changes nothing. -/
theorem get_empty (r : KISS_RING) (d : Option Mem) (h : r.NumUsed = 0) :
    KISS_RING_Get r d = (r, 1, d) ∧ KISS_RING_Get1 r d = (r, 1, d) := by
  have hc : ¬ r.NumUsed > 0 := by omega
  cases d with
  | none => exact ⟨rfl, rfl⟩
  | some d =>
    simp only [KISS_RING_Get, KISS_RING_Get1, if_neg hc]
    exact ⟨trivial, trivial⟩

/-- One call on a ring that holds `L` observes what the list model observes and leaves the
ring holding the items of the model. `Put1` and `PutFront1` require one-byte items. -/
theorem ring_step_refines (m s : Nat) (r : KISS_RING) (L : List (List Nat)) (op : RingOp)
    (hs : 1 ≤ s) (hm : m < 2147483648) (hsz : m * s ≤ U32)
    (hc : op.isChar = true → s = 1) (H : RingHolds m s r L) :
    (ringStep r op).2 = (modelStep m s L op).2 ∧
    RingHolds m s (ringStep r op).1 (modelStep m s L op).1 := by
  have H0 := H
  obtain ⟨a1, a2, a3, a4, a5, a6, a7⟩ := H
  have hm32 : m < U32 := by unfold U32; omega
  have hcnt := cnt_of_holds m s r L hm H0
  cases op with
  | put e =>
    by_cases hlt : L.length < m
    · obtain ⟨p1, p2⟩ := put_holds m s r L e hm hsz H0 hlt
      simp only [ringStep, modelStep, if_pos hlt, p1, cnt_of_holds m s _ _ hm p2]
      exact ⟨by simp, p2⟩
    · obtain ⟨f1, f2, f3, f4⟩ := put_full r e (by omega)
      simp only [ringStep, modelStep, if_neg hlt, f1, hcnt]
      exact ⟨trivial, H0⟩
  | put1 e =>
    have hs1 : s = 1 := hc rfl
    subst hs1
    by_cases hlt : L.length < m
    · obtain ⟨p1, p2⟩ := put1_holds m r L e hm hsz H0 hlt
      simp only [ringStep, modelStep, if_pos hlt, p1, cnt_of_holds m 1 _ _ hm p2]
      exact ⟨by simp, p2⟩
    · obtain ⟨f1, f2, f3, f4⟩ := put_full r e (by omega)
      simp only [ringStep, modelStep, if_neg hlt, f2, hcnt]
      exact ⟨trivial, H0⟩
  | putFront e =>
    by_cases hlt : L.length < m
    · obtain ⟨p1, p2⟩ := putFront_holds m s r L e (by omega) hsz H0 hlt
      simp only [ringStep, modelStep, if_pos hlt, p1, cnt_of_holds m s _ _ hm p2]
      exact ⟨by simp, p2⟩
    · obtain ⟨f1, f2, f3, f4⟩ := put_full r e (by omega)
      simp only [ringStep, modelStep, if_neg hlt, f3, hcnt]
      exact ⟨trivial, H0⟩
  | putFront1 e =>
    have hs1 : s = 1 := hc rfl
    subst hs1
    by_cases hlt : L.length < m
    · obtain ⟨p1, p2⟩ := putFront1_holds m r L e (by omega) hsz H0 hlt
      simp only [ringStep, modelStep, if_pos hlt, p1, cnt_of_holds m 1 _ _ hm p2]
      exact ⟨by simp, p2⟩
    · obtain ⟨f1, f2, f3, f4⟩ := put_full r e (by omega)
      simp only [ringStep, modelStep, if_neg hlt, f4, hcnt]
      exact ⟨trivial, H0⟩
  | get =>
    cases L with
    | nil =>
      obtain ⟨g1, g2⟩ := get_empty r (some zeroMem) (by rw [a3]; rfl)
      simp only [ringStep, modelStep, g1, hcnt]
      exact ⟨by simp, H0⟩
    | cons x L2 =>
      obtain ⟨g1, g2, g3⟩ := get_holds m s r L2 x zeroMem hm32 hsz H0
      rw [← a2] at g2
      simp only [ringStep, modelStep, g1, g2, cnt_of_holds m s _ _ hm g3]
      exact ⟨by simp, g3⟩
  | get1 =>
    cases L with
    | nil =>
      obtain ⟨g1, g2⟩ := get_empty r (some zeroMem) (by rw [a3]; rfl)
      simp only [ringStep, modelStep, g2, hcnt]
      exact ⟨by simp, H0⟩
    | cons x L2 =>
      obtain ⟨g1, g2, g3⟩ := get1_holds m s r L2 x zeroMem hm32 hsz (by omega) H0
      simp only [ringStep, modelStep, g1, g2, cnt_of_holds m s _ _ hm g3]
      exact ⟨by simp, g3⟩

/-- A sequence of calls on a ring that holds `L` observes what the list model observes. -/
theorem ring_run_refines (m s : Nat) (hs : 1 ≤ s) (hm : m < 2147483648) (hsz : m * s ≤ U32)
    (ops : List RingOp) (r : KISS_RING) (L : List (List Nat))
    (hc : ∀ op ∈ ops, op.isChar = true → s = 1) (H : RingHolds m s r L) :
    (ringRun r ops).2 = (modelRun m s L ops).2 ∧
    RingHolds m s (ringRun r ops).1 (modelRun m s L ops).1 := by
  induction ops generalizing r L with
  | nil => exact ⟨rfl, H⟩
  | cons op ops ih =>
    obtain ⟨s1, s2⟩ := ring_step_refines m s r L op hs hm hsz (hc op (by simp)) H
    obtain ⟨i1, i2⟩ := ih (ringStep r op).1 (modelStep m s L op).1
      (fun o ho => hc o (by simp [ho])) s2
    simp only [ringRun, modelRun]
    exact ⟨by rw [s1, i1], i2⟩

/-- A freshly created ring holds no item. -/
theorem create_holds (s m : Nat) (buf : Mem) (hm1 : 1 ≤ m) :
    RingHolds m s (KISS_RING_Create s m buf) [] := by
  refine ⟨rfl, rfl, rfl, by simp, ?_, ?_, ?_⟩
  · show 0 < m
    omega
  · show 0 = (0 + 0) % m
    simp
  · intro i hi
    simp at hi

/-- `KISS_RING_GetPtr` on a ring that holds an item: the pointer designates the slot of the
oldest item and only the pin counter changes. -/
theorem getPtr_holds (m s : Nat) (r : KISS_RING) (L : List (List Nat)) (x : List Nat)
    (old : Nat) (hsz : m * s ≤ U32) (H : RingHolds m s r (x :: L)) :
    (KISS_RING_GetPtr r (some old)).2.1 = 0 ∧
    ((KISS_RING_GetPtr r (some old)).2.2).map (fun p => readBytes r.pBuffer p s) = some x ∧
    (KISS_RING_GetPtr r (some old)).1 = { r with UseCount := (r.UseCount + 1) % U16 } := by
  obtain ⟨a1, a2, a3, a4, a5, a6, a7⟩ := H
  have hc : r.NumUsed > 0 := by rw [a3]; simp
  have h0 := a7 0 (by simp)
  simp only [Nat.add_zero, List.getD_cons_zero] at h0
  rw [Nat.mod_eq_of_lt a5] at h0
  simp only [KISS_RING_GetPtr, if_pos hc, a2, slot_offset m s r.oHead a5 hsz, Option.map_some',
    h0]
  exact ⟨trivial, trivial, trivial⟩

theorem modelRun_append (m s : Nat) (a b : List RingOp) (L : List (List Nat)) :
    (modelRun m s L (a ++ b)).1 = (modelRun m s (modelRun m s L a).1 b).1 ∧
    (modelRun m s L (a ++ b)).2
      = (modelRun m s L a).2 ++ (modelRun m s (modelRun m s L a).1 b).2 := by
  induction a generalizing L with
  | nil => exact ⟨rfl, rfl⟩
  | cons op a ih =>
    obtain ⟨i1, i2⟩ := ih (modelStep m s L op).1
    simp only [List.cons_append, modelRun]
    exact ⟨i1, congrArg _ i2⟩

theorem modelRun_length (m s : Nat) (a : List RingOp) (L : List (List Nat)) :
    (modelRun m s L a).2.length = a.length := by
  induction a generalizing L with
  | nil => rfl
  | cons op a ih => simp [modelRun, ih]

/-- The list model after pushing characters to the front one by one. -/
theorem modelRun_pushFront (m s : Nat) (xs : List Nat) (L : List (List Nat))
    (h : L.length + xs.length ≤ m) :
    (modelRun m s L (xs.map (fun c => RingOp.putFront1 (bytes [c])))).1
      = xs.reverse.map (fun c => [c % 256]) ++ L := by
  induction xs generalizing L with
  | nil => rfl
  | cons c xs ih =>
    simp only [List.length_cons] at h
    have hlt : L.length < m := by omega
    simp only [List.map_cons, modelRun, modelStep, if_pos hlt]
    rw [ih _ (by simp; omega)]
    simp [bytes]

/-- Draining the list model with `Get1` delivers the first byte of every item in order. -/
theorem modelRun_drain (m s : Nat) (L : List (List Nat)) :
    (modelRun m s L (List.replicate L.length RingOp.get1)).2.map RingObs.data
      = L.map (fun x => [x.getD 0 0 % 256]) := by
  induction L with
  | nil => rfl
  | cons x L ih =>
    simp only [List.length_cons, List.replicate_succ, modelRun, modelStep, List.map_cons]
    rw [ih]

/-- Pushing the characters of a string to the front of a fresh ring of one-byte items, last
character first, and draining the ring with `Get1` delivers the string. -/
theorem pushFront_drain (buf : Mem) (m : Nat) (str : List Nat) (hm1 : 1 ≤ m)
    (hm : m < 2147483648) (hlen : str.length ≤ m) (hbyte : ∀ c ∈ str, c < 256) :
    ((ringRun (KISS_RING_Create 1 m buf)
        (pushFrontOps str ++ List.replicate str.length RingOp.get1)).2.drop str.length).map
      RingObs.data = str.map (fun c => [c]) := by
  have hsz : m * 1 ≤ U32 := by unfold U32; omega
  obtain ⟨r1, r2⟩ := ring_run_refines m 1 (le_refl _) hm hsz
    (pushFrontOps str ++ List.replicate str.length RingOp.get1) (KISS_RING_Create 1 m buf) []
    (fun _ _ _ => rfl) (create_holds 1 m buf hm1)
  obtain ⟨m1, m2⟩ := modelRun_append m 1 (pushFrontOps str)
    (List.replicate str.length RingOp.get1) []
  have hL : (modelRun m 1 [] (pushFrontOps str)).1 = str.map (fun c => [c % 256]) := by
    unfold pushFrontOps
    rw [modelRun_pushFront m 1 str.reverse [] (by simp; omega)]
    simp
  have hlenP : (modelRun m 1 [] (pushFrontOps str)).2.length = str.length := by
    rw [modelRun_length]
    simp [pushFrontOps]
  have hrep : List.replicate str.length RingOp.get1
      = List.replicate (str.map (fun c => [c % 256])).length RingOp.get1 := by simp
  rw [r1, m2, List.drop_left' hlenP, hL, hrep, modelRun_drain, List.map_map]
  apply List.map_congr_left
  intro c hc
  have := hbyte c hc
  simp only [Function.comp, List.getD_cons_zero]
  rw [Nat.mod_mod, Nat.mod_eq_of_lt this]

/-! ### Ring: 32-bit index arithmetic beyond the bounds of the list model -/

/-- With `MaxCount = 2^32 - 1` the 32-bit sum `oHead + MaxCount - 1` of `PutFront1` wraps:
from `oHead = 2` the head moves to slot 0 instead of slot 1, and the ring that held `q`
delivers `x` and then the stale byte of slot 1 instead of `q`. -/
theorem putFront_wraps_32_bits :
    (ringRun (KISS_RING_Create 1 4294967295 zeroMem)
      [RingOp.put1 (bytes [97]), RingOp.get1, RingOp.put1 (bytes [98]), RingOp.get1,
       RingOp.put1 (bytes [113]), RingOp.putFront1 (bytes [120]), RingOp.get1,
       RingOp.get1]).2
      = [{ rc := 0, data := [], cnt := 1 }, { rc := 0, data := [97], cnt := 0 },
         { rc := 0, data := [], cnt := 1 }, { rc := 0, data := [98], cnt := 0 },
         { rc := 0, data := [], cnt := 1 }, { rc := 0, data := [], cnt := 2 },
         { rc := 0, data := [120], cnt := 1 }, { rc := 0, data := [98], cnt := 0 }] := by
  decide

/-- With 65539 slots of 65535 bytes the 32-bit slot offset wraps: slot 65538 is placed at
offset 65534, inside slot 0. After `PutFront` of an item of bytes 1 (slot 65538) and `Put`
of an item of bytes 2 (slot 0) the oldest item starts with the byte 2. -/
theorem ring_offset_wraps_32_bits :
    65538 * 65535 % U32 = 65534 ∧
    (ringRun (KISS_RING_Create 65535 65539 zeroMem)
      [RingOp.putFront (fun _ => 1), RingOp.put (fun _ => 2), RingOp.get1]).2
      = [{ rc := 0, data := [], cnt := 1 }, { rc := 0, data := [], cnt := 2 },
         { rc := 0, data := [2], cnt := 1 }] := by
  decide

/-! ### Arena: accounting -/

theorem arena_create_inv (p A : Nat) (hp : 1 ≤ p) (haddr : p + A ≤ U64) :
    ArenaInv p A (KISS_ARENA_Create p A) := by
  have e : (p + A + U64 - 1) % U64 = p + A - 1 := by
    have : p + A + U64 - 1 = (p + A - 1) + U64 := by omega
    rw [this, Nat.add_mod_right]
    exact Nat.mod_eq_of_lt (by omega)
  refine ⟨rfl, e, ?_, ?_⟩
  · show p - 1 ≤ (p + A + U64 - 1) % U64
    rw [e]
    omega
  · show (p + A + U64 - 1) % U64 ≤ p + A - 1
    rw [e]

/-- `KISS_ARENA_Alloc` on an arena above the first 4 GiB of the address space: no pointer
expression wraps, the call succeeds exactly when the new top is not below `p - 1`. -/
theorem arena_alloc_inv (p A : Nat) (a : KISS_ARENA) (Size : Nat) (hp : U32 ≤ p)
    (haddr : p + A ≤ U64) (hS : Size < U32) (H : ArenaInv p A a) :
    KISS_ARENA_Alloc a Size
      = if p - 1 + Size ≤ a.pArenaTop then
          ({ a with pArenaTop := a.pArenaTop - Size }, a.pArenaTop - Size)
        else (a, 0) := by
  obtain ⟨a1, a2, a3, a4⟩ := H
  have e1 : (a.pArenaTop + U64 - Size) % U64 = a.pArenaTop - Size := by
    have : a.pArenaTop + U64 - Size = (a.pArenaTop - Size) + U64 := by omega
    rw [this, Nat.add_mod_right]
    exact Nat.mod_eq_of_lt (by omega)
  have e2 : (a.pArena + U64 - a.ArenaSize) % U64 = p - 1 := by
    have : a.pArena + U64 - a.ArenaSize = (p - 1) + U64 := by
      unfold U32 at hp
      omega
    rw [this, Nat.add_mod_right]
    exact Nat.mod_eq_of_lt (by omega)
  simp only [KISS_ARENA_Alloc, e1, e2]
  by_cases h : p - 1 + Size ≤ a.pArenaTop
  · rw [if_pos h, if_pos (by omega)]
  · rw [if_neg h, if_neg (by omega)]

/-- The value of `KISS_ARENA_BytesAllocated` for an arena of less than `2^31` bytes. -/
theorem arena_bytes (p A : Nat) (a : KISS_ARENA) (hA : A < 2147483648) (hp : 1 ≤ p)
    (haddr : p + A ≤ U64) (H : ArenaInv p A a) :
    KISS_ARENA_BytesAllocated a = ((p + A - 1 - a.pArenaTop : Nat) : Int) := by
  obtain ⟨a1, a2, a3, a4⟩ := H
  have e1 : (a.pArena + U64 - a.pArenaTop) % U64 = p + A - 1 - a.pArenaTop := by
    have : a.pArena + U64 - a.pArenaTop = (p + A - 1 - a.pArenaTop) + U64 := by omega
    rw [this, Nat.add_mod_right]
    exact Nat.mod_eq_of_lt (by omega)
  unfold KISS_ARENA_BytesAllocated
  rw [e1, Nat.mod_eq_of_lt (by unfold U32; omega), toInt_small _ (by omega)]

theorem arena_step_inv (p A : Nat) (a : KISS_ARENA) (op : ArenaOp) (hp : U32 ≤ p)
    (haddr : p + A ≤ U64) (H : ArenaInv p A a) : ArenaInv p A (arenaStep a op) := by
  have H0 := H
  obtain ⟨a1, a2, a3, a4⟩ := H
  cases op with
  | alloc Size =>
    have hS : Size % U32 < U32 := Nat.mod_lt _ (by decide)
    simp only [arenaStep, arena_alloc_inv p A a _ hp haddr hS H0]
    split_ifs with h
    · exact ⟨a1, a2, by simp only; omega, by simp only; omega⟩
    · exact H0
  | clear =>
    simp only [arenaStep, KISS_ARENA_Clear]
    exact ⟨a1, a2, by simp only; unfold U32 at hp; omega, by simp only; omega⟩

theorem arena_run_inv (p A : Nat) (ops : List ArenaOp) (a : KISS_ARENA) (hp : U32 ≤ p)
    (haddr : p + A ≤ U64) (H : ArenaInv p A a) : ArenaInv p A (arenaRun a ops) := by
  induction ops generalizing a with
  | nil => exact H
  | cons op ops ih => exact ih _ (arena_step_inv p A a op hp haddr H)

/-- For an arena in the lowest 4 GiB of the address space the pointer `top - Size` wraps
around the address space: `KISS_ARENA_Alloc` of 8192 bytes on a fresh 64-byte arena at
address 4096 succeeds. -/
theorem arena_alloc_wraps_address_space :
    (KISS_ARENA_Alloc (KISS_ARENA_Create 4096 64) 8192).2 = 18446744073709547583 ∧
    KISS_ARENA_BytesAllocated (KISS_ARENA_Alloc (KISS_ARENA_Create 4096 64) 8192).1
      = 8192 := by
  decide


/-! ### Ring: index invariant -/

/-- Appending one item keeps the index invariant. -/
theorem index_put (m : Nat) (r r2 : KISS_RING) (hm : m < 2147483648) (H : RingIndexInv m r)
    (hlt : r.NumUsed < r.MaxCount)
    (h1 : r2.MaxCount = r.MaxCount) (h2 : r2.oHead = r.oHead)
    (h3 : r2.oTail = (r.oTail + 1) % U32 % r.MaxCount)
    (h4 : r2.NumUsed = (r.NumUsed + 1) % U32) : RingIndexInv m r2 := by
  obtain ⟨a1, a2, a3, a4, a5⟩ := H
  have hmpos : 0 < m := by omega
  have e4 : r2.NumUsed = r.NumUsed + 1 := by
    rw [h4]; exact Nat.mod_eq_of_lt (by unfold U32; omega)
  have e3 : r2.oTail = (r.oHead + (r.NumUsed + 1)) % m := by
    rw [h3, a1, Nat.mod_eq_of_lt (show r.oTail + 1 < U32 by unfold U32; omega), a5,
      Nat.mod_add_mod]
    simp [Nat.add_assoc]
  refine ⟨by rw [h1, a1], by rw [h2]; exact a2, ?_, by omega, ?_⟩
  · rw [e3]; exact Nat.mod_lt _ hmpos
  · rw [e3, h2, e4]

/-- Inserting one item before the head keeps the index invariant. -/
theorem index_putFront (m : Nat) (r r2 : KISS_RING) (hm : m < 2147483648)
    (H : RingIndexInv m r) (hlt : r.NumUsed < r.MaxCount)
    (h1 : r2.MaxCount = r.MaxCount)
    (h2 : r2.oHead = (r.oHead + r.MaxCount + U32 - 1) % U32 % r.MaxCount)
    (h3 : r2.oTail = r.oTail)
    (h4 : r2.NumUsed = (r.NumUsed + 1) % U32) : RingIndexInv m r2 := by
  obtain ⟨a1, a2, a3, a4, a5⟩ := H
  have hmpos : 0 < m := by omega
  have e4 : r2.NumUsed = r.NumUsed + 1 := by
    rw [h4]; exact Nat.mod_eq_of_lt (by unfold U32; omega)
  have e1 : (r.oHead + r.MaxCount + U32 - 1) % U32 = r.oHead + m - 1 := by
    rw [a1]
    have : r.oHead + m + U32 - 1 = (r.oHead + m - 1) + U32 := by omega
    rw [this, Nat.add_mod_right]
    exact Nat.mod_eq_of_lt (by unfold U32; omega)
  have e2 : r2.oHead = (r.oHead + m - 1) % m := by rw [h2, e1, a1]
  refine ⟨by rw [h1, a1], by rw [e2]; exact Nat.mod_lt _ hmpos, by rw [h3]; exact a3,
    by omega, ?_⟩
  rw [h3, a5, e2, e4, Nat.mod_add_mod]
  have : r.oHead + m - 1 + (r.NumUsed + 1) = r.oHead + r.NumUsed + m := by omega
  rw [this, Nat.add_mod_right]

/-- Removing the item at the head keeps the index invariant. -/
theorem index_get (m : Nat) (r r2 : KISS_RING) (hm : m < 2147483648)
    (H : RingIndexInv m r) (hpos : r.NumUsed > 0)
    (h1 : r2.MaxCount = r.MaxCount)
    (h2 : r2.oHead = (r.oHead + 1) % U32 % r.MaxCount)
    (h3 : r2.oTail = r.oTail)
    (h4 : r2.NumUsed = r.NumUsed - 1) : RingIndexInv m r2 := by
  obtain ⟨a1, a2, a3, a4, a5⟩ := H
  have hmpos : 0 < m := by omega
  have e2 : r2.oHead = (r.oHead + 1) % m := by
    rw [h2, a1, Nat.mod_eq_of_lt (show r.oHead + 1 < U32 by unfold U32; omega)]
  refine ⟨by rw [h1, a1], by rw [e2]; exact Nat.mod_lt _ hmpos, by rw [h3]; exact a3,
    by omega, ?_⟩
  rw [h3, a5, e2, h4, Nat.mod_add_mod]
  congr 1
  omega

/-- Every call keeps the index invariant. -/
theorem ringCall_index (m : Nat) (r : KISS_RING) (c : RingCall) (hm : m < 2147483648)
    (H : RingIndexInv m r) : RingIndexInv m (ringCall r c) := by
  have H0 := H
  obtain ⟨a1, a2, a3, a4, a5⟩ := H
  cases c with
  | put e =>
    simp only [ringCall, KISS_RING_Put]
    split_ifs with h
    · exact index_put m r _ hm H0 h rfl rfl rfl rfl
    · exact H0
  | put1 e =>
    simp only [ringCall, KISS_RING_Put1]
    split_ifs with h
    · exact index_put m r _ hm H0 h rfl rfl rfl rfl
    · exact H0
  | putFront e =>
    simp only [ringCall, KISS_RING_PutFront]
    split_ifs with h
    · exact index_putFront m r _ hm H0 h rfl rfl rfl rfl
    · exact H0
  | putFront1 e =>
    simp only [ringCall, KISS_RING_PutFront1]
    split_ifs with h
    · exact index_putFront m r _ hm H0 h rfl rfl rfl rfl
    · exact H0
  | get d =>
    cases d with
    | none => exact H0
    | some d =>
      simp only [ringCall, KISS_RING_Get]
      split_ifs with h
      · exact index_get m r _ hm H0 h rfl rfl rfl rfl
      · exact H0
  | get1 d =>
    cases d with
    | none => exact H0
    | some d =>
      simp only [ringCall, KISS_RING_Get1]
      split_ifs with h
      · exact index_get m r _ hm H0 h rfl rfl rfl rfl
      · exact H0
  | peek d => exact H0
  | getPtr pp =>
    cases pp with
    | none => exact H0
    | some old =>
      simp only [ringCall, KISS_RING_GetPtr]
      split_ifs with h
      · exact ⟨a1, a2, a3, a4, a5⟩
      · exact H0
  | purge =>
    simp only [ringCall, KISS_RING_Purge]
    split_ifs with h1 h2 h3 h4 h5
    · exact index_get m r _ hm H0 h3 rfl rfl rfl rfl
    · exact ⟨a1, a2, a3, a4, a5⟩
    · exact ⟨a1, a2, a3, a4, a5⟩
    · exact index_get m r _ hm H0 h5 rfl rfl rfl rfl
    · exact H0
    · exact H0
  | clear =>
    simp only [ringCall, KISS_RING_Clear]
    refine ⟨a1, a3, a3, Nat.zero_le _, ?_⟩
    show r.oTail = (r.oTail + 0) % m
    rw [Nat.add_zero, Nat.mod_eq_of_lt a3]

theorem ringCalls_index (m : Nat) (cs : List RingCall) (r : KISS_RING) (hm : m < 2147483648)
    (H : RingIndexInv m r) : RingIndexInv m (ringCalls r cs) := by
  induction cs generalizing r with
  | nil => exact H
  | cons c cs ih => exact ih _ (ringCall_index m r c hm H)

/-! ### Queue: the placement of one record -/

theorem readBytes_memcpy (m : Mem) (d : Nat) (src : Mem) (n : Nat) :
    readBytes (memcpy m d src n) d n = readBytes src 0 n := by
  have key : ∀ k a, a + k ≤ n →
      readBytes (memcpy m d src n) (d + a) k = readBytes src (0 + a) k := by
    intro k
    induction k with
    | zero => intro a _; rfl
    | succ k ih =>
      intro a ha
      simp only [readBytes]
      rw [memcpy_inside m d src n a (by omega), Nat.zero_add]
      have := ih (a + 1) (by omega)
      rw [Nat.zero_add] at this
      rw [show d + a + 1 = d + (a + 1) by omega, this]
  have := key n 0 (by omega)
  simpa using this

theorem record_readback (m src : Mem) (pos Size : Nat) (h : pos + sizeofItem + Size < U32) :
    read32 (memcpy (write32 (write32 m pos (pos + sizeofItem + Size)) (pos + 4) Size)
      (pos + sizeofItem) src Size) pos = pos + sizeofItem + Size ∧
    read32 (memcpy (write32 (write32 m pos (pos + sizeofItem + Size)) (pos + 4) Size)
      (pos + sizeofItem) src Size) (pos + 4) = Size ∧
    readBytes (memcpy (write32 (write32 m pos (pos + sizeofItem + Size)) (pos + 4) Size)
      (pos + sizeofItem) src Size) (pos + sizeofItem) Size = readBytes src 0 Size ∧
    (∀ x, x < pos ∨ pos + sizeofItem + Size ≤ x →
      memcpy (write32 (write32 m pos (pos + sizeofItem + Size)) (pos + 4) Size)
        (pos + sizeofItem) src Size x = m x) := by
  refine ⟨?_, ?_, readBytes_memcpy _ _ _ _, ?_⟩
  · rw [read32_congr _ _ pos (fun y h1 h2 => memcpy_outside _ _ _ _ y (by unfold sizeofItem; omega)),
      read32_write32_disj _ _ _ _ (by omega), read32_write32_same]
    exact Nat.mod_eq_of_lt h
  · rw [read32_congr _ _ (pos + 4)
        (fun y h1 h2 => memcpy_outside _ _ _ _ y (by unfold sizeofItem; omega)),
      read32_write32_same]
    exact Nat.mod_eq_of_lt (by omega)
  · intro x hx
    rw [memcpy_outside _ _ _ _ x (by unfold sizeofItem at *; omega),
      write32_outside _ _ _ x (by unfold sizeofItem at *; omega),
      write32_outside _ _ _ x (by unfold sizeofItem at *; omega)]

theorem put_at_next (q : KISS_QUEUE) (src : Mem) (Size : Nat)
    (hfit : read32 q.pBuffer q.oTail + sizeofItem + Size ≤ q.TotalSize ∨
      read32 q.pBuffer q.oTail + sizeofItem + Size ≤ q.oHead)
    (h3 : read32 q.pBuffer q.oTail + sizeofItem + Size < U32) :
    KISS_QUEUE_Put q src Size =
      ({ q with
          pBuffer := memcpy (write32 (write32 q.pBuffer (read32 q.pBuffer q.oTail)
              (read32 q.pBuffer q.oTail + sizeofItem + Size))
              (read32 q.pBuffer q.oTail + 4) Size)
            (read32 q.pBuffer q.oTail + sizeofItem) src Size
          oTail := read32 q.pBuffer q.oTail
          NumElements := (q.NumElements + 1) % U32 }, 0) := by
  have h1 : (read32 q.pBuffer q.oTail + sizeofItem + Size) % U32
      = read32 q.pBuffer q.oTail + sizeofItem + Size := Nat.mod_eq_of_lt h3
  have h2 : Size % U32 = Size := Nat.mod_eq_of_lt (by omega)
  simp only [KISS_QUEUE_Put, __alloc_item, placeItem, h1, h2]
  rw [if_pos hfit]

/-! ### Array: moving elements -/

theorem makeSpaceLoop_eq (pDst pSrc ES : Nat) (hsd : pSrc ≤ pDst) (c : Nat) (m : Mem)
    (h : ∀ i, i < c → ES * i < U32) :
    makeSpaceLoop pDst pSrc ES c m
      = fun x => if pDst ≤ x ∧ x < pDst + ES * c then m (x - pDst + pSrc) else m x := by
  induction c generalizing m with
  | zero =>
    funext x
    simp only [makeSpaceLoop, Nat.mul_zero, Nat.add_zero]
    rw [if_neg (by omega)]
  | succ c ih =>
    have hc : ES * c % U32 = ES * c := Nat.mod_eq_of_lt (h c (by omega))
    simp only [makeSpaceLoop, hc]
    rw [ih _ (fun i hi => h i (by omega))]
    funext x
    have e : ES * (c + 1) = ES * c + ES := by ring
    by_cases h1 : pDst ≤ x ∧ x < pDst + ES * c
    · rw [if_pos h1, if_pos (by omega), memcpy_outside _ _ _ _ _ (by omega)]
    · rw [if_neg h1]
      by_cases h2 : pDst + ES * c ≤ x ∧ x < pDst + ES * c + ES
      · rw [if_pos (by omega)]
        have : x = pDst + ES * c + (x - (pDst + ES * c)) := by omega
        rw [this, memcpy_inside _ _ _ _ _ (by omega)]
        congr 1
        omega
      · rw [if_neg (by omega), memcpy_outside _ _ _ _ _ (by omega)]

theorem fillHoleLoop_eq (pDst pSrc ES : Nat) (hsd : pDst ≤ pSrc) (r idx : Nat) (m : Mem)
    (h : ∀ i, i < idx + r → ES * i < U32) :
    fillHoleLoop pDst pSrc ES r idx m
      = fun x => if pDst + ES * idx ≤ x ∧ x < pDst + ES * (idx + r) then m (x - pDst + pSrc)
          else m x := by
  induction r generalizing idx m with
  | zero =>
    funext x
    simp only [fillHoleLoop, Nat.add_zero]
    rw [if_neg (by omega)]
  | succ r ih =>
    have hc : ES * idx % U32 = ES * idx := Nat.mod_eq_of_lt (h idx (by omega))
    simp only [fillHoleLoop, hc]
    rw [ih (idx + 1) _ (fun i hi => h i (by omega))]
    funext x
    have e : ES * (idx + 1) = ES * idx + ES := by ring
    have e2 : idx + 1 + r = idx + (r + 1) := by omega
    rw [e2]
    have hle : ES * (idx + 1) ≤ ES * (idx + (r + 1)) := Nat.mul_le_mul_left _ (by omega)
    by_cases h1 : pDst + ES * (idx + 1) ≤ x ∧ x < pDst + ES * (idx + (r + 1))
    · rw [if_pos h1, if_pos (by omega), memcpy_outside _ _ _ _ _ (by omega)]
    · rw [if_neg h1]
      by_cases h2 : pDst + ES * idx ≤ x ∧ x < pDst + ES * idx + ES
      · rw [if_pos (by omega)]
        have : x = pDst + ES * idx + (x - (pDst + ES * idx)) := by omega
        rw [this, memcpy_inside _ _ _ _ _ (by omega)]
        congr 1
        omega
      · rw [if_neg (by omega), memcpy_outside _ _ _ _ _ (by omega)]

/-! ### Array: the elements read from the buffer -/

theorem readItems_length (m : Mem) (s k c : Nat) : (readItems m s k c).length = c := by
  induction c generalizing k with
  | zero => rfl
  | succ c ih => simp [readItems, ih]

theorem readItems_append (m : Mem) (s k c1 c2 : Nat) :
    readItems m s k (c1 + c2) = readItems m s k c1 ++ readItems m s (k + c1) c2 := by
  induction c1 generalizing k with
  | zero => simp [readItems]
  | succ c1 ih =>
    rw [show c1 + 1 + c2 = (c1 + c2) + 1 by omega]
    simp only [readItems, List.cons_append]
    rw [ih (k + 1), show k + 1 + c1 = k + (c1 + 1) by omega]

theorem readItems_shift (m m2 : Mem) (s k d c : Nat)
    (h : ∀ x, k * s ≤ x → x < (k + c) * s → m2 (x + d * s) = m x) :
    readItems m2 s (k + d) c = readItems m s k c := by
  induction c generalizing k with
  | zero => rfl
  | succ c ih =>
    rw [show k + d = (k + d) + 0 by rfl]
    simp only [readItems, Nat.add_zero]
    have e1 : (k + d) * s = k * s + d * s := by ring
    have e2 : (k + (c + 1)) * s = k * s + s + c * s := by ring
    have e3 : (k + 1 + c) * s = k * s + s + c * s := by ring
    have e4 : (k + 1) * s = k * s + s := by ring
    rw [readBytes_ext s m2 m ((k + d) * s) (k * s) (fun i hi => by
      rw [e1, show k * s + d * s + i = (k * s + i) + d * s by omega]
      exact h _ (by omega) (by rw [e2]; omega))]
    rw [show k + d + 1 = (k + 1) + d by omega, ih (k + 1) (fun x h1 h2 => by
      exact h x (by rw [e4] at h1; omega) (by rw [e2]; rw [e3] at h2; exact h2))]

theorem readItems_congr (m m2 : Mem) (s k c : Nat)
    (h : ∀ x, k * s ≤ x → x < (k + c) * s → m2 x = m x) :
    readItems m2 s k c = readItems m s k c := by
  have := readItems_shift m m2 s k 0 c (fun x h1 h2 => by
    rw [Nat.zero_mul, Nat.add_zero]; exact h x h1 h2)
  simpa using this

theorem readItems_take (m : Mem) (s n p : Nat) (hp : p ≤ n) :
    (readItems m s 0 n).take p = readItems m s 0 p := by
  have e : n = p + (n - p) := by omega
  rw [e, readItems_append]
  exact List.take_left' (readItems_length _ _ _ _)

theorem readItems_drop (m : Mem) (s n p : Nat) (hp : p ≤ n) :
    (readItems m s 0 n).drop p = readItems m s p (n - p) := by
  have e : readItems m s 0 n = readItems m s 0 p ++ readItems m s (0 + p) (n - p) := by
    rw [← readItems_append]; congr 1; omega
  rw [e, Nat.zero_add]
  exact List.drop_left' (readItems_length _ _ _ _)

theorem toInt_toNat (v : Nat) (h : v < 2147483648) : (toInt v).toNat = v := by
  rw [toInt_small v h]; rfl

theorem readBytes_storeItem (m : Mem) (d s : Nat) (pItem : Option Mem) :
    readBytes (storeItem m d pItem s) d s = itemBytes pItem s := by
  cases pItem with
  | some src =>
    simp only [storeItem, itemBytes]
    exact readBytes_ext s _ _ d 0 (fun i hi => by rw [memcpy_inside _ _ _ _ _ hi, Nat.zero_add])
  | none =>
    simp only [storeItem, itemBytes]
    have key : ∀ k a, a + k ≤ s →
        readBytes (memset m d 0 s) (d + a) k = List.replicate k 0 := by
      intro k
      induction k with
      | zero => intro a _; rfl
      | succ k ih =>
        intro a ha
        simp only [readBytes, List.replicate_succ]
        rw [show d + a + 1 = d + (a + 1) by omega, ih (a + 1) (by omega)]
        congr 1
        unfold memset
        rw [if_pos (by omega)]
    have := key s 0 (by omega)
    simpa using this

theorem storeItem_outside (m : Mem) (d s : Nat) (pItem : Option Mem) (x : Nat)
    (h : x < d ∨ d + s ≤ x) : storeItem m d pItem s x = m x := by
  cases pItem with
  | some src => exact memcpy_outside _ _ _ _ _ h
  | none =>
    simp only [storeItem, memset]
    rw [if_neg (by omega)]

/-! ### Array: insertion -/

theorem toInt_relative (n : Nat) (P : Int) (c : Nat) (hn : n < 2147483648)
    (h1 : -2147483648 ≤ P) (h2 : P < 0) (hc : c ≤ 1) :
    toInt (n + toU32 P + c) = n + P + c := by
  unfold toInt toU32 U32
  split_ifs <;> omega

theorem insertAt_at (a : KISS_ARRAY) (Position : Int) (pItem : Option Mem) (p : Nat)
    (hn : a.Count < 2147483648) (hsz : a.Capacity * a.ItemSize < U32)
    (hcap : a.Count < a.Capacity) (hp : p ≤ a.Count)
    (hpos : (if Position < 0 then toInt (a.Count + toU32 Position + 1) else Position)
      = (p : Int)) :
    KISS_ARRAY_InsertAt a Position pItem =
      ({ a with
          pBuffer := storeItem (fun x =>
              if (p + 1) * a.ItemSize ≤ x ∧ x < (p + 1) * a.ItemSize + a.ItemSize * (a.Count - p)
              then a.pBuffer (x - (p + 1) * a.ItemSize + p * a.ItemSize) else a.pBuffer x)
            (p * a.ItemSize) pItem a.ItemSize
          Count := a.Count + 1 }, some (p * a.ItemSize)) := by
  have hb : (a.Count + 1) * a.ItemSize ≤ a.Capacity * a.ItemSize :=
    Nat.mul_le_mul_right _ (by omega)
  have hb2 : (p + 1) * a.ItemSize ≤ (a.Count + 1) * a.ItemSize :=
    Nat.mul_le_mul_right _ (by omega)
  have hb3 : p * a.ItemSize ≤ (p + 1) * a.ItemSize := Nat.mul_le_mul_right _ (by omega)
  have e1 : a.ItemSize * p % U64 = p * a.ItemSize := by
    rw [Nat.mul_comm]; exact Nat.mod_eq_of_lt (by unfold U32 at hsz; unfold U64; omega)
  have e2 : (p + 1) * a.ItemSize % U64 = (p + 1) * a.ItemSize :=
    Nat.mod_eq_of_lt (by unfold U32 at hsz; unfold U64; omega)
  have e3 : (a.Count + U32 - p) % U32 = a.Count - p := sub32 _ _ hp (by unfold U32; omega)
  have e4 : (a.Count + 1) % U32 = a.Count + 1 := Nat.mod_eq_of_lt (by unfold U32; omega)
  have e5 : (toInt (a.Count - p)).toNat = a.Count - p := toInt_toNat _ (by omega)
  have e6 : toInt a.Count = (a.Count : Int) := toInt_small _ hn
  unfold KISS_ARRAY_InsertAt
  rw [if_neg (by omega)]
  simp only [hpos, e6]
  rw [if_pos ⟨by omega, by omega⟩]
  simp only [Int.toNat_ofNat, e1, e2, e3, e4, __MakeSpaceInArray, e5]
  rw [makeSpaceLoop_eq _ _ _ hb3 _ _ (fun i hi => by
    have : a.ItemSize * i ≤ a.ItemSize * a.Count := Nat.mul_le_mul_left _ (by omega)
    have : a.ItemSize * a.Count ≤ (a.Count + 1) * a.ItemSize := by
      rw [Nat.mul_comm]; exact Nat.mul_le_mul_right _ (by omega)
    omega)]

theorem insertAt_items (a : KISS_ARRAY) (Position : Int) (pItem : Option Mem) (p : Nat)
    (hn : a.Count < 2147483648) (hsz : a.Capacity * a.ItemSize < U32)
    (hcap : a.Count < a.Capacity) (hp : p ≤ a.Count)
    (hpos : (if Position < 0 then toInt (a.Count + toU32 Position + 1) else Position)
      = (p : Int)) :
    arrayItems (KISS_ARRAY_InsertAt a Position pItem).1
      = (arrayItems a).take p ++ [itemBytes pItem a.ItemSize] ++ (arrayItems a).drop p := by
  rw [insertAt_at a Position pItem p hn hsz hcap hp hpos]
  unfold arrayItems
  simp only []
  rw [readItems_take _ _ _ _ hp, readItems_drop _ _ _ _ hp]
  have e : a.Count + 1 = p + (1 + (a.Count - p)) := by omega
  rw [e, readItems_append, readItems_append, List.append_assoc]
  have es : (p + 1) * a.ItemSize = p * a.ItemSize + a.ItemSize := by ring
  congr 1
  · apply readItems_congr
    intro x h1 h2
    rw [Nat.zero_add] at h2
    rw [storeItem_outside _ _ _ _ _ (by omega), if_neg (by omega)]
  congr 1
  · simp only [readItems, Nat.zero_add, List.cons.injEq, and_true]
    exact readBytes_storeItem _ _ _ _
  · rw [Nat.zero_add]
    have := readItems_shift a.pBuffer (storeItem (fun x =>
              if (p + 1) * a.ItemSize ≤ x ∧ x < (p + 1) * a.ItemSize + a.ItemSize * (a.Count - p)
              then a.pBuffer (x - (p + 1) * a.ItemSize + p * a.ItemSize) else a.pBuffer x)
            (p * a.ItemSize) pItem a.ItemSize) a.ItemSize p 1 (a.Count - p) (fun x h1 h2 => by
      have e2 : (p + (a.Count - p)) * a.ItemSize = p * a.ItemSize + a.ItemSize * (a.Count - p) := by
        ring
      rw [e2] at h2
      rw [Nat.one_mul, storeItem_outside _ _ _ _ _ (by omega), if_pos (by omega)]
      congr 1
      omega)
    exact this

/-! ### Array: erasing -/

theorem erase_valid (a : KISS_ARRAY) (Position : Int) (Num p : Nat)
    (hn : a.Count < 2147483648) (hsz : a.Count * a.ItemSize < U32)
    (hp : p < a.Count) (hnum : p + Num < U32)
    (hpos : (if Position < 0 then toInt (a.Count + toU32 Position) else Position) = (p : Int)) :
    (KISS_ARRAY_Erase a Position Num).2 = ((a.Count - min Num (a.Count - p) : Nat) : Int) ∧
    (KISS_ARRAY_Erase a Position Num).1.Count = a.Count - min Num (a.Count - p) ∧
    arrayItems (KISS_ARRAY_Erase a Position Num).1
      = (arrayItems a).take p ++ (arrayItems a).drop (p + min Num (a.Count - p)) ∧
    (∀ x, (a.Count - min Num (a.Count - p)) * a.ItemSize ≤ x → x < a.Count * a.ItemSize →
      (KISS_ARRAY_Erase a Position Num).1.pBuffer x = 0) ∧
    (KISS_ARRAY_Erase a Position Num).1.Capacity = a.Capacity ∧
    (KISS_ARRAY_Erase a Position Num).1.ItemSize = a.ItemSize := by
  have e6 : toInt a.Count = (a.Count : Int) := toInt_small _ hn
  have hps : p * a.ItemSize ≤ a.Count * a.ItemSize := Nat.mul_le_mul_right _ (by omega)
  have hpn : (p + Num) % U32 = p + Num := Nat.mod_eq_of_lt hnum
  have e3 : (a.Count + U32 - p) % U32 = a.Count - p := sub32 _ _ (by omega) (by unfold U32; omega)
  unfold KISS_ARRAY_Erase
  rw [if_pos (by omega)]
  simp only [hpos, e6]
  rw [if_pos ⟨by omega, by omega⟩]
  simp only [Int.toNat_ofNat, hpn, e3]
  by_cases hcl : p + Num > a.Count
  · -- the number is clamped and nothing is moved
    have hk : min Num (a.Count - p) = a.Count - p := by omega
    rw [if_pos hcl, hk]
    have e7 : (a.Count + U64 - (a.Count - p)) % U64 = p := by
      rw [show a.Count + U64 - (a.Count - p) = p + U64 by unfold U64; omega]
      rw [Nat.add_mod_right]
      exact Nat.mod_eq_of_lt (by unfold U64; omega)
    have e8 : p * a.ItemSize % U64 = p * a.ItemSize :=
      Nat.mod_eq_of_lt (by unfold U32 at hsz; unfold U64; omega)
    have e9 : (a.Count + U32 - (a.Count - p)) % U32 = p := by
      rw [sub32 _ _ (by omega) (by unfold U32; omega)]; omega
    have hks : a.ItemSize * (a.Count - p) + p * a.ItemSize = a.Count * a.ItemSize := by
      rw [Nat.mul_comm a.ItemSize, ← Nat.add_mul]; congr 1; omega
    have e10 : a.ItemSize * (a.Count - p) % U64 = a.ItemSize * (a.Count - p) :=
      Nat.mod_eq_of_lt (by unfold U32 at hsz; unfold U64; omega)
    simp only [e7, e8, e9, e10]
    have e11 : a.Count - (a.Count - p) = p := by omega
    refine ⟨by rw [toInt_small _ (by omega), e11], e11.symm, ?_, ?_, trivial, trivial⟩
    · unfold arrayItems
      simp only []
      rw [readItems_take _ _ _ _ (by omega), readItems_drop _ _ _ _ (by omega)]
      rw [show a.Count - (p + (a.Count - p)) = 0 by omega]
      simp only [readItems, List.append_nil]
      apply readItems_congr
      intro x h1 h2
      rw [Nat.zero_add] at h2
      unfold memset
      rw [if_neg (by omega)]
    · intro x h1 h2
      rw [e11] at h1
      unfold memset
      rw [if_pos (by omega)]
  · -- the elements behind the hole move down
    have hk : min Num (a.Count - p) = Num := by omega
    rw [if_neg hcl, hk]
    have hns : (a.Count - Num) * a.ItemSize ≤ a.Count * a.ItemSize :=
      Nat.mul_le_mul_right _ (by omega)
    have hpns : (p + Num) * a.ItemSize ≤ a.Count * a.ItemSize :=
      Nat.mul_le_mul_right _ (by omega)
    have hNs : a.ItemSize * Num ≤ a.Count * a.ItemSize := by
      rw [Nat.mul_comm]; exact Nat.mul_le_mul_right _ (by omega)
    have e7 : (a.Count + U64 - Num) % U64 = a.Count - Num := by
      rw [show a.Count + U64 - Num = (a.Count - Num) + U64 by unfold U64; omega]
      rw [Nat.add_mod_right]
      exact Nat.mod_eq_of_lt (by unfold U64; omega)
    have e8 : p * a.ItemSize % U64 = p * a.ItemSize :=
      Nat.mod_eq_of_lt (by unfold U32 at hsz; unfold U64; omega)
    have e8b : (p + Num) * a.ItemSize % U64 = (p + Num) * a.ItemSize :=
      Nat.mod_eq_of_lt (by unfold U32 at hsz; unfold U64; omega)
    have e8c : (a.Count - Num) * a.ItemSize % U64 = (a.Count - Num) * a.ItemSize :=
      Nat.mod_eq_of_lt (by unfold U32 at hsz; unfold U64; omega)
    have e9 : (a.Count + U32 - Num) % U32 = a.Count - Num :=
      sub32 _ _ (by omega) (by unfold U32; omega)
    have e9b : (a.Count + U32 - (p + Num)) % U32 = a.Count - (p + Num) :=
      sub32 _ _ (by omega) (by unfold U32; omega)
    have e10 : a.ItemSize * Num % U64 = a.ItemSize * Num :=
      Nat.mod_eq_of_lt (by unfold U32 at hsz; unfold U64; omega)
    have e12 : (toInt (a.Count - (p + Num))).toNat = a.Count - (p + Num) :=
      toInt_toNat _ (by omega)
    simp only [e7, e8, e8b, e8c, e9, e9b, e10, __FillHoleInArray, e12]
    rw [fillHoleLoop_eq _ _ _ (Nat.mul_le_mul_right _ (by omega)) _ _ _ (fun i hi => by
      have : a.ItemSize * i ≤ a.ItemSize * a.Count := Nat.mul_le_mul_left _ (by omega)
      rw [Nat.mul_comm a.ItemSize a.Count] at this
      omega)]
    simp only [Nat.mul_zero, Nat.add_zero, Nat.zero_add]
    have hmv : p * a.ItemSize + a.ItemSize * (a.Count - (p + Num))
        = (a.Count - Num) * a.ItemSize := by
      rw [Nat.mul_comm a.ItemSize, ← Nat.add_mul]; congr 1; omega
    have hend : (a.Count - Num) * a.ItemSize + a.ItemSize * Num = a.Count * a.ItemSize := by
      rw [Nat.mul_comm a.ItemSize, ← Nat.add_mul]; congr 1; omega
    have hpN : (p + Num) * a.ItemSize = p * a.ItemSize + Num * a.ItemSize := by ring
    refine ⟨by rw [toInt_small _ (by omega)], trivial, ?_, ?_, trivial, trivial⟩
    · unfold arrayItems
      simp only []
      rw [readItems_take _ _ _ _ (by omega), readItems_drop _ _ _ _ (by omega)]
      have e : a.Count - Num = p + (a.Count - (p + Num)) := by omega
      rw [e, readItems_append, ← e, Nat.zero_add]
      congr 1
      · apply readItems_congr
        intro x h1 h2
        rw [Nat.zero_add] at h2
        unfold memset
        rw [if_neg (by omega)]
        simp only []
        rw [if_neg (by omega)]
      · symm
        apply readItems_shift
        intro x h1 h2
        have e2 : (p + (a.Count - (p + Num))) * a.ItemSize = (a.Count - Num) * a.ItemSize := by
          congr 1; omega
        rw [e2] at h2
        unfold memset
        rw [if_neg (by omega)]
        simp only []
        rw [if_pos (by omega)]
        congr 1
        omega
    · intro x h1 h2
      unfold memset
      rw [if_pos (by omega)]

/-! ### Array: 32-bit byte offsets beyond 4 GiB -/

/-- The byte offset in `__MakeSpaceInArray` is a 32-bit product although the element
addresses are 64-bit: with three elements of 2^31 bytes, inserting at the front copies
element 0 over element 1 and never writes slot 3, so the last slot does not receive the
bytes of the old last element. -/
theorem makeSpace_offset_wraps_32_bits :
    (KISS_ARRAY_InsertAt
      { pBuffer := fun x => x / 2147483648 + 1, Capacity := 4, Count := 3, ItemSize := 2147483648 }
      0 none).2 = some 0 ∧
    (KISS_ARRAY_InsertAt
      { pBuffer := fun x => x / 2147483648 + 1, Capacity := 4, Count := 3, ItemSize := 2147483648 }
      0 none).1.pBuffer (3 * 2147483648) = 4 ∧
    (KISS_ARRAY_InsertAt
      { pBuffer := fun x => x / 2147483648 + 1, Capacity := 4, Count := 3, ItemSize := 2147483648 }
      0 none).1.pBuffer (2 * 2147483648) = 1 ∧
    (fun x => x / 2147483648 + 1) (2 * 2147483648) = 3 := by
  decide

/-- The byte offset in `__FillHoleInArray` is a 32-bit product: with four elements of
2^31 bytes, erasing element 0 copies element 2 to slot 0 in the third round, so slot 0
ends with the bytes of element 2 instead of element 1. -/
theorem fillHole_offset_wraps_32_bits :
    (KISS_ARRAY_Erase
      { pBuffer := fun x => x / 2147483648 + 1, Capacity := 4, Count := 4, ItemSize := 2147483648 }
      0 1).2 = 3 ∧
    (KISS_ARRAY_Erase
      { pBuffer := fun x => x / 2147483648 + 1, Capacity := 4, Count := 4, ItemSize := 2147483648 }
      0 1).1.pBuffer 0 = 3 ∧
    (fun x => x / 2147483648 + 1) (1 * 2147483648) = 2 := by
  decide

/-! ## Claims -/

/-- C1 (code defect): alternating put and retrieval on a 32-byte zero-filled buffer. The
second put (8 bytes after a 12-byte item was retired) wraps to offset 0 while the queue
is empty, `oHead` stays at 20, and the retrieval that follows reports size 0 and hands
out offset 28, where the buffer holds zeros (an 8-byte item there would end past the
buffer), instead of the payload stored at offset 8. -/
theorem C1_alternating_put_get_after_wrap :
    (KISS_QUEUE_Put (KISS_QUEUE_Create zeroMem 32)
        (bytes [1, 2, 3, 4, 5, 6, 7, 8, 9, 10, 11, 12]) 12).2 = 0 ∧
    (getOne (KISS_QUEUE_Put (KISS_QUEUE_Create zeroMem 32)
        (bytes [1, 2, 3, 4, 5, 6, 7, 8, 9, 10, 11, 12]) 12).1 12).2
      = { size := 12, rc := 0, data := some [1, 2, 3, 4, 5, 6, 7, 8, 9, 10, 11, 12],
          cntBefore := 1, cntAfter := 0 } ∧
    (KISS_QUEUE_Put (getOne (KISS_QUEUE_Put (KISS_QUEUE_Create zeroMem 32)
        (bytes [1, 2, 3, 4, 5, 6, 7, 8, 9, 10, 11, 12]) 12).1 12).1
        (bytes [21, 22, 23, 24, 25, 26, 27, 28]) 8).2 = 0 ∧
    (getOne (KISS_QUEUE_Put (getOne (KISS_QUEUE_Put (KISS_QUEUE_Create zeroMem 32)
        (bytes [1, 2, 3, 4, 5, 6, 7, 8, 9, 10, 11, 12]) 12).1 12).1
        (bytes [21, 22, 23, 24, 25, 26, 27, 28]) 8).1 8).2
      = { size := 0, rc := 0, data := some [0, 0, 0, 0, 0, 0, 0, 0],
          cntBefore := 1, cntAfter := 0 } ∧
    (KISS_QUEUE_GetPtr (KISS_QUEUE_Put (getOne (KISS_QUEUE_Put (KISS_QUEUE_Create zeroMem 32)
        (bytes [1, 2, 3, 4, 5, 6, 7, 8, 9, 10, 11, 12]) 12).1 12).1
        (bytes [21, 22, 23, 24, 25, 26, 27, 28]) 8).1).2.2 = some 28 ∧
    readBytes (KISS_QUEUE_Put (getOne (KISS_QUEUE_Put (KISS_QUEUE_Create zeroMem 32)
        (bytes [1, 2, 3, 4, 5, 6, 7, 8, 9, 10, 11, 12]) 12).1 12).1
        (bytes [21, 22, 23, 24, 25, 26, 27, 28]) 8).1.pBuffer 8 8
      = [21, 22, 23, 24, 25, 26, 27, 28] := by
  decide

/-- C2 (as stated, refuted): a single payload of `2^31` bytes fits a buffer of
`2^31 + 8` bytes and is accepted, but `KISS_QUEUE_GetItemSize`, whose result type is
`int`, does not return the payload length. -/
theorem C2_item_size_of_large_payload :
    2147483656 < U32 ∧ sizeofItem + 2147483648 ≤ 2147483656 ∧
    (KISS_QUEUE_Put (KISS_QUEUE_Create zeroMem 2147483656) zeroMem 2147483648).2 = 0 ∧
    KISS_QUEUE_GetItemSize
        (KISS_QUEUE_Put (KISS_QUEUE_Create zeroMem 2147483656) zeroMem 2147483648).1
      = -2147483648 ∧
    KISS_QUEUE_GetItemSize
        (KISS_QUEUE_Put (KISS_QUEUE_Create zeroMem 2147483656) zeroMem 2147483648).1
      ≠ 2147483648 := by
  decide

/-- C2 (amended): on a queue created over a zero-filled buffer of `T` bytes, payloads
`xs`, each shorter than `2^31` bytes, whose records (8 bytes of header plus payload)
together fit `T`, are all accepted (return code 0, stored back to back from offset 0) and
the item count becomes the number of payloads; retrieving them in order then observes,
for each one, `GetItemSize` equal to its length, `GetPtr` returning 0 with a pointer to
bytes equal to the payload, and an item count that `Purge` decreases by one. -/
theorem C2_round_trip (T : Nat) (xs : List (List Nat)) (hT : T < U32)
    (hfit : recordBytes xs ≤ T) (hlen : ∀ x ∈ xs, x.length < 2147483648) :
    (putAll (KISS_QUEUE_Create zeroMem T) xs).2 = (layout 0 xs).map (fun pos => (0, pos)) ∧
    KISS_QUEUE_GetItemCnt (putAll (KISS_QUEUE_Create zeroMem T) xs).1 = xs.length ∧
    (getAll (putAll (KISS_QUEUE_Create zeroMem T) xs).1 (xs.map List.length)).2
      = expectObs xs.length xs := by
  have hl := recordBytes_length xs
  have hz : read32 (KISS_QUEUE_Create zeroMem T).pBuffer (KISS_QUEUE_Create zeroMem T).oTail = 0 :=
    read32_zeroMem _
  have h := putAll_fits xs (KISS_QUEUE_Create zeroMem T)
    (by rw [hz]; simpa [KISS_QUEUE_Create] using hfit) hT
    (by simp only [KISS_QUEUE_Create]; unfold U32 at *; omega)
  rw [hz] at h
  obtain ⟨h1, h2, h3, _, _, _, h6⟩ := h
  have hn : (putAll (KISS_QUEUE_Create zeroMem T) xs).1.NumElements = xs.length := by
    rw [h2]; simp [KISS_QUEUE_Create]
  refine ⟨h1, ?_, ?_⟩
  · unfold KISS_QUEUE_GetItemCnt
    rw [hn, toInt_small _ (by unfold U32 at hT; omega)]
  · have hh : (putAll (KISS_QUEUE_Create zeroMem T) xs).1.oHead = 0 := by
      rw [h3]; rfl
    have := getAll_chain xs (putAll (KISS_QUEUE_Create zeroMem T) xs).1
      (by rw [hh]; exact h6) (by rw [hn]) (by rw [hn]; unfold U32 at hT; omega) hlen
    rw [this, hn]

/-- Witness of `C2_round_trip`: two payloads in a 32-byte buffer. -/
theorem C2_round_trip_witness :
    recordBytes [[7, 8, 9], [5]] ≤ 32 ∧
    (putAll (KISS_QUEUE_Create zeroMem 32) [[7, 8, 9], [5]]).2 = [(0, 0), (0, 11)] ∧
    KISS_QUEUE_GetItemCnt (putAll (KISS_QUEUE_Create zeroMem 32) [[7, 8, 9], [5]]).1 = 2 ∧
    (getAll (putAll (KISS_QUEUE_Create zeroMem 32) [[7, 8, 9], [5]]).1 [3, 1]).2
      = [{ size := 3, rc := 0, data := some [7, 8, 9], cntBefore := 2, cntAfter := 1 },
         { size := 1, rc := 0, data := some [5], cntBefore := 1, cntAfter := 0 }] :=
  ⟨by decide, C2_round_trip 32 [[7, 8, 9], [5]] (by decide) (by decide) (by decide)⟩

/-- C3 (code defect): 36-byte zero-filled buffer and 4-byte payloads. After three puts,
two retirements and two more puts the record of the third put is still live at
`[24, 36)` (`oHead = 24`); a further put is accepted at offset 24, over that record. -/
theorem C3_put_overwrites_live_head :
    (putAll (getAll (putAll (KISS_QUEUE_Create zeroMem 36)
        [[1, 1, 1, 1], [2, 2, 2, 2], [3, 3, 3, 3]]).1 [4, 4]).1
        [[4, 4, 4, 4], [5, 5, 5, 5]]).2 = [(0, 0), (0, 12)] ∧
    (putAll (getAll (putAll (KISS_QUEUE_Create zeroMem 36)
        [[1, 1, 1, 1], [2, 2, 2, 2], [3, 3, 3, 3]]).1 [4, 4]).1
        [[4, 4, 4, 4], [5, 5, 5, 5]]).1.oHead = 24 ∧
    (putAll (getAll (putAll (KISS_QUEUE_Create zeroMem 36)
        [[1, 1, 1, 1], [2, 2, 2, 2], [3, 3, 3, 3]]).1 [4, 4]).1
        [[4, 4, 4, 4], [5, 5, 5, 5]]).1.NumElements = 3 ∧
    readBytes (putAll (getAll (putAll (KISS_QUEUE_Create zeroMem 36)
        [[1, 1, 1, 1], [2, 2, 2, 2], [3, 3, 3, 3]]).1 [4, 4]).1
        [[4, 4, 4, 4], [5, 5, 5, 5]]).1.pBuffer 32 4 = [3, 3, 3, 3] ∧
    (putAll (getAll (putAll (KISS_QUEUE_Create zeroMem 36)
        [[1, 1, 1, 1], [2, 2, 2, 2], [3, 3, 3, 3]]).1 [4, 4]).1
        [[4, 4, 4, 4], [5, 5, 5, 5], [6, 6, 6, 6]]).2 = [(0, 0), (0, 12), (0, 24)] ∧
    (putAll (getAll (putAll (KISS_QUEUE_Create zeroMem 36)
        [[1, 1, 1, 1], [2, 2, 2, 2], [3, 3, 3, 3]]).1 [4, 4]).1
        [[4, 4, 4, 4], [5, 5, 5, 5], [6, 6, 6, 6]]).1.NumElements = 4 ∧
    readBytes (putAll (getAll (putAll (KISS_QUEUE_Create zeroMem 36)
        [[1, 1, 1, 1], [2, 2, 2, 2], [3, 3, 3, 3]]).1 [4, 4]).1
        [[4, 4, 4, 4], [5, 5, 5, 5], [6, 6, 6, 6]]).1.pBuffer 32 4 = [6, 6, 6, 6] := by
  decide

/-- C4 (code defect): pool of 3 blocks of `2^31` bytes. The offset of the third block,
`MaxUsed * BlockSize`, is computed in 32 bits and wraps to 0, so the third allocation
returns the address of the first block, which is still allocated. -/
theorem C4_third_block_aliases_first :
    (8 : Nat) ≤ 2147483648 ∧ 2147483648 < U32 ∧
    (allocN (KISS_BLOCKPOOL_Create zeroMem 4096 3 2147483648) 3).2
      = [4096, 4096 + 2147483648, 4096] ∧
    (allocN (KISS_BLOCKPOOL_Create zeroMem 4096 3 2147483648) 3).1.BlocksUsed = 3 := by
  decide

/-- C5 (as stated, refuted): pool of 4 blocks of 4 bytes, `N = 3`. The link stored in a
freed block is 8 bytes wide and runs into the next block; the second round of
allocations does not return the blocks of the first round. -/
theorem C5_reuse_fails_for_small_blocks :
    (allocN (KISS_BLOCKPOOL_Create zeroMem 4096 4 4) 3).2 = [4096, 4100, 4104] ∧
    (allocN (freeAll (allocN (KISS_BLOCKPOOL_Create zeroMem 4096 4 4) 3).1
        (allocN (KISS_BLOCKPOOL_Create zeroMem 4096 4 4) 3).2) 3).2
      = [4096, 17626545786884, 0] ∧
    (allocN (freeAll (allocN (KISS_BLOCKPOOL_Create zeroMem 4096 4 4) 3).1
        (allocN (KISS_BLOCKPOOL_Create zeroMem 4096 4 4) 3).2) 3).2
      ≠ (allocN (KISS_BLOCKPOOL_Create zeroMem 4096 4 4) 3).2 := by
  decide

/-- C5 (amended): for a pool at a non-`NULL` address `p` with `T` blocks of `B ≥ 8` bytes
and `1 ≤ N ≤ T` with `N * B ≤ 2^32`, allocating `N` blocks on the freshly created pool
returns the blocks `p, p + B, ..., p + (N-1) * B`; freeing them in that order and
allocating `N` more returns the same blocks in the same order; `MaxUsed` is `N` after
each of the three phases. -/
theorem C5_fifo_reuse (mem : Mem) (p T B N : Nat) (hp : 0 < p) (hB : 8 ≤ B)
    (hT : T < U32) (hN1 : 1 ≤ N) (hN : N ≤ T) (hoff : N * B ≤ U32)
    (haddr : p + T * B ≤ U64) :
    (allocN (KISS_BLOCKPOOL_Create mem p T B) N).2 = blockAddrs p B 0 N ∧
    (allocN (freeAll (allocN (KISS_BLOCKPOOL_Create mem p T B) N).1
        (allocN (KISS_BLOCKPOOL_Create mem p T B) N).2) N).2
      = (allocN (KISS_BLOCKPOOL_Create mem p T B) N).2 ∧
    (allocN (KISS_BLOCKPOOL_Create mem p T B) N).1.MaxUsed = N ∧
    (freeAll (allocN (KISS_BLOCKPOOL_Create mem p T B) N).1
        (allocN (KISS_BLOCKPOOL_Create mem p T B) N).2).MaxUsed = N ∧
    (allocN (freeAll (allocN (KISS_BLOCKPOOL_Create mem p T B) N).1
        (allocN (KISS_BLOCKPOOL_Create mem p T B) N).2) N).1.MaxUsed = N := by
  have e1 : (KISS_BLOCKPOOL_Create mem p T B).pPool = p := rfl
  have e2 : (KISS_BLOCKPOOL_Create mem p T B).BlockSize = B := rfl
  have e3 : (KISS_BLOCKPOOL_Create mem p T B).NumBlocks = T := rfl
  have h1 := allocN_fresh N (KISS_BLOCKPOOL_Create mem p T B) 0 rfl rfl rfl rfl
    (by rw [e3]; omega) (by rw [e3]; exact hT) (by rw [e2, Nat.zero_add]; exact hoff)
    (by rw [e2]; omega)
  rw [e1, e2, e3, Nat.zero_add] at h1
  generalize allocN (KISS_BLOCKPOOL_Create mem p T B) N = r at *
  obtain ⟨a1, a2, a3, a4, a5, a6, a7, a8⟩ := h1
  rw [a1]
  have hlen := blockAddrs_length p B N 0
  have hget := blockAddrs_getD p B N 0
  have hap := blockAddrs_apart p B N hB
  have hmul : ∀ i, i < N → (0 + i) * B + B ≤ T * B := by
    intro i hi
    have h : (0 + i + 1) * B ≤ T * B := Nat.mul_le_mul_right B (by omega)
    have h2 : (0 + i + 1) * B = (0 + i) * B + B := by ring
    omega
  have h2 := freeAll_links (blockAddrs p B 0 N) N r.1 0 (by rw [hlen]; omega)
    (fun i hi => by omega) (by rw [a4]; rfl) (by rw [a5]; rfl) (by rw [a3]; omega)
    (by rw [a2, a3, Nat.add_zero]) (by rw [a2]) hap
    (by
      intro i hi
      rw [hlen] at hi
      rw [hget i hi]
      have h := isInPool_block r.1 ((0 + i) * B) (by rw [a8]; exact hp)
        (by rw [a6, a7]; have := hmul i hi; omega) (by rw [a6, a7, a8]; exact haddr)
      rw [a8] at h
      exact h)
    (by
      intro i hi
      rw [hlen] at hi
      rw [hget i hi]
      have := hmul i hi
      omega)
  rw [List.drop_zero, hlen] at h2
  obtain ⟨f1, f2, f3, f4, f5, f6, f7, f8⟩ := h2
  have h3 := allocN_reuse (blockAddrs p B 0 N) N (freeAll r.1 (blockAddrs p B 0 N)) 0
    (by rw [hlen]; omega)
    (by
      intro i _ hi
      rw [hlen] at hi
      rw [f1 i hi]
      by_cases hlast : i + 1 < N
      · rw [if_pos hlast]
      · rw [if_neg hlast, List.getD_eq_default _ _ (by rw [hlen]; omega)])
    (by rw [f2, if_pos (by omega)])
    (by rw [f3, hlen])
    (by rw [f4, a3]; omega) (by rw [f5, f4, a2, a3]; omega) (by rw [f4, f6, a3, a6]; exact hN)
    hap
    (by
      intro i hi
      rw [hlen] at hi
      rw [hget i hi]
      omega)
  rw [List.drop_zero] at h3
  obtain ⟨g1, g2, g3⟩ := h3
  exact ⟨rfl, g1, a3, by rw [f4, a3], by rw [g2, f4, a3]⟩

/-- Witness of `C5_fifo_reuse`: 4 blocks of 8 bytes at address 4096, `N = 3`. -/
theorem C5_fifo_reuse_witness :
    (allocN (KISS_BLOCKPOOL_Create zeroMem 4096 4 8) 3).2 = [4096, 4104, 4112] ∧
    (allocN (freeAll (allocN (KISS_BLOCKPOOL_Create zeroMem 4096 4 8) 3).1
        (allocN (KISS_BLOCKPOOL_Create zeroMem 4096 4 8) 3).2) 3).2
      = (allocN (KISS_BLOCKPOOL_Create zeroMem 4096 4 8) 3).2 ∧
    (allocN (KISS_BLOCKPOOL_Create zeroMem 4096 4 8) 3).1.MaxUsed = 3 ∧
    (freeAll (allocN (KISS_BLOCKPOOL_Create zeroMem 4096 4 8) 3).1
        (allocN (KISS_BLOCKPOOL_Create zeroMem 4096 4 8) 3).2).MaxUsed = 3 ∧
    (allocN (freeAll (allocN (KISS_BLOCKPOOL_Create zeroMem 4096 4 8) 3).1
        (allocN (KISS_BLOCKPOOL_Create zeroMem 4096 4 8) 3).2) 3).1.MaxUsed = 3 :=
  C5_fifo_reuse zeroMem 4096 4 8 3 (by decide) (by decide) (by decide) (by decide)
    (by decide) (by decide) (by decide)

/-- C6 (code defect): pool of 3 blocks of `2^31 + 1` bytes at address 4096. The 32-bit
offset of the third block wraps to 2, so its link word overlaps the one of the first
block. After three allocations and the three frees (third, second, first block, each
pointer obtained from `KISS_BLOCKPOOL_Alloc` and freed once) one allocation succeeds and
the next one returns `NULL` although `BlocksUsed` is 1 and `NumBlocks` is 3. With blocks
of `2^31` bytes the third block is the first one again, and freeing each of the three
allocations once ends the same way. -/
theorem C6_alloc_fails_with_free_blocks :
    (allocN (KISS_BLOCKPOOL_Create zeroMem 4096 3 2147483649) 3).2
      = [4096, 2147487745, 4098] ∧
    (freeAll (allocN (KISS_BLOCKPOOL_Create zeroMem 4096 3 2147483649) 3).1
      [4098, 2147487745, 4096]).BlocksUsed = 0 ∧
    (KISS_BLOCKPOOL_Alloc (freeAll (allocN (KISS_BLOCKPOOL_Create zeroMem 4096 3
      2147483649) 3).1 [4098, 2147487745, 4096])).2 = 4098 ∧
    (KISS_BLOCKPOOL_Alloc (freeAll (allocN (KISS_BLOCKPOOL_Create zeroMem 4096 3
      2147483649) 3).1 [4098, 2147487745, 4096])).1.BlocksUsed = 1 ∧
    (KISS_BLOCKPOOL_Alloc (freeAll (allocN (KISS_BLOCKPOOL_Create zeroMem 4096 3
      2147483649) 3).1 [4098, 2147487745, 4096])).1.NumBlocks = 3 ∧
    (KISS_BLOCKPOOL_Alloc (KISS_BLOCKPOOL_Alloc (freeAll (allocN (KISS_BLOCKPOOL_Create
      zeroMem 4096 3 2147483649) 3).1 [4098, 2147487745, 4096])).1).2 = 0 ∧
    (allocN (KISS_BLOCKPOOL_Create zeroMem 4096 3 2147483648) 3).2
      = [4096, 2147487744, 4096] ∧
    (KISS_BLOCKPOOL_Alloc (freeAll (allocN (KISS_BLOCKPOOL_Create zeroMem 4096 3
      2147483648) 3).1 [4096, 2147487744, 4096])).2 = 4096 ∧
    (KISS_BLOCKPOOL_Alloc (freeAll (allocN (KISS_BLOCKPOOL_Create zeroMem 4096 3
      2147483648) 3).1 [4096, 2147487744, 4096])).1.BlocksUsed = 1 ∧
    (KISS_BLOCKPOOL_Alloc (KISS_BLOCKPOOL_Alloc (freeAll (allocN (KISS_BLOCKPOOL_Create
      zeroMem 4096 3 2147483648) 3).1 [4096, 2147487744, 4096])).1).2 = 0 := by
  decide

/-- C7 (code defect): buffer of `2^31 = 1 * (8 + s)` bytes with `s = 2^31 - 8`. The first
put fills the buffer exactly; for the second one the 32-bit sum `oNext + 8 + s` wraps
to 0, the put is accepted at offset `2^31`, just past the buffer, and the item count
becomes 2. -/
theorem C7_exact_fill_wraps_32_bits :
    1 * (sizeofItem + 2147483640) = 2147483648 ∧ 2147483648 < U32 ∧
    (KISS_QUEUE_Put (KISS_QUEUE_Create zeroMem 2147483648) zeroMem 2147483640).2 = 0 ∧
    (KISS_QUEUE_Put (KISS_QUEUE_Put (KISS_QUEUE_Create zeroMem 2147483648) zeroMem
        2147483640).1 zeroMem 2147483640).2 = 0 ∧
    (KISS_QUEUE_Put (KISS_QUEUE_Put (KISS_QUEUE_Create zeroMem 2147483648) zeroMem
        2147483640).1 zeroMem 2147483640).1.oTail = 2147483648 ∧
    KISS_QUEUE_GetItemCnt (KISS_QUEUE_Put (KISS_QUEUE_Put (KISS_QUEUE_Create zeroMem
        2147483648) zeroMem 2147483640).1 zeroMem 2147483640).1 = 2 := by
  decide

/-- C8: on a 192-byte zero-filled buffer the 16 puts of 4-byte payloads `xs` succeed
(records at 0, 12, ..., 180); after the first 8 items are retired with `GetPtr` and
`Purge`, the 8 puts of the 4-byte payloads `ys` all return 0 with their records at
offsets 0, 12, ..., 84, and the item count is 16 again. -/
theorem C8_wraparound_scenario (xs ys : List (List Nat))
    (hx : xs.length = 16) (hxl : ∀ x ∈ xs, x.length = 4)
    (hy : ys.length = 8) (hyl : ∀ y ∈ ys, y.length = 4) :
    (putAll (KISS_QUEUE_Create zeroMem 192) xs).2
      = (List.range 16).map (fun i => ((0 : Int), 12 * i)) ∧
    KISS_QUEUE_GetItemCnt (putAll (KISS_QUEUE_Create zeroMem 192) xs).1 = 16 ∧
    (getAll (putAll (KISS_QUEUE_Create zeroMem 192) xs).1
        (List.replicate 8 4)).2.map (fun o => (o.rc, o.data))
      = (xs.take 8).map (fun x => ((0 : Int), some x)) ∧
    KISS_QUEUE_GetItemCnt (getAll (putAll (KISS_QUEUE_Create zeroMem 192) xs).1
      (List.replicate 8 4)).1 = 8 ∧
    (putAll (getAll (putAll (KISS_QUEUE_Create zeroMem 192) xs).1
        (List.replicate 8 4)).1 ys).2
      = [(0, 0), (0, 12), (0, 24), (0, 36), (0, 48), (0, 60), (0, 72), (0, 84)] ∧
    KISS_QUEUE_GetItemCnt (putAll (getAll (putAll (KISS_QUEUE_Create zeroMem 192) xs).1
        (List.replicate 8 4)).1 ys).1 = 16 := by
  -- the 16 puts
  have hz : read32 (KISS_QUEUE_Create zeroMem 192).pBuffer (KISS_QUEUE_Create zeroMem 192).oTail
      = 0 := read32_zeroMem _
  have hrx : recordBytes xs = 192 := by
    rw [recordBytes_uniform xs 4 hxl, hx]; rfl
  have hA := putAll_fits xs (KISS_QUEUE_Create zeroMem 192)
    (by rw [hz, hrx]; exact le_of_eq rfl) (by decide) (by rw [hx]; decide)
  rw [hz, layout_uniform xs 4 0 hxl, hx, hrx] at hA
  generalize putAll (KISS_QUEUE_Create zeroMem 192) xs = r16 at *
  obtain ⟨a1, a2, a3, a4, _, a7, a6⟩ := hA
  have a2' : r16.1.NumElements = 16 := by rw [a2]; rfl
  have a3' : r16.1.oHead = 0 := by rw [a3]; rfl
  have a4' : r16.1.TotalSize = 192 := by rw [a4]; rfl
  -- the 8 retirements
  have hsplit : xs = xs.take 8 ++ xs.drop 8 := (List.take_append_drop 8 xs).symm
  have hc8 : Chain r16.1.pBuffer r16.1.oHead (xs.take 8) := by
    rw [a3']
    rw [hsplit] at a6
    exact chain_append _ _ _ _ a6
  have ht8 : (xs.take 8).length = 8 := by rw [List.length_take, hx]; rfl
  have htl : ∀ x ∈ xs.take 8, x.length = 4 := fun x h => hxl x (List.mem_of_mem_take h)
  have hmap : (xs.take 8).map List.length = List.replicate 8 4 := by
    rw [List.eq_replicate_iff]
    refine ⟨by rw [List.length_map, ht8], ?_⟩
    intro b hb
    obtain ⟨x, hx1, hx2⟩ := List.mem_map.mp hb
    rw [← hx2]; exact htl x hx1
  have hB1 := getAll_chain (xs.take 8) r16.1 hc8 (by rw [ht8, a2']; decide)
    (by rw [a2']; decide) (fun x h => by rw [htl x h]; decide)
  have hB2 := getAll_state (xs.take 8) r16.1 hc8 (by rw [ht8, a2']; decide)
  rw [hmap] at hB1 hB2
  rw [recordBytes_uniform _ 4 htl, ht8, a2', a3', a4'] at hB2
  generalize getAll r16.1 (List.replicate 8 4) = r8 at *
  obtain ⟨b1, b2, b3, b4, b5⟩ := hB2
  have b2' : r8.1.oHead = 96 := by rw [b2]; rfl
  have b5' : r8.1.NumElements = 8 := by rw [b5]
  have hw : read32 r8.1.pBuffer r8.1.oTail = 192 := by rw [b1, b3, a7]
  -- the first of the 8 puts wraps, the others follow it
  obtain ⟨y, ys1, rfl⟩ : ∃ y ys1, ys = y :: ys1 := by
    cases ys with
    | nil => simp at hy
    | cons y ys1 => exact ⟨y, ys1, rfl⟩
  have hy4 : y.length = 4 := hyl y (by simp)
  have hys1 : ys1.length = 7 := by simpa using hy
  have hyl1 : ∀ z ∈ ys1, z.length = 4 := fun z h => hyl z (by simp [h])
  have hP := put_wraps r8.1 (bytes y) y.length (by rw [hw, b4, hy4]; decide)
    (by rw [hw, b2', hy4]; decide) (by rw [hw, hy4]; decide) (by rw [b2', hy4]; decide)
  rw [hy4, b5'] at hP
  simp only [putAll, hP, hy4]
  have hnext : read32 (memcpy (write32 (write32 (write32 r8.1.pBuffer r8.1.oTail 0) 0
      (sizeofItem + 4)) 4 4) sizeofItem (bytes y) 4) 0 = 12 := by
    rw [read32_congr _ _ 0 (fun z h1 h2 => memcpy_outside _ _ _ _ z (by unfold sizeofItem; omega)),
      read32_write32_disj _ _ _ _ (by omega), read32_write32_same]
    rfl
  have hC := putAll_fits ys1
    { r8.1 with
      pBuffer := memcpy (write32 (write32 (write32 r8.1.pBuffer r8.1.oTail 0) 0
        (sizeofItem + 4)) 4 4) sizeofItem (bytes y) 4
      oTail := 0
      NumElements := (8 + 1) % U32 }
    (by simp only [hnext]; rw [recordBytes_uniform _ 4 hyl1, hys1, b4]; decide) (by rw [b4]; decide)
    (by simp only [hys1]; decide)
  simp only [hnext] at hC
  rw [layout_uniform ys1 4 12 hyl1, hys1] at hC
  obtain ⟨c1, c2, _⟩ := hC
  refine ⟨a1, ?_, ?_, ?_, ?_, ?_⟩
  · unfold KISS_QUEUE_GetItemCnt; rw [a2']; rfl
  · rw [hB1, expectObs_rc_data]
  · unfold KISS_QUEUE_GetItemCnt; rw [b5']; rfl
  · rw [c1]; rfl
  · unfold KISS_QUEUE_GetItemCnt; rw [c2]; rfl

/-- Witness of `C8_wraparound_scenario`: the payloads of the repository's test, the
integers 0..15 and then 0..7, four bytes each. -/
theorem C8_wraparound_scenario_witness :
    (putAll (KISS_QUEUE_Create zeroMem 192) ((List.range 16).map le32)).2
      = [(0, 0), (0, 12), (0, 24), (0, 36), (0, 48), (0, 60), (0, 72), (0, 84), (0, 96),
         (0, 108), (0, 120), (0, 132), (0, 144), (0, 156), (0, 168), (0, 180)] ∧
    KISS_QUEUE_GetItemCnt
      (putAll (KISS_QUEUE_Create zeroMem 192) ((List.range 16).map le32)).1 = 16 ∧
    (getAll (putAll (KISS_QUEUE_Create zeroMem 192) ((List.range 16).map le32)).1
        (List.replicate 8 4)).2.map (fun o => (o.rc, o.data))
      = [(0, some [0, 0, 0, 0]), (0, some [1, 0, 0, 0]), (0, some [2, 0, 0, 0]),
         (0, some [3, 0, 0, 0]), (0, some [4, 0, 0, 0]), (0, some [5, 0, 0, 0]),
         (0, some [6, 0, 0, 0]), (0, some [7, 0, 0, 0])] ∧
    KISS_QUEUE_GetItemCnt (getAll (putAll (KISS_QUEUE_Create zeroMem 192)
      ((List.range 16).map le32)).1 (List.replicate 8 4)).1 = 8 ∧
    (putAll (getAll (putAll (KISS_QUEUE_Create zeroMem 192) ((List.range 16).map le32)).1
        (List.replicate 8 4)).1 ((List.range 8).map le32)).2
      = [(0, 0), (0, 12), (0, 24), (0, 36), (0, 48), (0, 60), (0, 72), (0, 84)] ∧
    KISS_QUEUE_GetItemCnt (putAll (getAll (putAll (KISS_QUEUE_Create zeroMem 192)
        ((List.range 16).map le32)).1 (List.replicate 8 4)).1
        ((List.range 8).map le32)).1 = 16 :=
  C8_wraparound_scenario ((List.range 16).map le32) ((List.range 8).map le32)
    (by decide) (by decide) (by decide) (by decide)

/-- C9 (code defect): on a fresh queue over a 100-byte zero-filled buffer a put of
`2^32 - 8` bytes, whose record is far larger than the buffer, is accepted: the 32-bit sum
`oNext + 8 + Size` is 0. -/
theorem C9_oversized_put_accepted :
    4294967288 < U32 ∧ 100 < sizeofItem + 4294967288 ∧
    (KISS_QUEUE_Put (KISS_QUEUE_Create zeroMem 100) zeroMem 4294967288).2 = 0 ∧
    (KISS_QUEUE_Put (KISS_QUEUE_Create zeroMem 100) zeroMem 4294967288).1.NumElements = 1 := by
  decide

/-- C10: when `KISS_QUEUE_Put` or `KISS_QUEUE_PutEx` returns non-zero, the queue object
and every byte of the buffer are what they were before the call. -/
theorem C10_failed_put_changes_nothing (q : KISS_QUEUE) (pSrc : Mem) (Size : Nat)
    (pSrcList : Option (Nat → KISS_QUEUE_SRCLIST)) (NumSrc : Nat) :
    ((KISS_QUEUE_Put q pSrc Size).2 ≠ 0 → (KISS_QUEUE_Put q pSrc Size).1 = q) ∧
    ((KISS_QUEUE_PutEx q pSrcList NumSrc).2 ≠ 0 →
      (KISS_QUEUE_PutEx q pSrcList NumSrc).1 = q) := by
  have key : ∀ S, (__alloc_item q S).2 = none → (__alloc_item q S).1 = q := by
    intro S
    unfold __alloc_item placeItem
    simp only
    split
    · simp
    · split
      · simp
      · simp
  constructor
  · intro h
    unfold KISS_QUEUE_Put at h ⊢
    have k := key Size
    revert h k
    rcases __alloc_item q Size with ⟨q1, _ | d⟩ <;> simp
  · intro h
    unfold KISS_QUEUE_PutEx at h ⊢
    cases pSrcList with
    | none => rfl
    | some l =>
      have k := key (srcListSize l NumSrc)
      revert h k
      simp only
      rcases __alloc_item q (srcListSize l NumSrc) with ⟨q1, _ | d⟩ <;> simp

/-- Witness of `C10_failed_put_changes_nothing`: a 12-byte record does not fit an 8-byte
buffer, and a `NULL` source list is refused. -/
theorem C10_failed_put_changes_nothing_witness :
    (KISS_QUEUE_Put (KISS_QUEUE_Create zeroMem 8) (bytes [1, 2, 3, 4]) 4).2 ≠ 0 ∧
    (KISS_QUEUE_Put (KISS_QUEUE_Create zeroMem 8) (bytes [1, 2, 3, 4]) 4).1
      = KISS_QUEUE_Create zeroMem 8 ∧
    (KISS_QUEUE_PutEx (KISS_QUEUE_Create zeroMem 8) none 0).2 ≠ 0 ∧
    (KISS_QUEUE_PutEx (KISS_QUEUE_Create zeroMem 8) none 0).1 = KISS_QUEUE_Create zeroMem 8 :=
  ⟨by decide,
   (C10_failed_put_changes_nothing (KISS_QUEUE_Create zeroMem 8) (bytes [1, 2, 3, 4]) 4
      none 0).1 (by decide),
   by decide,
   (C10_failed_put_changes_nothing (KISS_QUEUE_Create zeroMem 8) (bytes [1, 2, 3, 4]) 4
      none 0).2 (by decide)⟩

/-- C11: after `KISS_BLOCKPOOL_Create` with a 32-bit block count and any sequence of `Alloc`
calls, `FreeEx` calls with arbitrary pointers and stores into memory,
`0 ≤ BlocksUsed ≤ MaxUsed ≤ NumBlocks` holds (the sequence is arbitrary, so it holds after
every call of it). -/
theorem C11_counter_invariant (mem : Mem) (pPool NumBlocks BlockSize : Nat)
    (ops : List PoolOp) (hN : NumBlocks < U32) :
    0 ≤ (poolRun (KISS_BLOCKPOOL_Create mem pPool NumBlocks BlockSize) ops).BlocksUsed ∧
    (poolRun (KISS_BLOCKPOOL_Create mem pPool NumBlocks BlockSize) ops).BlocksUsed
      ≤ (poolRun (KISS_BLOCKPOOL_Create mem pPool NumBlocks BlockSize) ops).MaxUsed ∧
    (poolRun (KISS_BLOCKPOOL_Create mem pPool NumBlocks BlockSize) ops).MaxUsed
      ≤ (poolRun (KISS_BLOCKPOOL_Create mem pPool NumBlocks BlockSize) ops).NumBlocks ∧
    (poolRun (KISS_BLOCKPOOL_Create mem pPool NumBlocks BlockSize) ops).NumBlocks
      = NumBlocks := by
  obtain ⟨r1, r2, r3⟩ := run_counters ops (KISS_BLOCKPOOL_Create mem pPool NumBlocks BlockSize)
    (le_refl _) (Nat.zero_le _) hN
  refine ⟨Nat.zero_le _, r2, ?_, r1⟩
  rw [r1]
  exact r3

/-- Witness of `C11_counter_invariant`: two blocks of 16 bytes at address 4096; the calls
include a repeated free, a free of `NULL`, of an address past the pool and of an address
inside a block. -/
theorem C11_counter_invariant_witness :
    0 ≤ (poolRun (KISS_BLOCKPOOL_Create zeroMem 4096 2 16)
      [PoolOp.free 4096, PoolOp.alloc, PoolOp.alloc, PoolOp.alloc, PoolOp.free 4096,
       PoolOp.free 4096, PoolOp.free 0, PoolOp.free 4128, PoolOp.free 4100, PoolOp.alloc]).BlocksUsed ∧
    (poolRun (KISS_BLOCKPOOL_Create zeroMem 4096 2 16)
      [PoolOp.free 4096, PoolOp.alloc, PoolOp.alloc, PoolOp.alloc, PoolOp.free 4096,
       PoolOp.free 4096, PoolOp.free 0, PoolOp.free 4128, PoolOp.free 4100, PoolOp.alloc]).BlocksUsed
      ≤ (poolRun (KISS_BLOCKPOOL_Create zeroMem 4096 2 16)
      [PoolOp.free 4096, PoolOp.alloc, PoolOp.alloc, PoolOp.alloc, PoolOp.free 4096,
       PoolOp.free 4096, PoolOp.free 0, PoolOp.free 4128, PoolOp.free 4100, PoolOp.alloc]).MaxUsed ∧
    (poolRun (KISS_BLOCKPOOL_Create zeroMem 4096 2 16)
      [PoolOp.free 4096, PoolOp.alloc, PoolOp.alloc, PoolOp.alloc, PoolOp.free 4096,
       PoolOp.free 4096, PoolOp.free 0, PoolOp.free 4128, PoolOp.free 4100, PoolOp.alloc]).MaxUsed
      ≤ (poolRun (KISS_BLOCKPOOL_Create zeroMem 4096 2 16)
      [PoolOp.free 4096, PoolOp.alloc, PoolOp.alloc, PoolOp.alloc, PoolOp.free 4096,
       PoolOp.free 4096, PoolOp.free 0, PoolOp.free 4128, PoolOp.free 4100, PoolOp.alloc]).NumBlocks ∧
    (poolRun (KISS_BLOCKPOOL_Create zeroMem 4096 2 16)
      [PoolOp.free 4096, PoolOp.alloc, PoolOp.alloc, PoolOp.alloc, PoolOp.free 4096,
       PoolOp.free 4096, PoolOp.free 0, PoolOp.free 4128, PoolOp.free 4100, PoolOp.alloc]).NumBlocks = 2 :=
  C11_counter_invariant zeroMem 4096 2 16
    [PoolOp.free 4096, PoolOp.alloc, PoolOp.alloc, PoolOp.alloc, PoolOp.free 4096,
       PoolOp.free 4096, PoolOp.free 0, PoolOp.free 4128, PoolOp.free 4100, PoolOp.alloc] (by decide)

/-- C12 (as stated, refuted): a freshly created pool of `2^31` blocks has
`NumBlocks - BlocksUsed = 2^31` free blocks, but `KISS_BLOCKPOOL_GetNumFreeBlocks`, whose
result type is `int`, returns `-2^31`. -/
theorem C12_free_blocks_of_large_pool :
    (2147483648 : Nat) < U32 ∧
    (KISS_BLOCKPOOL_Create zeroMem 4096 2147483648 8).NumBlocks
      - (KISS_BLOCKPOOL_Create zeroMem 4096 2147483648 8).BlocksUsed = 2147483648 ∧
    KISS_BLOCKPOOL_GetNumFreeBlocks (KISS_BLOCKPOOL_Create zeroMem 4096 2147483648 8)
      = -2147483648 := by
  decide

/-- C12 (amended): for a pool created with fewer than `2^31` blocks, after any sequence of
calls `KISS_BLOCKPOOL_GetNumFreeBlocks` equals `NumBlocks - BlocksUsed`; one more step never
lowers `MaxUsed`, raises it by at most one and keeps it at most `NumBlocks`, and `FreeEx`
leaves it as it is. -/
theorem C12_conservation (mem : Mem) (pPool NumBlocks BlockSize : Nat)
    (ops : List PoolOp) (op : PoolOp) (b : Nat) (hN : NumBlocks < 2147483648) :
    KISS_BLOCKPOOL_GetNumFreeBlocks
        (poolRun (KISS_BLOCKPOOL_Create mem pPool NumBlocks BlockSize) ops)
      = (NumBlocks : Int)
        - (poolRun (KISS_BLOCKPOOL_Create mem pPool NumBlocks BlockSize) ops).BlocksUsed ∧
    (poolRun (KISS_BLOCKPOOL_Create mem pPool NumBlocks BlockSize) ops).MaxUsed
      ≤ (poolStep (poolRun (KISS_BLOCKPOOL_Create mem pPool NumBlocks BlockSize) ops)
          op).MaxUsed ∧
    (poolStep (poolRun (KISS_BLOCKPOOL_Create mem pPool NumBlocks BlockSize) ops) op).MaxUsed
      ≤ (poolRun (KISS_BLOCKPOOL_Create mem pPool NumBlocks BlockSize) ops).MaxUsed + 1 ∧
    (poolStep (poolRun (KISS_BLOCKPOOL_Create mem pPool NumBlocks BlockSize) ops) op).MaxUsed
      ≤ NumBlocks ∧
    (KISS_BLOCKPOOL_FreeEx (poolRun (KISS_BLOCKPOOL_Create mem pPool NumBlocks BlockSize) ops)
        b).MaxUsed
      = (poolRun (KISS_BLOCKPOOL_Create mem pPool NumBlocks BlockSize) ops).MaxUsed := by
  have hN32 : NumBlocks < U32 := by unfold U32; omega
  obtain ⟨r1, r2, r3⟩ := run_counters ops (KISS_BLOCKPOOL_Create mem pPool NumBlocks BlockSize)
    (le_refl _) (Nat.zero_le _) hN32
  have e : (KISS_BLOCKPOOL_Create mem pPool NumBlocks BlockSize).NumBlocks = NumBlocks := rfl
  rw [e] at r1 r3
  generalize poolRun (KISS_BLOCKPOOL_Create mem pPool NumBlocks BlockSize) ops = P at *
  obtain ⟨s1, s2, s3, s4, s5⟩ := step_counters P op r2 (by omega) (by omega)
  refine ⟨?_, s4, s5, by omega, (free_counters P b).2.1⟩
  unfold KISS_BLOCKPOOL_GetNumFreeBlocks
  rw [r1, sub32 NumBlocks P.BlocksUsed (by omega) hN32, toInt_small _ (by omega)]
  omega

/-- Witness of `C12_conservation`: 4 blocks of 16 bytes, two allocations and a free, then
one more allocation. -/
theorem C12_conservation_witness :
    KISS_BLOCKPOOL_GetNumFreeBlocks
        (poolRun (KISS_BLOCKPOOL_Create zeroMem 4096 4 16)
          [PoolOp.alloc, PoolOp.alloc, PoolOp.free 4096])
      = (4 : Int) - (poolRun (KISS_BLOCKPOOL_Create zeroMem 4096 4 16)
          [PoolOp.alloc, PoolOp.alloc, PoolOp.free 4096]).BlocksUsed ∧
    (poolStep (poolRun (KISS_BLOCKPOOL_Create zeroMem 4096 4 16)
          [PoolOp.alloc, PoolOp.alloc, PoolOp.free 4096]) PoolOp.alloc).MaxUsed ≤ 4 :=
  ⟨(C12_conservation zeroMem 4096 4 16 [PoolOp.alloc, PoolOp.alloc, PoolOp.free 4096]
      PoolOp.alloc 4096 (by decide)).1,
   (C12_conservation zeroMem 4096 4 16 [PoolOp.alloc, PoolOp.alloc, PoolOp.free 4096]
      PoolOp.alloc 4096 (by decide)).2.2.2.1⟩

/-- C13 (code defect): pool of 3 blocks of `2^31 + 1` bytes at address 4096, three
allocations, then the three blocks freed (third, second, first), a valid usage. The
counters say the free list has `MaxUsed - BlocksUsed = 3` nodes, but the chain that starts
at `pHead` is the single node 4098 (its link reads `NULL`) and does not reach
`pTail = 4096`. -/
theorem C13_free_list_broken_by_overlap :
    held (KISS_BLOCKPOOL_Create zeroMem 4096 3 2147483649) []
      [PoolOp.alloc, PoolOp.alloc, PoolOp.alloc, PoolOp.free 4098, PoolOp.free 2147487745,
       PoolOp.free 4096] = some [] ∧
    (poolRun (KISS_BLOCKPOOL_Create zeroMem 4096 3 2147483649)
      [PoolOp.alloc, PoolOp.alloc, PoolOp.alloc, PoolOp.free 4098, PoolOp.free 2147487745,
       PoolOp.free 4096]).MaxUsed = 3 ∧
    (poolRun (KISS_BLOCKPOOL_Create zeroMem 4096 3 2147483649)
      [PoolOp.alloc, PoolOp.alloc, PoolOp.alloc, PoolOp.free 4098, PoolOp.free 2147487745,
       PoolOp.free 4096]).BlocksUsed = 0 ∧
    (poolRun (KISS_BLOCKPOOL_Create zeroMem 4096 3 2147483649)
      [PoolOp.alloc, PoolOp.alloc, PoolOp.alloc, PoolOp.free 4098, PoolOp.free 2147487745,
       PoolOp.free 4096]).pHead = 4098 ∧
    (poolRun (KISS_BLOCKPOOL_Create zeroMem 4096 3 2147483649)
      [PoolOp.alloc, PoolOp.alloc, PoolOp.alloc, PoolOp.free 4098, PoolOp.free 2147487745,
       PoolOp.free 4096]).pTail = 4096 ∧
    chainFrom (poolRun (KISS_BLOCKPOOL_Create zeroMem 4096 3 2147483649)
      [PoolOp.alloc, PoolOp.alloc, PoolOp.alloc, PoolOp.free 4098, PoolOp.free 2147487745,
       PoolOp.free 4096]).mem 4098 3 = [4098] := by
  decide

/-- C14 (code defect): pool of 2 blocks of 16 bytes at address 4096; both blocks are
allocated and freed in order (a valid usage). The next allocation takes the first block
from the free list and returns it with the link to the second block (address 4112 =
`0x1010`) still in its first bytes: the block is not zeroed. -/
theorem C14_reused_block_not_zeroed :
    held (KISS_BLOCKPOOL_Create zeroMem 4096 2 16) []
      [PoolOp.alloc, PoolOp.alloc, PoolOp.free 4096, PoolOp.free 4112] = some [] ∧
    (KISS_BLOCKPOOL_Alloc (poolRun (KISS_BLOCKPOOL_Create zeroMem 4096 2 16)
      [PoolOp.alloc, PoolOp.alloc, PoolOp.free 4096, PoolOp.free 4112])).2 = 4096 ∧
    readBytes (KISS_BLOCKPOOL_Alloc (poolRun (KISS_BLOCKPOOL_Create zeroMem 4096 2 16)
      [PoolOp.alloc, PoolOp.alloc, PoolOp.free 4096, PoolOp.free 4112])).1.mem 4096 16
      = [16, 16, 0, 0, 0, 0, 0, 0, 0, 0, 0, 0, 0, 0, 0, 0] ∧
    readBytes (KISS_BLOCKPOOL_Alloc (KISS_BLOCKPOOL_Create zeroMem 4096 2 16)).1.mem 4096 16
      = [0, 0, 0, 0, 0, 0, 0, 0, 0, 0, 0, 0, 0, 0, 0, 0] := by
  decide

/-- C15: for a 64-bit pointer and a pool with 32-bit block count and block size,
`KISS_BLOCKPOOL_FreeEx` leaves the pool object and the memory as they are when the pointer
is outside `[pPool, pPool + NumBlocks * BlockSize)` or `BlocksUsed` is 0; otherwise
`BlocksUsed` decreases by exactly one, the pointer becomes `pTail`, and `MaxUsed`,
`NumBlocks`, `BlockSize` and `pPool` keep their values. -/
theorem C15_free_effect (P : KISS_BLOCKPOOL) (b : Nat) (hb : b < U64)
    (hN : P.NumBlocks < U32) (hB : P.BlockSize < U32) :
    (¬ (P.pPool ≤ b ∧ b < P.pPool + P.NumBlocks * P.BlockSize) ∨ P.BlocksUsed = 0 →
      KISS_BLOCKPOOL_FreeEx P b = P) ∧
    (P.pPool ≤ b ∧ b < P.pPool + P.NumBlocks * P.BlockSize ∧ 0 < P.BlocksUsed →
      (KISS_BLOCKPOOL_FreeEx P b).BlocksUsed + 1 = P.BlocksUsed ∧
      (KISS_BLOCKPOOL_FreeEx P b).pTail = b ∧
      (KISS_BLOCKPOOL_FreeEx P b).MaxUsed = P.MaxUsed ∧
      (KISS_BLOCKPOOL_FreeEx P b).NumBlocks = P.NumBlocks ∧
      (KISS_BLOCKPOOL_FreeEx P b).BlockSize = P.BlockSize ∧
      (KISS_BLOCKPOOL_FreeEx P b).pPool = P.pPool) := by
  have hin := isInPool_iff P b hb hN hB
  constructor
  · intro h
    unfold KISS_BLOCKPOOL_FreeEx
    rw [if_neg]
    rintro ⟨h1, h2⟩
    rcases h with h | h
    · exact h (hin.mp h2)
    · omega
  · rintro ⟨h1, h2, h3⟩
    unfold KISS_BLOCKPOOL_FreeEx
    rw [if_pos ⟨h3, hin.mpr ⟨h1, h2⟩⟩]
    simp only
    split_ifs <;> refine ⟨?_, rfl, rfl, rfl, rfl, rfl⟩ <;> simp only <;> omega

/-- Witness of `C15_free_effect`: pool of 2 blocks of 16 bytes at 4096 with one block
allocated; the pointers `NULL` and one past the end are ignored, the pointer 4096 is
freed. -/
theorem C15_free_effect_witness :
    KISS_BLOCKPOOL_FreeEx (KISS_BLOCKPOOL_Alloc (KISS_BLOCKPOOL_Create zeroMem 4096 2 16)).1 0
      = (KISS_BLOCKPOOL_Alloc (KISS_BLOCKPOOL_Create zeroMem 4096 2 16)).1 ∧
    KISS_BLOCKPOOL_FreeEx (KISS_BLOCKPOOL_Alloc (KISS_BLOCKPOOL_Create zeroMem 4096 2 16)).1
        4128
      = (KISS_BLOCKPOOL_Alloc (KISS_BLOCKPOOL_Create zeroMem 4096 2 16)).1 ∧
    (KISS_BLOCKPOOL_FreeEx (KISS_BLOCKPOOL_Alloc (KISS_BLOCKPOOL_Create zeroMem 4096 2 16)).1
        4096).BlocksUsed + 1
      = (KISS_BLOCKPOOL_Alloc (KISS_BLOCKPOOL_Create zeroMem 4096 2 16)).1.BlocksUsed ∧
    (KISS_BLOCKPOOL_FreeEx (KISS_BLOCKPOOL_Alloc (KISS_BLOCKPOOL_Create zeroMem 4096 2 16)).1
        4096).pTail = 4096 :=
  ⟨(C15_free_effect _ 0 (by decide) (by decide) (by decide)).1 (Or.inl (by decide)),
   (C15_free_effect _ 4128 (by decide) (by decide) (by decide)).1 (Or.inl (by decide)),
   ((C15_free_effect _ 4096 (by decide) (by decide) (by decide)).2 (by decide)).1,
   ((C15_free_effect _ 4096 (by decide) (by decide) (by decide)).2 (by decide)).2.1⟩

/-- C16 (as stated, refuted): pool of 2 blocks of 16 bytes at address 4096; both blocks
allocated, the first one freed twice, one allocation. Then `BlocksUsed = 1 < 2 =
NumBlocks` and `GetNumFreeBlocks` is 1, but `KISS_BLOCKPOOL_Alloc` returns `NULL` and
leaves `BlocksUsed` at 1. -/
theorem C16_alloc_fails_after_double_free :
    (poolRun (KISS_BLOCKPOOL_Create zeroMem 4096 2 16)
      [PoolOp.alloc, PoolOp.alloc, PoolOp.free 4096, PoolOp.free 4096,
       PoolOp.alloc]).BlocksUsed = 1 ∧
    (poolRun (KISS_BLOCKPOOL_Create zeroMem 4096 2 16)
      [PoolOp.alloc, PoolOp.alloc, PoolOp.free 4096, PoolOp.free 4096,
       PoolOp.alloc]).NumBlocks = 2 ∧
    KISS_BLOCKPOOL_GetNumFreeBlocks (poolRun (KISS_BLOCKPOOL_Create zeroMem 4096 2 16)
      [PoolOp.alloc, PoolOp.alloc, PoolOp.free 4096, PoolOp.free 4096, PoolOp.alloc]) = 1 ∧
    (KISS_BLOCKPOOL_Alloc (poolRun (KISS_BLOCKPOOL_Create zeroMem 4096 2 16)
      [PoolOp.alloc, PoolOp.alloc, PoolOp.free 4096, PoolOp.free 4096, PoolOp.alloc])).2 = 0 ∧
    (KISS_BLOCKPOOL_Alloc (poolRun (KISS_BLOCKPOOL_Create zeroMem 4096 2 16)
      [PoolOp.alloc, PoolOp.alloc, PoolOp.free 4096, PoolOp.free 4096,
       PoolOp.alloc])).1.BlocksUsed = 1 := by
  decide

/-- C16 (amended): for a pool at a non-`NULL` address with blocks of at least 8 bytes and
at most `2^32` bytes in all, in every state reached from `KISS_BLOCKPOOL_Create` by valid
usage (every pointer passed to `FreeEx` is a block currently allocated or lies outside the
pool; the client stores only into blocks it holds), if `BlocksUsed < NumBlocks` then
`KISS_BLOCKPOOL_Alloc` returns a non-`NULL` pointer and increments `BlocksUsed` by one. -/
theorem C16_alloc_succeeds_under_valid_usage (mem : Mem) (p T B : Nat) (ops : List PoolOp)
    (A : List Nat) (hp : 0 < p) (hB : 8 ≤ B) (hT : T < U32) (hsz : T * B ≤ U32)
    (haddr : p + T * B ≤ U64)
    (hv : held (KISS_BLOCKPOOL_Create mem p T B) [] ops = some A)
    (hfree : (poolRun (KISS_BLOCKPOOL_Create mem p T B) ops).BlocksUsed
      < (poolRun (KISS_BLOCKPOOL_Create mem p T B) ops).NumBlocks) :
    (KISS_BLOCKPOOL_Alloc (poolRun (KISS_BLOCKPOOL_Create mem p T B) ops)).2 ≠ 0 ∧
    (KISS_BLOCKPOOL_Alloc (poolRun (KISS_BLOCKPOOL_Create mem p T B) ops)).1.BlocksUsed
      = (poolRun (KISS_BLOCKPOOL_Create mem p T B) ops).BlocksUsed + 1 := by
  obtain ⟨F, hF⟩ := held_inv p T B hp hB hT hsz haddr ops _ [] [] A
    (poolInv_create mem p T B) hv
  obtain ⟨a1, a2, a3⟩ := alloc_inv p T B _ A F hp hB hT hsz haddr hF
  have hN : (poolRun (KISS_BLOCKPOOL_Create mem p T B) ops).NumBlocks = T := hF.2.1
  have hne : (KISS_BLOCKPOOL_Alloc (poolRun (KISS_BLOCKPOOL_Create mem p T B) ops)).2 ≠ 0 := by
    intro h0
    have := a1.mp h0
    omega
  exact ⟨hne, (a3 hne).2.2.1⟩

/-- Witness of `C16_alloc_succeeds_under_valid_usage`: 3 blocks of 16 bytes at address
4096; two allocations, a store into the first block, the first block freed, `NULL`
freed, one allocation. -/
theorem C16_alloc_succeeds_under_valid_usage_witness :
    held (KISS_BLOCKPOOL_Create zeroMem 4096 3 16) []
      [PoolOp.alloc, PoolOp.alloc, PoolOp.write 4100 255, PoolOp.free 4096, PoolOp.free 0,
       PoolOp.alloc] = some [4096, 4112] ∧
    (KISS_BLOCKPOOL_Alloc (poolRun (KISS_BLOCKPOOL_Create zeroMem 4096 3 16)
      [PoolOp.alloc, PoolOp.alloc, PoolOp.write 4100 255, PoolOp.free 4096, PoolOp.free 0,
       PoolOp.alloc])).2 ≠ 0 ∧
    (KISS_BLOCKPOOL_Alloc (poolRun (KISS_BLOCKPOOL_Create zeroMem 4096 3 16)
      [PoolOp.alloc, PoolOp.alloc, PoolOp.write 4100 255, PoolOp.free 4096, PoolOp.free 0,
       PoolOp.alloc])).1.BlocksUsed
      = (poolRun (KISS_BLOCKPOOL_Create zeroMem 4096 3 16)
      [PoolOp.alloc, PoolOp.alloc, PoolOp.write 4100 255, PoolOp.free 4096, PoolOp.free 0,
       PoolOp.alloc]).BlocksUsed + 1 :=
  ⟨by decide,
   C16_alloc_succeeds_under_valid_usage zeroMem 4096 3 16
    [PoolOp.alloc, PoolOp.alloc, PoolOp.write 4100 255, PoolOp.free 4096, PoolOp.free 0,
       PoolOp.alloc] [4096, 4112] (by decide) (by decide) (by decide) (by decide) (by decide)
    (by decide) (by decide)⟩

/-- C17: with assertions compiled out, `KISS_QUEUE_Purge` on a queue with
`NumElements > 0` sets `oHead` to the next-offset stored in the header at the old `oHead`,
decreases `NumElements` by exactly one, decrements `UseCount` when it is positive and
leaves it 0 otherwise, and keeps the other fields and the buffer; on a queue with
`NumElements = 0` it changes nothing. -/
theorem C17_purge_retires_unconditionally (q : KISS_QUEUE) :
    (q.NumElements > 0 →
      (KISS_QUEUE_Purge q).oHead = read32 q.pBuffer q.oHead ∧
      (KISS_QUEUE_Purge q).NumElements + 1 = q.NumElements ∧
      (q.UseCount > 0 → (KISS_QUEUE_Purge q).UseCount + 1 = q.UseCount) ∧
      (q.UseCount = 0 → (KISS_QUEUE_Purge q).UseCount = 0) ∧
      (KISS_QUEUE_Purge q).oTail = q.oTail ∧
      (KISS_QUEUE_Purge q).TotalSize = q.TotalSize ∧
      (KISS_QUEUE_Purge q).pBuffer = q.pBuffer) ∧
    (q.NumElements = 0 → KISS_QUEUE_Purge q = q) := by
  constructor
  · intro h
    simp only [KISS_QUEUE_Purge, if_pos h]
    refine ⟨trivial, by omega, ?_, ?_, trivial, trivial, trivial⟩
    · intro hu; rw [if_pos hu]; omega
    · intro hu; rw [if_neg (by omega)]; exact hu
  · intro h
    simp only [KISS_QUEUE_Purge]
    rw [if_neg (by omega)]

/-- Witness of `C17_purge_retires_unconditionally`: a queue holding one 4-byte item that
was never pinned, and the empty queue. -/
theorem C17_purge_retires_unconditionally_witness :
    (KISS_QUEUE_Purge (KISS_QUEUE_Put (KISS_QUEUE_Create zeroMem 32) (bytes [1, 2, 3, 4])
      4).1).oHead = 12 ∧
    (KISS_QUEUE_Purge (KISS_QUEUE_Put (KISS_QUEUE_Create zeroMem 32) (bytes [1, 2, 3, 4])
      4).1).NumElements + 1 = 1 ∧
    (KISS_QUEUE_Purge (KISS_QUEUE_Put (KISS_QUEUE_Create zeroMem 32) (bytes [1, 2, 3, 4])
      4).1).UseCount = 0 ∧
    KISS_QUEUE_Purge (KISS_QUEUE_Create zeroMem 32) = KISS_QUEUE_Create zeroMem 32 :=
  ⟨((C17_purge_retires_unconditionally (KISS_QUEUE_Put (KISS_QUEUE_Create zeroMem 32)
      (bytes [1, 2, 3, 4]) 4).1).1 (by decide)).1,
   ((C17_purge_retires_unconditionally (KISS_QUEUE_Put (KISS_QUEUE_Create zeroMem 32)
      (bytes [1, 2, 3, 4]) 4).1).1 (by decide)).2.1,
   ((C17_purge_retires_unconditionally (KISS_QUEUE_Put (KISS_QUEUE_Create zeroMem 32)
      (bytes [1, 2, 3, 4]) 4).1).1 (by decide)).2.2.2.1 (by decide),
   (C17_purge_retires_unconditionally (KISS_QUEUE_Create zeroMem 32)).2 (by decide)⟩

/-- C18 (as stated, refuted): a queue holding one item on which `KISS_QUEUE_GetPtr` was
called 65535 times has `UseCount = 65535`; one more successful `GetPtr` makes the 16-bit
counter 0, not 65536 (the assertion inside `GetPtr`, compiled out here, names this
case). -/
theorem C18_pin_counter_wraps :
    (getPtrN (KISS_QUEUE_Put (KISS_QUEUE_Create zeroMem 16) (bytes [1]) 1).1 65535).UseCount
      = 65535 ∧
    KISS_QUEUE_GetPtr_assert (getPtrN (KISS_QUEUE_Put (KISS_QUEUE_Create zeroMem 16)
      (bytes [1]) 1).1 65535) = false ∧
    (KISS_QUEUE_GetPtr (getPtrN (KISS_QUEUE_Put (KISS_QUEUE_Create zeroMem 16) (bytes [1])
      1).1 65535)).2.1 = 0 ∧
    (KISS_QUEUE_GetPtr (getPtrN (KISS_QUEUE_Put (KISS_QUEUE_Create zeroMem 16) (bytes [1])
      1).1 65535)).1.UseCount = 0 := by
  have h : (KISS_QUEUE_Put (KISS_QUEUE_Create zeroMem 16) (bytes [1]) 1).1.NumElements > 0 := by
    decide
  rw [getPtrN_state 65535 _ h]
  decide

/-- C18 (amended): `KISS_QUEUE_PeekPtr` and `KISS_QUEUE_GetPtr` return the same code, 0
exactly when `NumElements > 0`, and on success the same pointer `oHead + 8` into the
buffer. `GetPtr` changes no field other than `UseCount` and changes nothing on an empty
queue; on success with `UseCount < 65535` it adds 1 to `UseCount`, after which
`KISS_QUEUE_IsInUse` is true. A call of `PeekPtr`, `GetItemCnt`, `GetItemSize` or
`IsInUse` leaves the queue as it is and returns the same result when repeated, and so
does every sequence of such calls; `PeekPtr`, `GetItemCnt` and `GetItemSize` return the
same results after `GetPtr` as before. -/
theorem C18_getptr_pins_peekptr_does_not (q : KISS_QUEUE) :
    (KISS_QUEUE_PeekPtr q).1 = (KISS_QUEUE_GetPtr q).2.1 ∧
    ((KISS_QUEUE_GetPtr q).2.1 = 0 ↔ q.NumElements > 0) ∧
    (q.NumElements > 0 →
      (KISS_QUEUE_PeekPtr q).2 = some (q.oHead + 8) ∧
      (KISS_QUEUE_GetPtr q).2.2 = some (q.oHead + 8)) ∧
    (q.NumElements > 0 → q.UseCount < 65535 →
      (KISS_QUEUE_GetPtr q).1 = { q with UseCount := q.UseCount + 1 } ∧
      KISS_QUEUE_IsInUse (KISS_QUEUE_GetPtr q).1 = true) ∧
    ((KISS_QUEUE_GetPtr q).1.pBuffer = q.pBuffer ∧
      (KISS_QUEUE_GetPtr q).1.TotalSize = q.TotalSize ∧
      (KISS_QUEUE_GetPtr q).1.NumElements = q.NumElements ∧
      (KISS_QUEUE_GetPtr q).1.oHead = q.oHead ∧
      (KISS_QUEUE_GetPtr q).1.oTail = q.oTail) ∧
    (q.NumElements = 0 →
      (KISS_QUEUE_GetPtr q).1 = q ∧ (KISS_QUEUE_GetPtr q).2.2 = none ∧
      (KISS_QUEUE_PeekPtr q).2 = none) ∧
    (∀ c : QueueQuery, (queueQuery q c).1 = q ∧
      (queueQuery (queueQuery q c).1 c).2 = (queueQuery q c).2) ∧
    (∀ cs : List QueueQuery, (queueQueries q cs).1 = q ∧
      (queueQueries q cs).2 = cs.map (fun c => (queueQuery q c).2)) ∧
    KISS_QUEUE_PeekPtr (KISS_QUEUE_GetPtr q).1 = KISS_QUEUE_PeekPtr q ∧
    KISS_QUEUE_GetItemCnt (KISS_QUEUE_GetPtr q).1 = KISS_QUEUE_GetItemCnt q ∧
    KISS_QUEUE_GetItemSize (KISS_QUEUE_GetPtr q).1 = KISS_QUEUE_GetItemSize q := by
  have hquery : ∀ c : QueueQuery, (queueQuery q c).1 = q ∧
      (queueQuery (queueQuery q c).1 c).2 = (queueQuery q c).2 := by
    intro c
    cases c <;> exact ⟨rfl, rfl⟩
  have hqueries : ∀ cs : List QueueQuery, (queueQueries q cs).1 = q ∧
      (queueQueries q cs).2 = cs.map (fun c => (queueQuery q c).2) := by
    intro cs
    induction cs with
    | nil => exact ⟨rfl, rfl⟩
    | cons c cs ih =>
      have h1 : (queueQuery q c).1 = q := by cases c <;> rfl
      simp only [queueQueries, h1, List.map_cons]
      exact ⟨ih.1, by rw [ih.2]⟩
  by_cases h : q.NumElements > 0
  · refine ⟨?_, ?_, ?_, ?_, ?_, ?_, hquery, hqueries, ?_, ?_, ?_⟩
    · simp only [KISS_QUEUE_PeekPtr, KISS_QUEUE_GetPtr, if_pos h]
    · simp [KISS_QUEUE_GetPtr, h]
    · intro _
      simp only [KISS_QUEUE_PeekPtr, KISS_QUEUE_GetPtr, if_pos h, sizeofItem]
      exact ⟨trivial, trivial⟩
    · intro _ hu
      have e : (q.UseCount + 1) % U16 = q.UseCount + 1 :=
        Nat.mod_eq_of_lt (by unfold U16; omega)
      simp only [KISS_QUEUE_GetPtr, if_pos h, e, KISS_QUEUE_IsInUse]
      exact ⟨trivial, by simp⟩
    · simp only [KISS_QUEUE_GetPtr, if_pos h]
      exact ⟨trivial, trivial, trivial, trivial, trivial⟩
    · intro h0; omega
    · simp only [KISS_QUEUE_PeekPtr, KISS_QUEUE_GetPtr, if_pos h]
    · simp only [KISS_QUEUE_GetItemCnt, KISS_QUEUE_GetPtr, if_pos h]
    · simp only [KISS_QUEUE_GetItemSize, KISS_QUEUE_GetPtr, if_pos h]
  · refine ⟨?_, ?_, fun h1 => absurd h1 h, fun h1 => absurd h1 h, ?_, ?_, hquery, hqueries,
      ?_, ?_, ?_⟩
    · simp only [KISS_QUEUE_PeekPtr, KISS_QUEUE_GetPtr, if_neg h]
    · simp [KISS_QUEUE_GetPtr, h]
    · simp only [KISS_QUEUE_GetPtr, if_neg h]
      exact ⟨trivial, trivial, trivial, trivial, trivial⟩
    · intro _
      simp only [KISS_QUEUE_PeekPtr, KISS_QUEUE_GetPtr, if_neg h]
      exact ⟨trivial, trivial, trivial⟩
    · simp only [KISS_QUEUE_GetPtr, if_neg h]
    · simp only [KISS_QUEUE_GetPtr, if_neg h]
    · simp only [KISS_QUEUE_GetPtr, if_neg h]

/-- Witness of `C18_getptr_pins_peekptr_does_not`: a queue holding one 4-byte item. -/
theorem C18_getptr_pins_peekptr_does_not_witness :
    (KISS_QUEUE_PeekPtr (KISS_QUEUE_Put (KISS_QUEUE_Create zeroMem 32) (bytes [1, 2, 3, 4])
      4).1).2 = some 8 ∧
    (KISS_QUEUE_GetPtr (KISS_QUEUE_Put (KISS_QUEUE_Create zeroMem 32) (bytes [1, 2, 3, 4])
      4).1).2.2 = some 8 ∧
    KISS_QUEUE_IsInUse (KISS_QUEUE_GetPtr (KISS_QUEUE_Put (KISS_QUEUE_Create zeroMem 32)
      (bytes [1, 2, 3, 4]) 4).1).1 = true ∧
    (queueQuery (queueQuery (KISS_QUEUE_Put (KISS_QUEUE_Create zeroMem 32)
        (bytes [1, 2, 3, 4]) 4).1 QueueQuery.isInUse).1 QueueQuery.isInUse).2
      = (queueQuery (KISS_QUEUE_Put (KISS_QUEUE_Create zeroMem 32) (bytes [1, 2, 3, 4])
        4).1 QueueQuery.isInUse).2 :=
  ⟨((C18_getptr_pins_peekptr_does_not (KISS_QUEUE_Put (KISS_QUEUE_Create zeroMem 32)
      (bytes [1, 2, 3, 4]) 4).1).2.2.1 (by decide)).1,
   ((C18_getptr_pins_peekptr_does_not (KISS_QUEUE_Put (KISS_QUEUE_Create zeroMem 32)
      (bytes [1, 2, 3, 4]) 4).1).2.2.1 (by decide)).2,
   ((C18_getptr_pins_peekptr_does_not (KISS_QUEUE_Put (KISS_QUEUE_Create zeroMem 32)
      (bytes [1, 2, 3, 4]) 4).1).2.2.2.1 (by decide) (by decide)).2,
   ((C18_getptr_pins_peekptr_does_not (KISS_QUEUE_Put (KISS_QUEUE_Create zeroMem 32)
      (bytes [1, 2, 3, 4]) 4).1).2.2.2.2.2.2.1 QueueQuery.isInUse).2⟩

/-- C19 (code defect): 64-byte zero-filled buffer, one put of 4 bytes, `KISS_QUEUE_Clear`,
one put of 2 bytes. `Clear` resets `oHead`, `oTail` and `NumElements` and leaves the buffer
alone, so the stale header at offset 0 still says that the next record goes to offset 12:
the put returns 0 and stores its record there, while `oHead` stays 0. The item count is 1,
but `GetItemSize` is 4 and `GetPtr` hands out offset 8, the bytes of the old payload. -/
theorem C19_put_after_clear_reads_stale_record :
    (KISS_QUEUE_Clear (KISS_QUEUE_Put (KISS_QUEUE_Create zeroMem 64) (bytes [1, 2, 3, 4])
      4).1).oHead = 0 ∧
    (KISS_QUEUE_Clear (KISS_QUEUE_Put (KISS_QUEUE_Create zeroMem 64) (bytes [1, 2, 3, 4])
      4).1).oTail = 0 ∧
    (KISS_QUEUE_Clear (KISS_QUEUE_Put (KISS_QUEUE_Create zeroMem 64) (bytes [1, 2, 3, 4])
      4).1).NumElements = 0 ∧
    (KISS_QUEUE_Put (KISS_QUEUE_Clear (KISS_QUEUE_Put (KISS_QUEUE_Create zeroMem 64)
      (bytes [1, 2, 3, 4]) 4).1) (bytes [9, 9]) 2).2 = 0 ∧
    (KISS_QUEUE_Put (KISS_QUEUE_Clear (KISS_QUEUE_Put (KISS_QUEUE_Create zeroMem 64)
      (bytes [1, 2, 3, 4]) 4).1) (bytes [9, 9]) 2).1.oTail = 12 ∧
    (getOne (KISS_QUEUE_Put (KISS_QUEUE_Clear (KISS_QUEUE_Put (KISS_QUEUE_Create zeroMem 64)
      (bytes [1, 2, 3, 4]) 4).1) (bytes [9, 9]) 2).1 2).2
      = { size := 4, rc := 0, data := some [1, 2], cntBefore := 1, cntAfter := 0 } ∧
    (KISS_QUEUE_GetPtr (KISS_QUEUE_Put (KISS_QUEUE_Clear (KISS_QUEUE_Put
      (KISS_QUEUE_Create zeroMem 64) (bytes [1, 2, 3, 4]) 4).1) (bytes [9, 9]) 2).1).2.2
      = some 8 ∧
    readBytes (KISS_QUEUE_Put (KISS_QUEUE_Clear (KISS_QUEUE_Put (KISS_QUEUE_Create zeroMem 64)
      (bytes [1, 2, 3, 4]) 4).1) (bytes [9, 9]) 2).1.pBuffer 20 2 = [9, 9] := by
  decide

/-- C20 (code defect): three 32-byte buffers that differ in their first byte (0, 16, 30)
and the same put of 4 bytes after `KISS_QUEUE_Create`. `__alloc_item` takes the write
position from the first four bytes of the buffer: over the zero-filled buffer the record
goes to offset 0 and the retrieval observes size 4 and the payload; with first byte 16
the record goes to offset 16 and the retrieval observes size 0 and zero bytes; with first
byte 30 the put is refused although `8 + 4 ≤ 32`. -/
theorem C20_create_depends_on_buffer_contents :
    (KISS_QUEUE_Put (KISS_QUEUE_Create zeroMem 32) (bytes [7, 7, 7, 7]) 4).2 = 0 ∧
    (KISS_QUEUE_Put (KISS_QUEUE_Create zeroMem 32) (bytes [7, 7, 7, 7]) 4).1.oTail = 0 ∧
    (getOne (KISS_QUEUE_Put (KISS_QUEUE_Create zeroMem 32) (bytes [7, 7, 7, 7]) 4).1 4).2
      = { size := 4, rc := 0, data := some [7, 7, 7, 7], cntBefore := 1, cntAfter := 0 } ∧
    (KISS_QUEUE_Put (KISS_QUEUE_Create (writeByte zeroMem 0 16) 32) (bytes [7, 7, 7, 7])
      4).2 = 0 ∧
    (KISS_QUEUE_Put (KISS_QUEUE_Create (writeByte zeroMem 0 16) 32) (bytes [7, 7, 7, 7])
      4).1.oTail = 16 ∧
    (getOne (KISS_QUEUE_Put (KISS_QUEUE_Create (writeByte zeroMem 0 16) 32)
      (bytes [7, 7, 7, 7]) 4).1 4).2
      = { size := 0, rc := 0, data := some [0, 0, 0, 0], cntBefore := 1, cntAfter := 0 } ∧
    sizeofItem + 4 ≤ 32 ∧
    (KISS_QUEUE_Put (KISS_QUEUE_Create (writeByte zeroMem 0 30) 32) (bytes [7, 7, 7, 7])
      4).2 = 1 := by
  decide

/-- C21 (code defect): 32-byte zero-filled buffer; a put of 12 bytes, its retrieval
(`GetPtr`, `Purge`), then a put of 8 bytes. The second put is accepted and wraps to
offset 0 while the queue is empty, and `oHead` stays at 20: with `NumElements = 1` the
chain of `0` steps from `oHead` ends at 20, not at `oTail = 0`, and offset 20 is not the
start of a record (the record of the second put is at offset 0). -/
theorem C21_chain_broken_by_wrap_while_empty :
    (queueRun (KISS_QUEUE_Create zeroMem 32)
      [QueueOp.put [1, 2, 3, 4, 5, 6, 7, 8, 9, 10, 11, 12], QueueOp.getPtr, QueueOp.purge,
       QueueOp.put [21, 22, 23, 24, 25, 26, 27, 28]]).NumElements = 1 ∧
    (queueRun (KISS_QUEUE_Create zeroMem 32)
      [QueueOp.put [1, 2, 3, 4, 5, 6, 7, 8, 9, 10, 11, 12], QueueOp.getPtr, QueueOp.purge,
       QueueOp.put [21, 22, 23, 24, 25, 26, 27, 28]]).oTail = 0 ∧
    walk (queueRun (KISS_QUEUE_Create zeroMem 32)
      [QueueOp.put [1, 2, 3, 4, 5, 6, 7, 8, 9, 10, 11, 12], QueueOp.getPtr, QueueOp.purge,
       QueueOp.put [21, 22, 23, 24, 25, 26, 27, 28]]).pBuffer
      (queueRun (KISS_QUEUE_Create zeroMem 32)
      [QueueOp.put [1, 2, 3, 4, 5, 6, 7, 8, 9, 10, 11, 12], QueueOp.getPtr, QueueOp.purge,
       QueueOp.put [21, 22, 23, 24, 25, 26, 27, 28]]).oHead (1 - 1) = 20 ∧
    readBytes (queueRun (KISS_QUEUE_Create zeroMem 32)
      [QueueOp.put [1, 2, 3, 4, 5, 6, 7, 8, 9, 10, 11, 12], QueueOp.getPtr, QueueOp.purge,
       QueueOp.put [21, 22, 23, 24, 25, 26, 27, 28]]).pBuffer 0 16
      = [16, 0, 0, 0, 8, 0, 0, 0, 21, 22, 23, 24, 25, 26, 27, 28] ∧
    readBytes (queueRun (KISS_QUEUE_Create zeroMem 32)
      [QueueOp.put [1, 2, 3, 4, 5, 6, 7, 8, 9, 10, 11, 12], QueueOp.getPtr, QueueOp.purge,
       QueueOp.put [21, 22, 23, 24, 25, 26, 27, 28]]).pBuffer 20 8
      = [0, 0, 0, 0, 0, 0, 0, 0] := by
  decide

/-- C22: for every queue state and every non-`NULL` source list whose chunks `0 .. m-1`
have a total length below `2^32`, `KISS_QUEUE_PutEx` returns the same code and leaves the
same queue object and buffer as `KISS_QUEUE_Put` of the concatenation of the chunks; for
chunks given as byte strings `cs` the concatenation is the flattened list. `PutEx` with a
`NULL` list returns 1 and changes nothing. -/
theorem C22_putex_is_put_of_concatenation (q : KISS_QUEUE)
    (l : Nat → KISS_QUEUE_SRCLIST) (m : Nat) (cs : List (List Nat))
    (h : srcTotal l m < U32) (hcs : cs.flatten.length < U32) :
    KISS_QUEUE_PutEx q (some l) m = KISS_QUEUE_Put q (concatSrc l m) (srcTotal l m) ∧
    KISS_QUEUE_PutEx q (some (srcListOf cs)) cs.length
      = KISS_QUEUE_Put q (bytes cs.flatten) cs.flatten.length ∧
    KISS_QUEUE_PutEx q none m = (q, 1) := by
  have key : ∀ (l2 : Nat → KISS_QUEUE_SRCLIST) (k : Nat), srcTotal l2 k < U32 →
      KISS_QUEUE_PutEx q (some l2) k
        = KISS_QUEUE_Put q (concatSrc l2 k) (srcTotal l2 k) := by
    intro l2 k hk
    simp only [KISS_QUEUE_PutEx, KISS_QUEUE_Put, srcListSize_eq, Nat.mod_eq_of_lt hk]
    rcases hr : __alloc_item q (srcTotal l2 k) with ⟨q1, _ | pDest⟩
    · rfl
    · simp only [srcListCopy_eq]
  obtain ⟨t1, t2⟩ := concatSrc_srcListOf cs cs.length (le_refl _)
  rw [List.take_length] at t1 t2
  refine ⟨key l m h, ?_, rfl⟩
  rw [key (srcListOf cs) cs.length (by rw [t1]; exact hcs), t1]
  simp only [KISS_QUEUE_Put]
  rcases hr : __alloc_item q cs.flatten.length with ⟨q1, _ | pDest⟩
  · rfl
  · simp only
    congr 2
    funext x
    simp only [memcpy]
    by_cases hx : pDest ≤ x ∧ x < pDest + cs.flatten.length
    · rw [if_pos hx, if_pos hx]
      exact t2 (x - pDest) (by rw [t1]; omega)
    · rw [if_neg hx, if_neg hx]

/-- Witness of `C22_putex_is_put_of_concatenation`: the chunks `[1, 2]`, `[]`, `[3, 4, 5]`
put into a queue over a 64-byte zero-filled buffer that already holds one item; the
retrieval of the second item observes 5 bytes `1, 2, 3, 4, 5`. -/
theorem C22_putex_is_put_of_concatenation_witness :
    KISS_QUEUE_PutEx (KISS_QUEUE_Put (KISS_QUEUE_Create zeroMem 64) (bytes [9]) 1).1
        (some (srcListOf [[1, 2], [], [3, 4, 5]])) 3
      = KISS_QUEUE_Put (KISS_QUEUE_Put (KISS_QUEUE_Create zeroMem 64) (bytes [9]) 1).1
        (bytes [1, 2, 3, 4, 5]) 5 ∧
    (getAll (KISS_QUEUE_PutEx (KISS_QUEUE_Put (KISS_QUEUE_Create zeroMem 64) (bytes [9]) 1).1
        (some (srcListOf [[1, 2], [], [3, 4, 5]])) 3).1 [1, 5]).2
      = [{ size := 1, rc := 0, data := some [9], cntBefore := 2, cntAfter := 1 },
         { size := 5, rc := 0, data := some [1, 2, 3, 4, 5], cntBefore := 1, cntAfter := 0 }] :=
  ⟨(C22_putex_is_put_of_concatenation _ (srcListOf [[1, 2], [], [3, 4, 5]]) 3
      [[1, 2], [], [3, 4, 5]] (by decide) (by decide)).2.1,
   by decide⟩

/-- C23: on a queue freshly created over a zero-filled buffer, for every `Size` with
`8 + Size < 2^32`, `KISS_QUEUE_Put` returns 0 exactly when `8 + Size ≤ TotalSize`; a
refused put leaves the queue as created. -/
theorem C23_size_check_on_fresh_queue (TotalSize Size : Nat) (pSrc : Mem)
    (h : 8 + Size < U32) :
    ((KISS_QUEUE_Put (KISS_QUEUE_Create zeroMem TotalSize) pSrc Size).2 = 0 ↔
      8 + Size ≤ TotalSize) ∧
    (¬ 8 + Size ≤ TotalSize →
      (KISS_QUEUE_Put (KISS_QUEUE_Create zeroMem TotalSize) pSrc Size).1
        = KISS_QUEUE_Create zeroMem TotalSize) := by
  have e1 : (0 + sizeofItem + Size) % U32 = 8 + Size := by
    rw [Nat.mod_eq_of_lt (by unfold sizeofItem; omega)]
    unfold sizeofItem; omega
  simp only [KISS_QUEUE_Put, __alloc_item, KISS_QUEUE_Create, read32_zeroMem, e1]
  by_cases hf : 8 + Size ≤ TotalSize
  · rw [if_pos (Or.inl hf)]
    simp [placeItem, hf]
  · rw [if_neg (by omega), if_neg (by omega)]
    simp [hf]

/-- Witness of `C23_size_check_on_fresh_queue`: with `TotalSize = 1024` a payload of 1024
bytes is refused and a payload of 512 bytes is then accepted. -/
theorem C23_size_check_on_fresh_queue_witness :
    (KISS_QUEUE_Put (KISS_QUEUE_Create zeroMem 1024) zeroMem 1024).2 ≠ 0 ∧
    (KISS_QUEUE_Put (KISS_QUEUE_Put (KISS_QUEUE_Create zeroMem 1024) zeroMem 1024).1
      zeroMem 512).2 = 0 :=
  ⟨fun h0 => absurd ((C23_size_check_on_fresh_queue 1024 1024 zeroMem (by decide)).1.mp h0)
      (by decide),
   by
    rw [(C23_size_check_on_fresh_queue 1024 1024 zeroMem (by decide)).2 (by decide)]
    exact (C23_size_check_on_fresh_queue 1024 512 zeroMem (by decide)).1.mpr (by decide)⟩

/-- C24 (as stated, refuted): 32-byte zero-filled buffer; a put of 12 bytes and its
retrieval leave the queue empty with head and write position at offset 20. A payload of
24 bytes fits the buffer (`8 + 24 ≤ 32`) and `KISS_QUEUE_Put` returns 1. -/
theorem C24_empty_queue_refuses_fitting_record :
    KISS_QUEUE_GetItemCnt (queueRun (KISS_QUEUE_Create zeroMem 32)
      [QueueOp.put [1, 2, 3, 4, 5, 6, 7, 8, 9, 10, 11, 12], QueueOp.getPtr, QueueOp.purge])
      = 0 ∧
    (queueRun (KISS_QUEUE_Create zeroMem 32)
      [QueueOp.put [1, 2, 3, 4, 5, 6, 7, 8, 9, 10, 11, 12], QueueOp.getPtr,
       QueueOp.purge]).oHead = 20 ∧
    8 + 24 ≤ (queueRun (KISS_QUEUE_Create zeroMem 32)
      [QueueOp.put [1, 2, 3, 4, 5, 6, 7, 8, 9, 10, 11, 12], QueueOp.getPtr,
       QueueOp.purge]).TotalSize ∧
    (KISS_QUEUE_Put (queueRun (KISS_QUEUE_Create zeroMem 32)
      [QueueOp.put [1, 2, 3, 4, 5, 6, 7, 8, 9, 10, 11, 12], QueueOp.getPtr, QueueOp.purge])
      zeroMem 24).2 = 1 := by
  decide

/-- C24 (amended): in every queue state, so in every state reachable from
`KISS_QUEUE_Create` in which `GetItemCnt` is 0, `KISS_QUEUE_Put` returns 0 for a payload
that fits behind the write position `w`, the next-offset stored in the header at `oTail`
(`w + 8 + Size ≤ TotalSize`), or strictly before the head (`8 + Size < oHead`). -/
theorem C24_put_accepted_behind_write_position (q : KISS_QUEUE) (pSrc : Mem) (Size : Nat)
    (h : read32 q.pBuffer q.oTail + 8 + Size ≤ q.TotalSize ∨ 8 + Size < q.oHead) :
    (KISS_QUEUE_Put q pSrc Size).2 = 0 := by
  simp only [KISS_QUEUE_Put, __alloc_item]
  by_cases h1 : (read32 q.pBuffer q.oTail + sizeofItem + Size) % U32 ≤ q.TotalSize ∨
      (read32 q.pBuffer q.oTail + sizeofItem + Size) % U32 ≤ q.oHead
  · rw [if_pos h1]
    simp [placeItem]
  · rw [if_neg h1]
    have h2 : 0 + sizeofItem + Size < q.oHead := by
      rcases h with h | h
      · exfalso
        apply h1
        left
        exact le_trans (Nat.mod_le _ _) (by unfold sizeofItem; omega)
      · unfold sizeofItem; omega
    rw [if_pos h2]
    simp [placeItem]

/-- Witness of `C24_put_accepted_behind_write_position`: in the empty queue left by a put
of 12 bytes and its retrieval on a 32-byte buffer (head and write position 20), a payload
of 4 bytes fits behind the write position and a payload of 8 bytes fits before the
head. -/
theorem C24_put_accepted_behind_write_position_witness :
    (KISS_QUEUE_Put (queueRun (KISS_QUEUE_Create zeroMem 32)
      [QueueOp.put [1, 2, 3, 4, 5, 6, 7, 8, 9, 10, 11, 12], QueueOp.getPtr, QueueOp.purge])
      zeroMem 4).2 = 0 ∧
    (KISS_QUEUE_Put (queueRun (KISS_QUEUE_Create zeroMem 32)
      [QueueOp.put [1, 2, 3, 4, 5, 6, 7, 8, 9, 10, 11, 12], QueueOp.getPtr, QueueOp.purge])
      zeroMem 8).2 = 0 :=
  ⟨C24_put_accepted_behind_write_position _ zeroMem 4 (Or.inl (by decide)),
   C24_put_accepted_behind_write_position _ zeroMem 8 (Or.inr (by decide))⟩

/-- C25 (code defect): pool of 3 blocks of `2^31 + 1` bytes at address 4096. The first
round allocates the 3 blocks (4096, 2147487745 and, the 32-bit offset `2 * (2^31 + 1)`
having wrapped to 2, 4098) and frees them in that order, a valid usage; `MaxUsed` is 3.
The allocations of the second round return 4096, then 4097, which is no block of the
pool, then 16, for which `KISS_BLOCKPOOL_IsInPool` is false. With blocks of `2^31` bytes
the third allocation of the first round returns 4096 again, and after the three frees the
second and the third allocation of the second round return `NULL`. -/
theorem C25_second_round_fails_in_large_pool :
    (allocN (KISS_BLOCKPOOL_Create zeroMem 4096 3 2147483649) 3).2
      = [4096, 2147487745, 4098] ∧
    held (KISS_BLOCKPOOL_Create zeroMem 4096 3 2147483649) []
      [PoolOp.alloc, PoolOp.alloc, PoolOp.alloc, PoolOp.free 4096, PoolOp.free 2147487745,
       PoolOp.free 4098] = some [] ∧
    (poolRun (KISS_BLOCKPOOL_Create zeroMem 4096 3 2147483649)
      [PoolOp.alloc, PoolOp.alloc, PoolOp.alloc, PoolOp.free 4096, PoolOp.free 2147487745,
       PoolOp.free 4098]).MaxUsed = 3 ∧
    (allocN (poolRun (KISS_BLOCKPOOL_Create zeroMem 4096 3 2147483649)
      [PoolOp.alloc, PoolOp.alloc, PoolOp.alloc, PoolOp.free 4096, PoolOp.free 2147487745,
       PoolOp.free 4098]) 3).2 = [4096, 4097, 16] ∧
    KISS_BLOCKPOOL_IsInPool (allocN (poolRun (KISS_BLOCKPOOL_Create zeroMem 4096 3 2147483649)
      [PoolOp.alloc, PoolOp.alloc, PoolOp.alloc, PoolOp.free 4096, PoolOp.free 2147487745,
       PoolOp.free 4098]) 3).1 16 = false ∧
    (allocN (KISS_BLOCKPOOL_Create zeroMem 4096 3 2147483648) 3).2
      = [4096, 2147487744, 4096] ∧
    held (KISS_BLOCKPOOL_Create zeroMem 4096 3 2147483648) []
      [PoolOp.alloc, PoolOp.alloc, PoolOp.alloc, PoolOp.free 4096, PoolOp.free 2147487744,
       PoolOp.free 4096] = some [] ∧
    (allocN (poolRun (KISS_BLOCKPOOL_Create zeroMem 4096 3 2147483648)
      [PoolOp.alloc, PoolOp.alloc, PoolOp.alloc, PoolOp.free 4096, PoolOp.free 2147487744,
       PoolOp.free 4096]) 3).2 = [4096, 0, 0] := by
  decide

/-- C26 (as stated, refuted): the getters return `int`; a pool created with `2^31` blocks
reports `-2^31` blocks, and one created with blocks of `2^31` bytes reports a block size
of `-2^31`. -/
theorem C26_getters_of_large_pool :
    (2147483648 : Nat) < U32 ∧
    KISS_BLOCKPOOL_GetNumBlocks (KISS_BLOCKPOOL_Create zeroMem 4096 2147483648 1)
      = -2147483648 ∧
    KISS_BLOCKPOOL_GetBlockSize (KISS_BLOCKPOOL_Create zeroMem 4096 1 2147483648)
      = -2147483648 := by
  decide

/-- C26 (amended): after `KISS_BLOCKPOOL_Create(pool, N, B)` with `N < 2^31` and
`B < 2^31`, `GetNumBlocks` is `N`, `GetBlockSize` is `B`, `GetMaxUsed` is 0,
`GetNumFreeBlocks` is `N`, `pHead = pTail = NULL`, every one of the `N * B` bytes of the
buffer holds `0xCD`, and no other byte of memory has changed. -/
theorem C26_pool_creation (mem : Mem) (pPool N B : Nat) (hN : N < 2147483648)
    (hB : B < 2147483648) :
    KISS_BLOCKPOOL_GetNumBlocks (KISS_BLOCKPOOL_Create mem pPool N B) = N ∧
    KISS_BLOCKPOOL_GetBlockSize (KISS_BLOCKPOOL_Create mem pPool N B) = B ∧
    KISS_BLOCKPOOL_GetMaxUsed (KISS_BLOCKPOOL_Create mem pPool N B) = 0 ∧
    KISS_BLOCKPOOL_GetNumFreeBlocks (KISS_BLOCKPOOL_Create mem pPool N B) = N ∧
    (KISS_BLOCKPOOL_Create mem pPool N B).pHead = 0 ∧
    (KISS_BLOCKPOOL_Create mem pPool N B).pTail = 0 ∧
    (∀ a, pPool ≤ a → a < pPool + N * B →
      (KISS_BLOCKPOOL_Create mem pPool N B).mem a = 0xCD) ∧
    (∀ a, ¬ (pPool ≤ a ∧ a < pPool + N * B) →
      (KISS_BLOCKPOOL_Create mem pPool N B).mem a = mem a) := by
  have hNB : N * B % U64 = N * B := by
    apply Nat.mod_eq_of_lt
    have : N * B < 2147483648 * 2147483648 := Nat.mul_lt_mul'' hN hB
    unfold U64; omega
  have hN32 : N < U32 := by unfold U32; omega
  refine ⟨?_, ?_, ?_, ?_, rfl, rfl, ?_, ?_⟩
  · exact toInt_small N hN
  · exact toInt_small B hB
  · exact toInt_small 0 (by decide)
  · unfold KISS_BLOCKPOOL_GetNumFreeBlocks
    show toInt ((N + U32 - 0) % U32) = N
    rw [sub32 N 0 (Nat.zero_le _) hN32, toInt_small _ (by omega)]
    simp
  · intro a h1 h2
    show memset mem pPool 0xCDCDCDCD (N * B % U64) a = 0xCD
    rw [hNB]
    unfold memset
    rw [if_pos ⟨h1, h2⟩]
  · intro a h1
    show memset mem pPool 0xCDCDCDCD (N * B % U64) a = mem a
    rw [hNB]
    unfold memset
    rw [if_neg h1]

/-- Witness of `C26_pool_creation`: 32 blocks of 64 bytes at address 4096, the pool of
the creation test of the repository; the last byte of the buffer is at 6143. -/
theorem C26_pool_creation_witness :
    KISS_BLOCKPOOL_GetNumBlocks (KISS_BLOCKPOOL_Create zeroMem 4096 32 64) = 32 ∧
    KISS_BLOCKPOOL_GetBlockSize (KISS_BLOCKPOOL_Create zeroMem 4096 32 64) = 64 ∧
    KISS_BLOCKPOOL_GetNumFreeBlocks (KISS_BLOCKPOOL_Create zeroMem 4096 32 64) = 32 ∧
    (KISS_BLOCKPOOL_Create zeroMem 4096 32 64).mem 6143 = 0xCD :=
  ⟨(C26_pool_creation zeroMem 4096 32 64 (by decide) (by decide)).1,
   (C26_pool_creation zeroMem 4096 32 64 (by decide) (by decide)).2.1,
   (C26_pool_creation zeroMem 4096 32 64 (by decide) (by decide)).2.2.2.1,
   (C26_pool_creation zeroMem 4096 32 64 (by decide) (by decide)).2.2.2.2.2.2.1 6143
     (by decide) (by decide)⟩

/-- C27 (as stated, refuted): ring of one slot with items of 2 bytes over a zero-filled
buffer. `Put` of `[1, 2]` and `Get` deliver `[1, 2]`; then `Put1` with a pointer to
`[7, 8]` returns 0 and the following `Get` delivers `[7, 2]`: `Put1` stores one byte and
the item delivered is not the one a list model holds. -/
theorem C27_put1_stores_one_byte :
    (ringRun (KISS_RING_Create 2 1 zeroMem)
      [RingOp.put (bytes [1, 2]), RingOp.get, RingOp.put1 (bytes [7, 8]), RingOp.get]).2
      = [{ rc := 0, data := [], cnt := 1 }, { rc := 0, data := [1, 2], cnt := 0 },
         { rc := 0, data := [], cnt := 1 }, { rc := 0, data := [7, 2], cnt := 0 }] ∧
    (ringRun (KISS_RING_Create 2 1 zeroMem)
      [RingOp.put (bytes [1, 2]), RingOp.get, RingOp.put1 (bytes [7, 8]), RingOp.get]).2
      ≠ (modelRun 1 2 []
      [RingOp.put (bytes [1, 2]), RingOp.get, RingOp.put1 (bytes [7, 8]), RingOp.get]).2 := by
  decide

/-- C27 (amended): for a ring created with items of `s ≥ 1` bytes and `MaxCount = m` with
`1 ≤ m < 2^31` and `m * s ≤ 2^32`, and every sequence of `Put`, `PutFront`, `Get` and
`Get1` calls, and of `Put1` and `PutFront1` calls when `s = 1`, all with valid pointers,
every call returns the code, delivers the bytes and leaves the item count of the list
model of capacity `m`; a put on a ring whose model holds `m` items changes nothing. -/
theorem C27_ring_is_bounded_fifo (buf : Mem) (s m : Nat) (ops : List RingOp) (hs : 1 ≤ s)
    (hm1 : 1 ≤ m) (hm : m < 2147483648) (hsz : m * s ≤ U32)
    (hc : ∀ op ∈ ops, op.isChar = true → s = 1) :
    (ringRun (KISS_RING_Create s m buf) ops).2 = (modelRun m s [] ops).2 ∧
    KISS_RING_GetItemCnt (ringRun (KISS_RING_Create s m buf) ops).1
      = (modelRun m s [] ops).1.length ∧
    ((modelRun m s [] ops).1.length = m → ∀ e : Mem,
      KISS_RING_Put (ringRun (KISS_RING_Create s m buf) ops).1 e
        = ((ringRun (KISS_RING_Create s m buf) ops).1, 1) ∧
      KISS_RING_Put1 (ringRun (KISS_RING_Create s m buf) ops).1 e
        = ((ringRun (KISS_RING_Create s m buf) ops).1, 1)) := by
  obtain ⟨r1, r2⟩ := ring_run_refines m s hs hm hsz ops (KISS_RING_Create s m buf) [] hc
    (create_holds s m buf hm1)
  refine ⟨r1, cnt_of_holds m s _ _ hm r2, ?_⟩
  intro hfull e
  obtain ⟨a1, a2, a3, a4, a5, a6, a7⟩ := r2
  obtain ⟨f1, f2, f3, f4⟩ := put_full (ringRun (KISS_RING_Create s m buf) ops).1 e
    (by rw [a3, a1, hfull])
  exact ⟨f1, f2⟩

/-- Witness of `C27_ring_is_bounded_fifo`: ring of 2 one-byte items; two puts, a refused
third put, a retrieval, a put that wraps to slot 0, two retrievals and a refused one. -/
theorem C27_ring_is_bounded_fifo_witness :
    (ringRun (KISS_RING_Create 1 2 zeroMem)
      [RingOp.put1 (bytes [97]), RingOp.put (bytes [98]), RingOp.put1 (bytes [99]),
       RingOp.get1, RingOp.put1 (bytes [100]), RingOp.get, RingOp.get1, RingOp.get1]).2
      = [{ rc := 0, data := [], cnt := 1 }, { rc := 0, data := [], cnt := 2 },
         { rc := 1, data := [], cnt := 2 }, { rc := 0, data := [97], cnt := 1 },
         { rc := 0, data := [], cnt := 2 }, { rc := 0, data := [98], cnt := 1 },
         { rc := 0, data := [100], cnt := 0 }, { rc := 1, data := [], cnt := 0 }] :=
  (C27_ring_is_bounded_fifo zeroMem 1 2
    [RingOp.put1 (bytes [97]), RingOp.put (bytes [98]), RingOp.put1 (bytes [99]),
     RingOp.get1, RingOp.put1 (bytes [100]), RingOp.get, RingOp.get1, RingOp.get1]
    (by decide) (by decide) (by decide) (by decide) (by decide)).1.trans (by decide)

/-- C28 (as stated, refuted): ring of 2 slots with items of 2 bytes over a zero-filled
buffer; two puts and two retrievals leave it empty. `PutFront1` with a pointer to `[7, 8]`
returns 0 and the next `Get` delivers `[7, 4]`: `PutFront1` stores one byte, the second
byte is what the slot held before. -/
theorem C28_putfront1_stores_one_byte :
    (ringRun (KISS_RING_Create 2 2 zeroMem)
      [RingOp.put (bytes [1, 2]), RingOp.put (bytes [3, 4]), RingOp.get, RingOp.get,
       RingOp.putFront1 (bytes [7, 8]), RingOp.get]).2
      = [{ rc := 0, data := [], cnt := 1 }, { rc := 0, data := [], cnt := 2 },
         { rc := 0, data := [1, 2], cnt := 1 }, { rc := 0, data := [3, 4], cnt := 0 },
         { rc := 0, data := [], cnt := 1 }, { rc := 0, data := [7, 4], cnt := 0 }] := by
  decide

/-- C28 (amended): for a ring created with items of `s ≥ 1` bytes and `MaxCount = m`,
`1 ≤ m < 2^31`, `m * s ≤ 2^32`, in the state reached by any sequence of calls, holding the
items `L` of the list model: when fewer than `m` items are held, `KISS_RING_PutFront` of
`x` returns 0, every following sequence of calls observes what the list model observes
from `x :: L`, and `GetPtr` designates `x`; the same holds for `PutFront1` when `s = 1`.
When `NumUsed = MaxCount` both return 1 and change nothing. Pushing the characters of a
string to the front of a fresh ring of one-byte items, last character first, and draining
it with `Get1` delivers the string. -/
theorem C28_putfront_inserts_at_front (buf : Mem) (s m : Nat) (ops ops2 : List RingOp)
    (e : Mem) (str : List Nat) (hs : 1 ≤ s) (hm1 : 1 ≤ m) (hm : m < 2147483648)
    (hsz : m * s ≤ U32) (hc : ∀ op ∈ ops, op.isChar = true → s = 1)
    (hc2 : ∀ op ∈ ops2, op.isChar = true → s = 1) :
    ((modelRun m s [] ops).1.length < m →
      (KISS_RING_PutFront (ringRun (KISS_RING_Create s m buf) ops).1 e).2 = 0 ∧
      (ringRun (KISS_RING_PutFront (ringRun (KISS_RING_Create s m buf) ops).1 e).1 ops2).2
        = (modelRun m s (readBytes e 0 s :: (modelRun m s [] ops).1) ops2).2 ∧
      ((KISS_RING_GetPtr (KISS_RING_PutFront (ringRun (KISS_RING_Create s m buf) ops).1 e).1
          (some 0)).2.2).map
        (fun p => readBytes
          (KISS_RING_PutFront (ringRun (KISS_RING_Create s m buf) ops).1 e).1.pBuffer p s)
        = some (readBytes e 0 s) ∧
      (s = 1 →
        (KISS_RING_PutFront1 (ringRun (KISS_RING_Create s m buf) ops).1 e).2 = 0 ∧
        (ringRun (KISS_RING_PutFront1 (ringRun (KISS_RING_Create s m buf) ops).1 e).1 ops2).2
          = (modelRun m s ([e 0 % 256] :: (modelRun m s [] ops).1) ops2).2)) ∧
    ((ringRun (KISS_RING_Create s m buf) ops).1.NumUsed
        = (ringRun (KISS_RING_Create s m buf) ops).1.MaxCount →
      KISS_RING_PutFront (ringRun (KISS_RING_Create s m buf) ops).1 e
        = ((ringRun (KISS_RING_Create s m buf) ops).1, 1) ∧
      KISS_RING_PutFront1 (ringRun (KISS_RING_Create s m buf) ops).1 e
        = ((ringRun (KISS_RING_Create s m buf) ops).1, 1)) ∧
    (str.length ≤ m → (∀ c ∈ str, c < 256) →
      ((ringRun (KISS_RING_Create 1 m buf)
          (pushFrontOps str ++ List.replicate str.length RingOp.get1)).2.drop
        str.length).map RingObs.data = str.map (fun c => [c])) := by
  obtain ⟨r1, r2⟩ := ring_run_refines m s hs hm hsz ops (KISS_RING_Create s m buf) [] hc
    (create_holds s m buf hm1)
  refine ⟨?_, ?_, ?_⟩
  · intro hlt
    obtain ⟨p1, p2⟩ := putFront_holds m s _ _ e (by omega) hsz r2 hlt
    obtain ⟨g1, g2, g3⟩ := getPtr_holds m s _ _ _ 0 hsz p2
    refine ⟨p1, (ring_run_refines m s hs hm hsz ops2 _ _ hc2 p2).1, g2, ?_⟩
    intro hs1
    subst hs1
    obtain ⟨q1, q2⟩ := putFront1_holds m _ _ e (by omega) hsz r2 hlt
    exact ⟨q1, (ring_run_refines m 1 hs hm hsz ops2 _ _ hc2 q2).1⟩
  · intro hfull
    obtain ⟨f1, f2, f3, f4⟩ := put_full (ringRun (KISS_RING_Create s m buf) ops).1 e hfull
    exact ⟨f3, f4⟩
  · intro hlen hbyte
    exact pushFront_drain buf m str hm1 hm hlen hbyte

/-- Witness of `C28_putfront_inserts_at_front`: ring of 4 one-byte items holding `b`, `c`;
`PutFront1` of `a`, then three retrievals deliver `a`, `b`, `c`. The string `abc` pushed
to the front of a fresh ring, last character first, is drained as `abc`. -/
theorem C28_putfront_inserts_at_front_witness :
    (ringRun (KISS_RING_PutFront1 (ringRun (KISS_RING_Create 1 4 zeroMem)
        [RingOp.put1 (bytes [98]), RingOp.put1 (bytes [99])]).1 (bytes [97])).1
      [RingOp.get1, RingOp.get1, RingOp.get1]).2
      = [{ rc := 0, data := [97], cnt := 2 }, { rc := 0, data := [98], cnt := 1 },
         { rc := 0, data := [99], cnt := 0 }] ∧
    ((ringRun (KISS_RING_Create 1 4 zeroMem)
        (pushFrontOps [97, 98, 99] ++ List.replicate 3 RingOp.get1)).2.drop 3).map
      RingObs.data = [[97], [98], [99]] :=
  ⟨(((C28_putfront_inserts_at_front zeroMem 1 4
        [RingOp.put1 (bytes [98]), RingOp.put1 (bytes [99])]
        [RingOp.get1, RingOp.get1, RingOp.get1] (bytes [97]) [97, 98, 99]
        (by decide) (by decide) (by decide) (by decide) (by decide) (by decide)).1
      (by decide)).2.2.2 rfl).2.trans (by decide),
   (C28_putfront_inserts_at_front zeroMem 1 4
        [RingOp.put1 (bytes [98]), RingOp.put1 (bytes [99])]
        [RingOp.get1, RingOp.get1, RingOp.get1] (bytes [97]) [97, 98, 99]
        (by decide) (by decide) (by decide) (by decide) (by decide) (by decide)).2.2
      (by decide) (by decide)⟩

/-- C29 (code defect): ring of 4 one-byte items over a zero-filled buffer holding `a`,
`b`; `KISS_RING_GetPtr` returns 0 with the pointer to slot 0 and `UseCount` becomes 1.
With the front locked, `Get1` delivers `a` and moves `oHead` to 1, `PutFront1` moves
`oHead` to 3 and `Clear` moves it to 2. After the `Get1` the matching `Purge` removes `b`,
the item that was not handed out, and the ring is empty. -/
theorem C29_front_not_locked_after_getptr :
    (KISS_RING_GetPtr (ringRun (KISS_RING_Create 1 4 zeroMem)
      [RingOp.put1 (bytes [97]), RingOp.put1 (bytes [98])]).1 (some 0)).2 = (0, some 0) ∧
    (KISS_RING_GetPtr (ringRun (KISS_RING_Create 1 4 zeroMem)
      [RingOp.put1 (bytes [97]), RingOp.put1 (bytes [98])]).1 (some 0)).1.UseCount = 1 ∧
    (KISS_RING_GetPtr (ringRun (KISS_RING_Create 1 4 zeroMem)
      [RingOp.put1 (bytes [97]), RingOp.put1 (bytes [98])]).1 (some 0)).1.oHead = 0 ∧
    (ringStep (KISS_RING_GetPtr (ringRun (KISS_RING_Create 1 4 zeroMem)
      [RingOp.put1 (bytes [97]), RingOp.put1 (bytes [98])]).1 (some 0)).1 RingOp.get1).2
      = { rc := 0, data := [97], cnt := 1 } ∧
    (KISS_RING_Get1 (KISS_RING_GetPtr (ringRun (KISS_RING_Create 1 4 zeroMem)
      [RingOp.put1 (bytes [97]), RingOp.put1 (bytes [98])]).1 (some 0)).1
      (some zeroMem)).1.oHead = 1 ∧
    (KISS_RING_Get (KISS_RING_GetPtr (ringRun (KISS_RING_Create 1 4 zeroMem)
      [RingOp.put1 (bytes [97]), RingOp.put1 (bytes [98])]).1 (some 0)).1
      (some zeroMem)).1.oHead = 1 ∧
    (KISS_RING_PutFront1 (KISS_RING_GetPtr (ringRun (KISS_RING_Create 1 4 zeroMem)
      [RingOp.put1 (bytes [97]), RingOp.put1 (bytes [98])]).1 (some 0)).1
      (bytes [99])).1.oHead = 3 ∧
    (KISS_RING_PutFront (KISS_RING_GetPtr (ringRun (KISS_RING_Create 1 4 zeroMem)
      [RingOp.put1 (bytes [97]), RingOp.put1 (bytes [98])]).1 (some 0)).1
      (bytes [99])).1.oHead = 3 ∧
    (KISS_RING_Clear (KISS_RING_GetPtr (ringRun (KISS_RING_Create 1 4 zeroMem)
      [RingOp.put1 (bytes [97]), RingOp.put1 (bytes [98])]).1 (some 0)).1).oHead = 2 ∧
    (KISS_RING_Purge (KISS_RING_Get1 (KISS_RING_GetPtr (ringRun (KISS_RING_Create 1 4 zeroMem)
      [RingOp.put1 (bytes [97]), RingOp.put1 (bytes [98])]).1 (some 0)).1
      (some zeroMem)).1).NumUsed = 0 ∧
    (KISS_RING_Purge (KISS_RING_Get1 (KISS_RING_GetPtr (ringRun (KISS_RING_Create 1 4 zeroMem)
      [RingOp.put1 (bytes [97]), RingOp.put1 (bytes [98])]).1 (some 0)).1
      (some zeroMem)).1).oHead = 2 := by
  decide

/-- C30 (as stated, refuted): `KISS_ARENA_BytesAllocated` returns `int`. On an arena of
`2^31` bytes at address `2^32`, `KISS_ARENA_Alloc` of `2^31` bytes succeeds
(`0 + 2^31 ≤ 2^31`) and `BytesAllocated` goes from 0 to `-2^31`, not to `2^31`. -/
theorem C30_bytes_allocated_of_large_arena :
    KISS_ARENA_BytesAllocated (KISS_ARENA_Create 4294967296 2147483648) = 0 ∧
    (KISS_ARENA_Alloc (KISS_ARENA_Create 4294967296 2147483648) 2147483648).2 ≠ 0 ∧
    KISS_ARENA_BytesAllocated
      (KISS_ARENA_Alloc (KISS_ARENA_Create 4294967296 2147483648) 2147483648).1
      = -2147483648 := by
  decide

/-- C30 (amended): for an arena of `A < 2^31` bytes over a buffer at an address of at least
`2^32` (so that `top - Size` does not wrap around the address space), in the state reached
by any sequence of `KISS_ARENA_Alloc` and `KISS_ARENA_Clear` calls, `BytesAllocated` lies
between 0 and `A`; `Alloc(Size)` succeeds exactly when `BytesAllocated + Size ≤ A`; on
success `BytesAllocated` grows by exactly `Size` and the result is the previous top minus
`Size`, which becomes the top; on failure the arena is unchanged; `KISS_ARENA_Clear` sets
`BytesAllocated` to 0. -/
theorem C30_arena_accounting (p A : Nat) (ops : List ArenaOp) (Size : Nat)
    (hA : A < 2147483648) (hp : U32 ≤ p) (haddr : p + A ≤ U64) (hS : Size < U32) :
    0 ≤ KISS_ARENA_BytesAllocated (arenaRun (KISS_ARENA_Create p A) ops) ∧
    KISS_ARENA_BytesAllocated (arenaRun (KISS_ARENA_Create p A) ops) ≤ A ∧
    ((KISS_ARENA_Alloc (arenaRun (KISS_ARENA_Create p A) ops) Size).2 ≠ 0 ↔
      KISS_ARENA_BytesAllocated (arenaRun (KISS_ARENA_Create p A) ops) + Size ≤ A) ∧
    ((KISS_ARENA_Alloc (arenaRun (KISS_ARENA_Create p A) ops) Size).2 ≠ 0 →
      KISS_ARENA_BytesAllocated (KISS_ARENA_Alloc (arenaRun (KISS_ARENA_Create p A) ops) Size).1
        = KISS_ARENA_BytesAllocated (arenaRun (KISS_ARENA_Create p A) ops) + Size ∧
      (KISS_ARENA_Alloc (arenaRun (KISS_ARENA_Create p A) ops) Size).2 + Size
        = (arenaRun (KISS_ARENA_Create p A) ops).pArenaTop ∧
      (KISS_ARENA_Alloc (arenaRun (KISS_ARENA_Create p A) ops) Size).1.pArenaTop
        = (KISS_ARENA_Alloc (arenaRun (KISS_ARENA_Create p A) ops) Size).2) ∧
    ((KISS_ARENA_Alloc (arenaRun (KISS_ARENA_Create p A) ops) Size).2 = 0 →
      (KISS_ARENA_Alloc (arenaRun (KISS_ARENA_Create p A) ops) Size).1
        = arenaRun (KISS_ARENA_Create p A) ops) ∧
    KISS_ARENA_BytesAllocated (KISS_ARENA_Clear (arenaRun (KISS_ARENA_Create p A) ops))
      = 0 := by
  have hp1 : 1 ≤ p := by unfold U32 at hp; omega
  have hp32 : 4294967296 ≤ p := hp
  have hS32 : Size < 4294967296 := hS
  have H := arena_run_inv p A ops _ hp haddr (arena_create_inv p A hp1 haddr)
  have hb := arena_bytes p A _ hA hp1 haddr H
  have hal := arena_alloc_inv p A _ Size hp haddr hS H
  have Hc := arena_step_inv p A _ ArenaOp.clear hp haddr H
  have hbc := arena_bytes p A _ hA hp1 haddr Hc
  generalize arenaRun (KISS_ARENA_Create p A) ops = R at *
  obtain ⟨a1, a2, a3, a4⟩ := H
  refine ⟨by rw [hb]; omega, by rw [hb]; omega, ?_, ?_, ?_, ?_⟩
  · rw [hal, hb]
    split_ifs with h
    · simp only
      constructor
      · intro _; omega
      · intro _; omega
    · simp only
      constructor
      · intro h0; exact absurd rfl h0
      · intro h0; omega
  · intro hne
    rw [hal] at hne ⊢
    split_ifs at hne ⊢ with h
    · have Ha : ArenaInv p A { R with pArenaTop := R.pArenaTop - Size } :=
        ⟨a1, a2, by simp only; omega, by simp only; omega⟩
      have e : p + A - 1 - (R.pArenaTop - Size) = (p + A - 1 - R.pArenaTop) + Size := by
        omega
      rw [arena_bytes p A _ hA hp1 haddr Ha, hb]
      simp only
      refine ⟨?_, by omega, trivial⟩
      rw [e]
      push_cast
      rfl
    · exact absurd rfl hne
  · intro h0
    rw [hal] at h0 ⊢
    split_ifs at h0 ⊢ with h
    · simp only at h0
      omega
    · rfl
  · simp only [arenaStep] at hbc
    rw [hbc]
    simp only [KISS_ARENA_Clear, a2]
    simp

/-- Witness of `C30_arena_accounting`: a 64-byte arena at address `2^32` serves 16
allocations of 4 bytes and refuses the 17th. -/
theorem C30_arena_accounting_witness :
    (KISS_ARENA_Alloc (arenaRun (KISS_ARENA_Create 4294967296 64)
      (List.replicate 15 (ArenaOp.alloc 4))) 4).2 ≠ 0 ∧
    KISS_ARENA_BytesAllocated (arenaRun (KISS_ARENA_Create 4294967296 64)
      (List.replicate 16 (ArenaOp.alloc 4))) = 64 ∧
    (KISS_ARENA_Alloc (arenaRun (KISS_ARENA_Create 4294967296 64)
      (List.replicate 16 (ArenaOp.alloc 4))) 4).2 = 0 :=
  ⟨(C30_arena_accounting 4294967296 64 (List.replicate 15 (ArenaOp.alloc 4)) 4 (by decide)
      (by decide) (by decide) (by decide)).2.2.1.mpr (by decide),
   by decide,
   Decidable.byContradiction (fun h0 => absurd
    ((C30_arena_accounting 4294967296 64 (List.replicate 16 (ArenaOp.alloc 4)) 4 (by decide)
      (by decide) (by decide) (by decide)).2.2.1.mp h0) (by decide))⟩


/-- C31 (code defect): 64-byte arena over the buffer `[4096, 4160)`. `KISS_ARENA_Create`
sets `pArena` to the address of the last byte, 4159, and the bounds test of
`KISS_ARENA_Alloc` accepts results down to `pArena - ArenaSize = 4095`. The first
allocation of 4 bytes returns 4155 (the byte 4159 is never handed out), the sixteenth
returns 4095, and one allocation of 64 bytes returns 4095 as well: the range handed out
starts one byte below the buffer. `KISS_ARENA_AllocEx` with alignment 1 does the same. -/
theorem C31_allocation_starts_below_buffer :
    (KISS_ARENA_Create 4096 64).pArena = 4159 ∧
    (KISS_ARENA_Alloc (KISS_ARENA_Create 4096 64) 4).2 = 4155 ∧
    (KISS_ARENA_Alloc (arenaRun (KISS_ARENA_Create 4096 64)
      (List.replicate 15 (ArenaOp.alloc 4))) 4).2 = 4095 ∧
    (KISS_ARENA_Alloc (KISS_ARENA_Create 4096 64) 64).2 = 4095 ∧
    (KISS_ARENA_AllocEx (KISS_ARENA_Create 4096 64) 64 1).2 = 4095 ∧
    ¬ (4096 ≤ (KISS_ARENA_Alloc (KISS_ARENA_Create 4096 64) 64).2) := by
  decide

/-- C32 (code defect): 64-byte arena over a buffer at address `2^32`; the top is
`2^32 + 63` and the lower bound `pArena - ArenaSize` is `2^32 - 1`. For `Size = 4` and
`Alignment = 4` the largest multiple of 4 that is at most `top - Size = 2^32 + 59` is
`2^32 + 56`, not below the lower bound. The mask `~(Alignment - 1)` is a 32-bit value, so
`KISS_ALIGN_DOWN` yields 56 and `KISS_ARENA_AllocEx` returns `NULL` and leaves the arena
as it is. Over a buffer at address 4096 the same call returns 4152. -/
theorem C32_alignment_mask_drops_high_address_bits :
    (KISS_ARENA_Create 4294967296 64).pArenaTop = 4294967296 + 63 ∧
    (4294967296 + 56) % 4 = 0 ∧ 4294967296 + 56 ≤ 4294967296 + 63 - 4 ∧
    4294967296 + 63 - 4 < 4294967296 + 56 + 4 ∧
    ((KISS_ARENA_Create 4294967296 64).pArena + U64
      - (KISS_ARENA_Create 4294967296 64).ArenaSize) % U64 ≤ 4294967296 + 56 ∧
    KISS_ALIGN_DOWN (4294967296 + 63 - 4) 4 = 56 ∧
    KISS_ARENA_AllocEx (KISS_ARENA_Create 4294967296 64) 4 4
      = (KISS_ARENA_Create 4294967296 64, 0) ∧
    (KISS_ARENA_AllocEx (KISS_ARENA_Create 4096 64) 4 4).2 = 4152 := by
  decide

/-- C33 (as stated, refuted for arrays of 2^31 or more elements): with `Count = 2^31`
below the capacity, position 0 is in range, yet `KISS_ARRAY_InsertAt` compares it with
`(int)Count`, which is negative, returns `NULL` and inserts nothing. -/
theorem C33_insert_refused_in_huge_array :
    (2147483648 : Nat) < 4294967295 ∧ (0 : Int) ≤ 0 ∧ (0 : Int) ≤ (2147483648 : Nat) ∧
    (KISS_ARRAY_InsertAt
      { pBuffer := zeroMem, Capacity := 4294967295, Count := 2147483648, ItemSize := 1 }
      0 (some (bytes [7]))).2 = none ∧
    (KISS_ARRAY_InsertAt
      { pBuffer := zeroMem, Capacity := 4294967295, Count := 2147483648, ItemSize := 1 }
      0 (some (bytes [7]))).1.Count = 2147483648 := by
  decide

/-- C33 (amended): for an array with `Count = n < 2^31` whose buffer of
`Capacity * ItemSize` bytes is smaller than 2^32, and a position not below `INT_MIN`:
when `n < Capacity` and the position is `p` with `0 ≤ p ≤ n`, or is negative with
`n + Position + 1 = p ≥ 0`, `KISS_ARRAY_InsertAt` returns the pointer to slot `p` and the
array then holds `a[0..p) ++ [item] ++ a[p..n)` with `Count = n + 1` (zeroes for a `NULL`
item); when the array is full or the position is out of range it returns `NULL` and leaves
the array as it is; `KISS_ARRAY_PutFront` is `InsertAt` at 0 and `KISS_ARRAY_PutBack` is
`InsertAt` at -1. -/
theorem C33_insert_at_position (a : KISS_ARRAY) (Position : Int) (pItem : Option Mem)
    (hn : a.Count < 2147483648) (hsz : a.Capacity * a.ItemSize < U32)
    (hP1 : -2147483648 ≤ Position) :
    (∀ p : Nat, a.Count < a.Capacity → p ≤ a.Count →
      (Position = p ∨ (Position < 0 ∧ (a.Count : Int) + Position + 1 = p)) →
      (KISS_ARRAY_InsertAt a Position pItem).2 = some (p * a.ItemSize) ∧
      arrayItems (KISS_ARRAY_InsertAt a Position pItem).1
        = (arrayItems a).take p ++ [itemBytes pItem a.ItemSize] ++ (arrayItems a).drop p ∧
      (KISS_ARRAY_InsertAt a Position pItem).1.Count = a.Count + 1 ∧
      (KISS_ARRAY_InsertAt a Position pItem).1.Capacity = a.Capacity ∧
      (KISS_ARRAY_InsertAt a Position pItem).1.ItemSize = a.ItemSize) ∧
    ((a.Capacity ≤ a.Count ∨ (a.Count : Int) < Position ∨
        (Position < 0 ∧ (a.Count : Int) + Position + 1 < 0)) →
      KISS_ARRAY_InsertAt a Position pItem = (a, none)) ∧
    KISS_ARRAY_PutFront a pItem = KISS_ARRAY_InsertAt a 0 pItem ∧
    KISS_ARRAY_PutBack a pItem = KISS_ARRAY_InsertAt a (-1) pItem := by
  have e6 : toInt a.Count = (a.Count : Int) := toInt_small _ hn
  refine ⟨?_, ?_, ?_, ?_⟩
  · intro p hcap hp hpos
    have hres : (if Position < 0 then toInt (a.Count + toU32 Position + 1) else Position)
        = (p : Int) := by
      rcases hpos with h | ⟨h1, h2⟩
      · rw [if_neg (by omega)]; exact h
      · rw [if_pos h1]
        have := toInt_relative a.Count Position 1 hn hP1 h1 (le_refl 1)
        rw [this]
        exact h2
    refine ⟨?_, insertAt_items a Position pItem p hn hsz hcap hp hres, ?_, ?_, ?_⟩ <;>
      rw [insertAt_at a Position pItem p hn hsz hcap hp hres]
  · intro h
    unfold KISS_ARRAY_InsertAt
    by_cases hfull : a.Capacity ≤ a.Count
    · rw [if_pos hfull]
    · rw [if_neg hfull, e6]
      rcases h with h | h | ⟨h1, h2⟩
      · exact absurd h hfull
      · have hp0 : ¬ Position < 0 := by omega
        simp only [if_neg hp0]
        rw [if_neg (by omega)]
      · simp only [if_pos h1]
        have := toInt_relative a.Count Position 1 hn hP1 h1 (le_refl 1)
        rw [this]
        rw [if_neg (by push_cast; omega)]
  · unfold KISS_ARRAY_PutFront KISS_ARRAY_InsertAt
    by_cases hfull : a.Capacity ≤ a.Count
    · rw [if_pos hfull, if_pos hfull]
    · rw [if_neg hfull, if_neg hfull, e6]
      have e3 : (a.Count + U32 - 0) % U32 = a.Count := sub32 _ _ (by omega) (by unfold U32; omega)
      have e3b : a.Count % U32 = a.Count := Nat.mod_eq_of_lt (by unfold U32; omega)
      simp [e3, e3b]
  · unfold KISS_ARRAY_PutBack KISS_ARRAY_InsertAt
    by_cases hfull : a.Capacity ≤ a.Count
    · rw [if_pos hfull, if_pos hfull]
    · rw [if_neg hfull, if_neg hfull, e6]
      have hrel := toInt_relative a.Count (-1) 1 hn (by omega) (by omega) (le_refl 1)
      have hrel2 : toInt (a.Count + toU32 (-1) + 1) = (a.Count : Int) := by
        rw [hrel]; push_cast; omega
      have e3 : (a.Count + U32 - a.Count) % U32 = 0 := by
        rw [sub32 _ _ (le_refl _) (by unfold U32; omega)]; omega
      have e4 : (toInt 0).toNat = 0 := by decide
      have hlt : (-1 : Int) < 0 := by decide
      simp only [if_pos hlt, hrel2]
      rw [if_pos ⟨by omega, by omega⟩]
      simp only [Int.toNat_ofNat, e3, __MakeSpaceInArray, e4, makeSpaceLoop]

/-- Witness of `C33_insert_at_position`: on the array holding the 2-byte items 1, 2
(capacity 3), an insertion at position 1 and one at position -1, and a refused insertion
at position 3. -/
theorem C33_insert_at_position_witness :
    arrayItems (KISS_ARRAY_InsertAt (putBackAll (KISS_ARRAY_Create 2 3 zeroMem)
        [[1, 0], [2, 0]]) 1 (some (bytes [9, 9]))).1
      = (arrayItems (putBackAll (KISS_ARRAY_Create 2 3 zeroMem) [[1, 0], [2, 0]])).take 1
        ++ [itemBytes (some (bytes [9, 9])) 2]
        ++ (arrayItems (putBackAll (KISS_ARRAY_Create 2 3 zeroMem) [[1, 0], [2, 0]])).drop 1 ∧
    (KISS_ARRAY_InsertAt (putBackAll (KISS_ARRAY_Create 2 3 zeroMem)
        [[1, 0], [2, 0]]) (-1) none).2 = some (2 * 2) ∧
    KISS_ARRAY_InsertAt (putBackAll (KISS_ARRAY_Create 2 3 zeroMem)
        [[1, 0], [2, 0]]) 3 none
      = (putBackAll (KISS_ARRAY_Create 2 3 zeroMem) [[1, 0], [2, 0]], none) :=
  ⟨((C33_insert_at_position (putBackAll (KISS_ARRAY_Create 2 3 zeroMem) [[1, 0], [2, 0]]) 1
      (some (bytes [9, 9])) (by decide) (by decide) (by decide)).1 1
      (by decide) (by decide) (Or.inl rfl)).2.1,
   ((C33_insert_at_position (putBackAll (KISS_ARRAY_Create 2 3 zeroMem) [[1, 0], [2, 0]]) (-1)
      none (by decide) (by decide) (by decide)).1 2
      (by decide) (by decide) (Or.inr ⟨by decide, by decide⟩)).1,
   (C33_insert_at_position (putBackAll (KISS_ARRAY_Create 2 3 zeroMem) [[1, 0], [2, 0]]) 3
      none (by decide) (by decide) (by decide)).2.1 (Or.inr (Or.inl (by decide)))⟩

/-- C34 (as stated, refuted for arrays of 2^31 or more elements): with `Count = 2^31`,
position 0 is valid, yet `KISS_ARRAY_Erase` compares it with `(int)Count`, which is
negative, returns 0 and erases nothing. -/
theorem C34_erase_refused_in_huge_array :
    (0 : Int) ≤ 0 ∧ (0 : Int) < (2147483648 : Nat) ∧ 0 + 1 < U32 ∧
    (KISS_ARRAY_Erase
      { pBuffer := zeroMem, Capacity := 4294967295, Count := 2147483648, ItemSize := 1 }
      0 1).2 = 0 ∧
    (KISS_ARRAY_Erase
      { pBuffer := zeroMem, Capacity := 4294967295, Count := 2147483648, ItemSize := 1 }
      0 1).1.Count = 2147483648 ∧
    ((2147483648 - min 1 (2147483648 - 0) : Nat) : Int) ≠ 0 := by
  decide

/-- C34 (amended): for an array with `Count = n < 2^31` whose `n * ItemSize` bytes are
fewer than 2^32, and a position not below `INT_MIN`: when the position is `p` with
`0 ≤ p < n`, or is negative with `n + Position = p ≥ 0`, and `p + Num < 2^32`,
`KISS_ARRAY_Erase` removes `k = min(Num, n - p)` elements: it returns `n - k`, the array
then holds `a[0..p) ++ a[p+k..n)` with `Count = n - k`, and the bytes of the `k` vacated
slots at the end are zero; for an empty array or a position out of range it returns 0
and leaves the array as it is. -/
theorem C34_erase_preserves_order (a : KISS_ARRAY) (Position : Int) (Num : Nat)
    (hn : a.Count < 2147483648) (hsz : a.Count * a.ItemSize < U32)
    (hP1 : -2147483648 ≤ Position) :
    (∀ p : Nat, p < a.Count →
      (Position = p ∨ (Position < 0 ∧ (a.Count : Int) + Position = p)) → p + Num < U32 →
      (KISS_ARRAY_Erase a Position Num).2 = ((a.Count - min Num (a.Count - p) : Nat) : Int) ∧
      (KISS_ARRAY_Erase a Position Num).1.Count = a.Count - min Num (a.Count - p) ∧
      arrayItems (KISS_ARRAY_Erase a Position Num).1
        = (arrayItems a).take p ++ (arrayItems a).drop (p + min Num (a.Count - p)) ∧
      (∀ x, (a.Count - min Num (a.Count - p)) * a.ItemSize ≤ x → x < a.Count * a.ItemSize →
        (KISS_ARRAY_Erase a Position Num).1.pBuffer x = 0) ∧
      (KISS_ARRAY_Erase a Position Num).1.Capacity = a.Capacity ∧
      (KISS_ARRAY_Erase a Position Num).1.ItemSize = a.ItemSize) ∧
    ((a.Count = 0 ∨ (a.Count : Int) ≤ Position ∨
        (Position < 0 ∧ (a.Count : Int) + Position < 0)) →
      KISS_ARRAY_Erase a Position Num = (a, 0)) := by
  have e6 : toInt a.Count = (a.Count : Int) := toInt_small _ hn
  refine ⟨?_, ?_⟩
  · intro p hp hpos hnum
    have hres : (if Position < 0 then toInt (a.Count + toU32 Position) else Position)
        = (p : Int) := by
      rcases hpos with h | ⟨h1, h2⟩
      · rw [if_neg (by omega)]; exact h
      · rw [if_pos h1]
        have := toInt_relative a.Count Position 0 hn hP1 h1 (by omega)
        simp only [Nat.add_zero, Nat.cast_zero, add_zero] at this
        rw [this]
        exact h2
    exact erase_valid a Position Num p hn hsz hp hnum hres
  · intro h
    unfold KISS_ARRAY_Erase
    by_cases hc : a.Count > 0
    · rw [if_pos hc, e6]
      rcases h with h | h | ⟨h1, h2⟩
      · omega
      · have hp0 : ¬ Position < 0 := by omega
        simp only [if_neg hp0]
        rw [if_neg (by omega)]
      · simp only [if_pos h1]
        have := toInt_relative a.Count Position 0 hn hP1 h1 (by omega)
        simp only [Nat.add_zero, Nat.cast_zero, add_zero] at this
        rw [this]
        rw [if_neg (by omega)]
    · rw [if_neg hc]

/-- Witness of `C34_erase_preserves_order`: on the array holding the 2-byte items 1, 2, 3,
erasing one element at position 1, erasing five from position -2 (clamped to two), and a
refused erase at position 3. -/
theorem C34_erase_preserves_order_witness :
    arrayItems (KISS_ARRAY_Erase (putBackAll (KISS_ARRAY_Create 2 4 zeroMem)
        [[1, 0], [2, 0], [3, 0]]) 1 1).1
      = (arrayItems (putBackAll (KISS_ARRAY_Create 2 4 zeroMem)
          [[1, 0], [2, 0], [3, 0]])).take 1
        ++ (arrayItems (putBackAll (KISS_ARRAY_Create 2 4 zeroMem)
          [[1, 0], [2, 0], [3, 0]])).drop (1 + min 1 (3 - 1)) ∧
    (KISS_ARRAY_Erase (putBackAll (KISS_ARRAY_Create 2 4 zeroMem)
        [[1, 0], [2, 0], [3, 0]]) (-2) 5).2 = ((3 - min 5 (3 - 1) : Nat) : Int) ∧
    KISS_ARRAY_Erase (putBackAll (KISS_ARRAY_Create 2 4 zeroMem)
        [[1, 0], [2, 0], [3, 0]]) 3 1
      = (putBackAll (KISS_ARRAY_Create 2 4 zeroMem) [[1, 0], [2, 0], [3, 0]], 0) :=
  ⟨((C34_erase_preserves_order (putBackAll (KISS_ARRAY_Create 2 4 zeroMem)
      [[1, 0], [2, 0], [3, 0]]) 1 1 (by decide) (by decide) (by decide)).1 1
      (by decide) (Or.inl rfl) (by decide)).2.2.1,
   ((C34_erase_preserves_order (putBackAll (KISS_ARRAY_Create 2 4 zeroMem)
      [[1, 0], [2, 0], [3, 0]]) (-2) 5 (by decide) (by decide) (by decide)).1 1
      (by decide) (Or.inr ⟨by decide, by decide⟩) (by decide)).1,
   (C34_erase_preserves_order (putBackAll (KISS_ARRAY_Create 2 4 zeroMem)
      [[1, 0], [2, 0], [3, 0]]) 3 1 (by decide) (by decide) (by decide)).2
      (Or.inr (Or.inl (by decide)))⟩

/-- C35: on the array of the five 1-byte elements 1..5, `KISS_ARRAY_Remove` at position 2
with `Num = 2` returns 3, but the array then holds 1, 2, 4: the removed element 4
(position 3) is kept and the element 5, which was not addressed, is lost; the elements
left are not a permutation of the array without positions 2 and 3. With `Num = 1` the
last element fills the hole. -/
theorem C35_remove_drops_an_unaddressed_element :
    arrayItems (putBackAll (KISS_ARRAY_Create 1 8 zeroMem) [[1], [2], [3], [4], [5]])
      = [[1], [2], [3], [4], [5]] ∧
    (KISS_ARRAY_Remove (putBackAll (KISS_ARRAY_Create 1 8 zeroMem)
      [[1], [2], [3], [4], [5]]) 2 2).2 = ((5 - min 2 (5 - 2) : Nat) : Int) ∧
    arrayItems (KISS_ARRAY_Remove (putBackAll (KISS_ARRAY_Create 1 8 zeroMem)
      [[1], [2], [3], [4], [5]]) 2 2).1 = [[1], [2], [4]] ∧
    ¬ List.Perm (arrayItems (KISS_ARRAY_Remove (putBackAll (KISS_ARRAY_Create 1 8 zeroMem)
        [[1], [2], [3], [4], [5]]) 2 2).1)
      ((arrayItems (putBackAll (KISS_ARRAY_Create 1 8 zeroMem)
          [[1], [2], [3], [4], [5]])).take 2
        ++ (arrayItems (putBackAll (KISS_ARRAY_Create 1 8 zeroMem)
          [[1], [2], [3], [4], [5]])).drop (2 + 2)) ∧
    arrayItems (KISS_ARRAY_Remove (putBackAll (KISS_ARRAY_Create 1 8 zeroMem)
      [[1], [2], [3], [4], [5]]) 2 1).1 = [[1], [2], [5], [4]] := by
  decide

/-- C36: on the array of the five 1-byte elements 1..5 with capacity 8,
`KISS_ARRAY_Splice(0, 0, [9], 1)` returns 6 but the array then holds 9, 1, 2, 3, 4, 0:
only `Count - StartIndex - 1` elements are moved up and the element 5 is lost. Moreover
a splice whose new length equals the capacity is refused with -1 (three elements,
capacity 4, one item appended), and a splice with `StartIndex + DeleteCount > Count`
is not refused: `Splice(3, 3, NULL, 0)` returns 2 and leaves 1, 2. Deleting in the
middle and appending at the end work. -/
theorem C36_splice_insertion_loses_last_elements :
    (KISS_ARRAY_Splice (putBackAll (KISS_ARRAY_Create 1 8 zeroMem) [[1], [2], [3], [4], [5]])
      0 0 (bytes [9]) 1).2 = 6 ∧
    arrayItems (KISS_ARRAY_Splice (putBackAll (KISS_ARRAY_Create 1 8 zeroMem)
      [[1], [2], [3], [4], [5]]) 0 0 (bytes [9]) 1).1 = [[9], [1], [2], [3], [4], [0]] ∧
    [[9]] ++ (arrayItems (putBackAll (KISS_ARRAY_Create 1 8 zeroMem)
      [[1], [2], [3], [4], [5]])).drop 0 = [[9], [1], [2], [3], [4], [5]] ∧
    3 - 0 + 1 ≤ 4 ∧
    (KISS_ARRAY_Splice (putBackAll (KISS_ARRAY_Create 1 4 zeroMem) [[1], [2], [3]])
      3 0 (bytes [9]) 1).2 = -1 ∧
    ¬ (3 + 3 ≤ 5) ∧
    (KISS_ARRAY_Splice (putBackAll (KISS_ARRAY_Create 1 8 zeroMem) [[1], [2], [3], [4], [5]])
      3 3 zeroMem 0).2 = 2 ∧
    arrayItems (KISS_ARRAY_Splice (putBackAll (KISS_ARRAY_Create 1 8 zeroMem)
      [[1], [2], [3], [4], [5]]) 3 3 zeroMem 0).1 = [[1], [2]] ∧
    arrayItems (KISS_ARRAY_Splice (putBackAll (KISS_ARRAY_Create 1 8 zeroMem)
      [[1], [2], [3], [4], [5]]) 1 3 (bytes [7]) 1).1 = [[1], [7], [5]] ∧
    arrayItems (KISS_ARRAY_Splice (putBackAll (KISS_ARRAY_Create 1 8 zeroMem)
      [[1], [2], [3], [4], [5]]) (-1) 0 (bytes [7, 8]) 2).1
      = [[1], [2], [3], [4], [5], [7], [8]] := by
  decide

/-- C37: for every queue state and `Size` with `next + 8 + Size < 2^32` and
`NumElements + 1 < 2^32`, where `next` is the next-offset in the header at `oTail`:
if `next + 8 + Size ≤ TotalSize` or `next + 8 + Size ≤ oHead`, `KISS_QUEUE_Put` places the
record at `next`; otherwise, if `8 + Size < oHead`, it places the record at 0 in the
buffer whose old tail header has its next-offset rewritten to 0 (which is what that
header reads afterwards when the new record does not cover it); otherwise it returns 1
and changes nothing. A placement returns 0, writes next-offset `pos + 8 + Size` and the
size into the header at `pos` and the payload behind it, makes `pos` the tail, adds one
to the item count and keeps the head, the use count and every byte outside the record. -/
theorem C37_placement_algorithm (q : KISS_QUEUE) (src : Mem) (Size : Nat)
    (h3 : read32 q.pBuffer q.oTail + sizeofItem + Size < U32)
    (hN : q.NumElements + 1 < U32) :
    ((read32 q.pBuffer q.oTail + sizeofItem + Size ≤ q.TotalSize ∨
        read32 q.pBuffer q.oTail + sizeofItem + Size ≤ q.oHead) →
      PlacedAt q q.pBuffer src Size (read32 q.pBuffer q.oTail) (KISS_QUEUE_Put q src Size)) ∧
    (¬ (read32 q.pBuffer q.oTail + sizeofItem + Size ≤ q.TotalSize ∨
        read32 q.pBuffer q.oTail + sizeofItem + Size ≤ q.oHead) →
      sizeofItem + Size < q.oHead →
      PlacedAt q (write32 q.pBuffer q.oTail 0) src Size 0 (KISS_QUEUE_Put q src Size) ∧
      (sizeofItem + Size ≤ q.oTail →
        read32 (KISS_QUEUE_Put q src Size).1.pBuffer q.oTail = 0)) ∧
    (¬ (read32 q.pBuffer q.oTail + sizeofItem + Size ≤ q.TotalSize ∨
        read32 q.pBuffer q.oTail + sizeofItem + Size ≤ q.oHead) →
      ¬ (sizeofItem + Size < q.oHead) →
      KISS_QUEUE_Put q src Size = (q, 1)) := by
  have hne : (q.NumElements + 1) % U32 = q.NumElements + 1 := Nat.mod_eq_of_lt hN
  refine ⟨?_, ?_, ?_⟩
  · intro hfit
    rw [put_at_next q src Size hfit h3]
    obtain ⟨r1, r2, r3, r4⟩ := record_readback q.pBuffer src (read32 q.pBuffer q.oTail) Size h3
    exact ⟨rfl, r1, r2, r3, r4, rfl, hne, rfl, rfl, rfl⟩
  · intro hno hw
    rw [put_wraps q src Size (by omega) (by omega) h3 hw]
    obtain ⟨r1, r2, r3, r4⟩ := record_readback (write32 q.pBuffer q.oTail 0) src 0 Size (by omega)
    simp only [Nat.zero_add] at r1 r2 r3 r4
    refine ⟨⟨rfl, ?_, ?_, ?_, ?_, rfl, hne, rfl, rfl, rfl⟩, ?_⟩
    · simpa using r1
    · simpa using r2
    · simpa using r3
    · intro x hx
      exact r4 x (by omega)
    · intro ht
      show read32 (memcpy (write32 (write32 (write32 q.pBuffer q.oTail 0) 0 (sizeofItem + Size))
        4 Size) sizeofItem src Size) q.oTail = 0
      rw [read32_congr _ _ q.oTail (fun y h1 h2 => r4 y (by omega)), read32_write32_same]
      rfl
  · intro hno hw
    exact put_rejected q src Size (by omega) (by omega) h3 (by omega)

/-- Witness of `C37_placement_algorithm`: on a 24-byte buffer holding two 4-byte items,
a put is refused after one retirement, wraps to offset 0 after two, and the first put
into the empty buffer is placed at the stored next-offset 0. -/
theorem C37_placement_algorithm_witness :
    PlacedAt (KISS_QUEUE_Create zeroMem 24) zeroMem (bytes [1, 2, 3, 4]) 4 0
      (KISS_QUEUE_Put (KISS_QUEUE_Create zeroMem 24) (bytes [1, 2, 3, 4]) 4) ∧
    read32 (KISS_QUEUE_Put (getAll (putAll (KISS_QUEUE_Create zeroMem 24)
      [[1, 2, 3, 4], [5, 6, 7, 8]]).1 [4, 4]).1 (bytes [9, 9, 9, 9]) 4).1.pBuffer 12 = 0 ∧
    KISS_QUEUE_Put (getAll (putAll (KISS_QUEUE_Create zeroMem 24)
      [[1, 2, 3, 4], [5, 6, 7, 8]]).1 [4]).1 (bytes [9, 9, 9, 9]) 4
      = ((getAll (putAll (KISS_QUEUE_Create zeroMem 24)
        [[1, 2, 3, 4], [5, 6, 7, 8]]).1 [4]).1, 1) :=
  ⟨(C37_placement_algorithm (KISS_QUEUE_Create zeroMem 24) (bytes [1, 2, 3, 4]) 4
      (by decide) (by decide)).1 (by decide),
   ((C37_placement_algorithm (getAll (putAll (KISS_QUEUE_Create zeroMem 24)
      [[1, 2, 3, 4], [5, 6, 7, 8]]).1 [4, 4]).1 (bytes [9, 9, 9, 9]) 4
      (by decide) (by decide)).2.1 (by decide) (by decide)).2 (by decide),
   (C37_placement_algorithm (getAll (putAll (KISS_QUEUE_Create zeroMem 24)
      [[1, 2, 3, 4], [5, 6, 7, 8]]).1 [4]).1 (bytes [9, 9, 9, 9]) 4
      (by decide) (by decide)).2.2 (by decide) (by decide)⟩

/-- C38 (as stated, refuted for one retirement): with `n = 2` items of 4 bytes filling a
24-byte buffer, after the first item is retired the next put is refused, because the
record of 12 bytes is not strictly smaller than the 12 bytes before the head. -/
theorem C38_single_retirement_is_refused :
    (putAll (KISS_QUEUE_Create zeroMem (2 * (sizeofItem + 4))) [[1, 2, 3, 4], [5, 6, 7, 8]]).2
      = [(0, 0), (0, 12)] ∧
    (getAll (putAll (KISS_QUEUE_Create zeroMem (2 * (sizeofItem + 4)))
        [[1, 2, 3, 4], [5, 6, 7, 8]]).1 (List.replicate 1 4)).2.map (fun o => (o.rc, o.data))
      = [(0, some [1, 2, 3, 4])] ∧
    (getAll (putAll (KISS_QUEUE_Create zeroMem (2 * (sizeofItem + 4)))
        [[1, 2, 3, 4], [5, 6, 7, 8]]).1 (List.replicate 1 4)).1.oHead = 12 ∧
    (putAll (getAll (putAll (KISS_QUEUE_Create zeroMem (2 * (sizeofItem + 4)))
        [[1, 2, 3, 4], [5, 6, 7, 8]]).1 (List.replicate 1 4)).1 [[9, 9, 9, 9]]).2.map Prod.fst
      = [1] ∧
    KISS_QUEUE_GetItemCnt (putAll (getAll (putAll (KISS_QUEUE_Create zeroMem
        (2 * (sizeofItem + 4))) [[1, 2, 3, 4], [5, 6, 7, 8]]).1 (List.replicate 1 4)).1
        [[9, 9, 9, 9]]).1 = 1 := by
  decide

/-- C38 (amended): for payload size `s` and `2 ≤ k ≤ n` with `(n + 1) * (8 + s) < 2^32`,
the `n` puts of `s`-byte payloads into a zero-filled buffer of `n * (8 + s)` bytes all
return 0 and fill it; retiring the first `k` items with `GetPtr` and `Purge` returns them
in order, and the `k` further puts of `s`-byte payloads all return 0, after which the
item count is `n` again. -/
theorem C38_full_queue_refills_after_two_retirements (xs ys : List (List Nat)) (n s k : Nat)
    (hx : xs.length = n) (hxl : ∀ x ∈ xs, x.length = s)
    (hk2 : 2 ≤ k) (hkn : k ≤ n)
    (hy : ys.length = k) (hyl : ∀ y ∈ ys, y.length = s)
    (hlim : (n + 1) * (sizeofItem + s) < U32) :
    (putAll (KISS_QUEUE_Create zeroMem (n * (sizeofItem + s))) xs).2.map Prod.fst
      = List.replicate n 0 ∧
    KISS_QUEUE_GetItemCnt (putAll (KISS_QUEUE_Create zeroMem (n * (sizeofItem + s))) xs).1
      = n ∧
    (getAll (putAll (KISS_QUEUE_Create zeroMem (n * (sizeofItem + s))) xs).1
        (List.replicate k s)).2.map (fun o => (o.rc, o.data))
      = (xs.take k).map (fun x => ((0 : Int), some x)) ∧
    KISS_QUEUE_GetItemCnt (getAll (putAll (KISS_QUEUE_Create zeroMem (n * (sizeofItem + s)))
      xs).1 (List.replicate k s)).1 = (n - k : Nat) ∧
    (putAll (getAll (putAll (KISS_QUEUE_Create zeroMem (n * (sizeofItem + s))) xs).1
        (List.replicate k s)).1 ys).2.map Prod.fst = List.replicate k 0 ∧
    KISS_QUEUE_GetItemCnt (putAll (getAll (putAll (KISS_QUEUE_Create zeroMem
        (n * (sizeofItem + s))) xs).1 (List.replicate k s)).1 ys).1 = n := by
  -- sizes
  have hS : 0 < sizeofItem + s := by unfold sizeofItem; omega
  have hnS : n * (sizeofItem + s) + (sizeofItem + s) < U32 := by
    have : (n + 1) * (sizeofItem + s) = n * (sizeofItem + s) + (sizeofItem + s) := by ring
    omega
  have hn31 : n < 2147483648 := by
    have : n * 8 ≤ n * (sizeofItem + s) := Nat.mul_le_mul_left n (by unfold sizeofItem; omega)
    unfold U32 at hnS; omega
  have hs31 : s < 2147483648 := by
    have : 2 * (sizeofItem + s) ≤ n * (sizeofItem + s) := Nat.mul_le_mul_right _ (by omega)
    unfold U32 at hnS; unfold sizeofItem at *; omega
  have hkS : k * (sizeofItem + s) ≤ n * (sizeofItem + s) := Nat.mul_le_mul_right _ hkn
  have h2S : 2 * (sizeofItem + s) ≤ k * (sizeofItem + s) := Nat.mul_le_mul_right _ hk2
  -- the n puts
  have hz : read32 (KISS_QUEUE_Create zeroMem (n * (sizeofItem + s))).pBuffer
      (KISS_QUEUE_Create zeroMem (n * (sizeofItem + s))).oTail = 0 := read32_zeroMem _
  have hrx : recordBytes xs = n * (sizeofItem + s) := by
    rw [recordBytes_uniform xs s hxl, hx]
  have hA := putAll_fits xs (KISS_QUEUE_Create zeroMem (n * (sizeofItem + s)))
    (by rw [hz, hrx]; exact le_of_eq (by simp [KISS_QUEUE_Create]))
    (by show n * (sizeofItem + s) < U32; omega)
    (by rw [hx]; show 0 + n < U32; unfold U32; omega)
  rw [hz, layout_uniform xs s 0 hxl, hx, hrx] at hA
  generalize putAll (KISS_QUEUE_Create zeroMem (n * (sizeofItem + s))) xs = rn at *
  obtain ⟨a1, a2, a3, a4, _, a7, a6⟩ := hA
  have a2' : rn.1.NumElements = n := by rw [a2]; show 0 + n = n; omega
  have a3' : rn.1.oHead = 0 := by rw [a3]; rfl
  have a4' : rn.1.TotalSize = n * (sizeofItem + s) := by rw [a4]; rfl
  -- the k retirements
  have hsplit : xs = xs.take k ++ xs.drop k := (List.take_append_drop k xs).symm
  have hck : Chain rn.1.pBuffer rn.1.oHead (xs.take k) := by
    rw [a3']
    rw [hsplit] at a6
    exact chain_append _ _ _ _ a6
  have htk : (xs.take k).length = k := by rw [List.length_take, hx]; omega
  have htl : ∀ x ∈ xs.take k, x.length = s := fun x h => hxl x (List.mem_of_mem_take h)
  have hmap : (xs.take k).map List.length = List.replicate k s := by
    rw [List.eq_replicate_iff]
    refine ⟨by rw [List.length_map, htk], ?_⟩
    intro b hb
    obtain ⟨x, hx1, hx2⟩ := List.mem_map.mp hb
    rw [← hx2]; exact htl x hx1
  have hB1 := getAll_chain (xs.take k) rn.1 hck (by rw [htk, a2']; exact hkn)
    (by rw [a2']; exact hn31) (fun x h => by rw [htl x h]; exact hs31)
  have hB2 := getAll_state (xs.take k) rn.1 hck (by rw [htk, a2']; exact hkn)
  rw [hmap] at hB1 hB2
  rw [recordBytes_uniform _ s htl, htk, a2', a3', a4'] at hB2
  generalize getAll rn.1 (List.replicate k s) = rk at *
  obtain ⟨b1, b2, b3, b4, b5⟩ := hB2
  have b2' : rk.1.oHead = k * (sizeofItem + s) := by rw [b2]; omega
  have hw : read32 rk.1.pBuffer rk.1.oTail = n * (sizeofItem + s) := by
    rw [b1, b3, a7]; omega
  -- the first of the k puts wraps, the others follow it
  obtain ⟨y, ys1, rfl⟩ : ∃ y ys1, ys = y :: ys1 := by
    cases ys with
    | nil => simp at hy; omega
    | cons y ys1 => exact ⟨y, ys1, rfl⟩
  have hys : y.length = s := hyl y (by simp)
  have hys1 : ys1.length + 1 = k := by simpa using hy
  have hyl1 : ∀ z ∈ ys1, z.length = s := fun z h => hyl z (by simp [h])
  have hP := put_wraps rk.1 (bytes y) y.length (by rw [hw, b4, hys]; omega)
    (by rw [hw, b2', hys]; omega) (by rw [hw, hys]; omega) (by rw [b2', hys]; omega)
  rw [hys, b5] at hP
  simp only [putAll, hP, hys]
  have hnext : read32 (memcpy (write32 (write32 (write32 rk.1.pBuffer rk.1.oTail 0) 0
      (sizeofItem + s)) 4 s) sizeofItem (bytes y) s) 0 = sizeofItem + s := by
    rw [read32_congr _ _ 0 (fun z h1 h2 => memcpy_outside _ _ _ _ z (by unfold sizeofItem; omega)),
      read32_write32_disj _ _ _ _ (by omega), read32_write32_same]
    exact Nat.mod_eq_of_lt (by omega)
  have hr1 : recordBytes ys1 = ys1.length * (sizeofItem + s) := recordBytes_uniform _ s hyl1
  have hk1 : k * (sizeofItem + s) = ys1.length * (sizeofItem + s) + (sizeofItem + s) := by
    rw [← hys1]; ring
  have hC := putAll_fits ys1
    { rk.1 with
      pBuffer := memcpy (write32 (write32 (write32 rk.1.pBuffer rk.1.oTail 0) 0
        (sizeofItem + s)) 4 s) sizeofItem (bytes y) s
      oTail := 0
      NumElements := (n - k + 1) % U32 }
    (by simp only [hnext]; rw [hr1, b4]; omega) (by rw [b4]; omega)
    (by
      show (n - k + 1) % U32 + ys1.length < U32
      have := Nat.mod_le (n - k + 1) U32
      unfold U32 at *; omega)
  simp only [hnext] at hC
  rw [layout_uniform ys1 s (sizeofItem + s) hyl1] at hC
  obtain ⟨c1, c2, _⟩ := hC
  refine ⟨?_, ?_, ?_, ?_, ?_, ?_⟩
  · rw [a1]
    simp only [List.map_map]
    rw [List.eq_replicate_iff]
    refine ⟨by simp, ?_⟩
    intro b hb
    obtain ⟨i, _, hi⟩ := List.mem_map.mp hb
    exact hi.symm
  · unfold KISS_QUEUE_GetItemCnt; rw [a2', toInt_small _ hn31]
  · rw [hB1, expectObs_rc_data]
  · unfold KISS_QUEUE_GetItemCnt; rw [b5, toInt_small _ (by omega)]
  · rw [c1]
    simp only [List.map_cons, List.map_map]
    rw [List.eq_replicate_iff]
    refine ⟨by simp; omega, ?_⟩
    intro b hb
    rcases List.mem_cons.mp hb with h | h
    · exact h
    · obtain ⟨i, _, hi⟩ := List.mem_map.mp h
      exact hi.symm
  · unfold KISS_QUEUE_GetItemCnt
    rw [c2]
    have e : (n - k + 1) % U32 + ys1.length = n := by
      rw [Nat.mod_eq_of_lt (show n - k + 1 < U32 by unfold U32; omega)]; omega
    rw [e, toInt_small _ hn31]

/-- Witness of `C38_full_queue_refills_after_two_retirements`: three 1-byte items, two of
them retired and replaced. -/
theorem C38_full_queue_refills_after_two_retirements_witness :
    (putAll (getAll (putAll (KISS_QUEUE_Create zeroMem (3 * (sizeofItem + 1)))
        [[1], [2], [3]]).1 (List.replicate 2 1)).1 [[4], [5]]).2.map Prod.fst
      = List.replicate 2 0 ∧
    KISS_QUEUE_GetItemCnt (putAll (getAll (putAll (KISS_QUEUE_Create zeroMem
        (3 * (sizeofItem + 1))) [[1], [2], [3]]).1 (List.replicate 2 1)).1 [[4], [5]]).1
      = (3 : Nat) :=
  have h := C38_full_queue_refills_after_two_retirements [[1], [2], [3]] [[4], [5]] 3 1 2
    (by decide) (by decide) (by decide) (by decide) (by decide) (by decide) (by decide)
  ⟨h.2.2.2.2.1, h.2.2.2.2.2⟩


/-- C39 (code defect): 24-byte zero-filled buffer; two puts of 4 bytes fill it, both items
are retrieved (`GetPtr`, `Purge`), and a third put of 4 bytes is accepted and wraps to
offset 0 while the queue is empty, leaving `oHead` at 24. Then `GetItemCnt` is 1 and
`KISS_QUEUE_GetPtr` and `KISS_QUEUE_PeekPtr` return 0 with the pointer `pBuffer + 32`:
the head header `[24, 32)` and the payload the pointer designates lie past the end of the
buffer. -/
theorem C39_pointer_past_end_of_buffer :
    (queueRun (KISS_QUEUE_Create zeroMem 24)
      [QueueOp.put [1, 2, 3, 4], QueueOp.put [5, 6, 7, 8], QueueOp.getPtr, QueueOp.purge,
       QueueOp.getPtr, QueueOp.purge, QueueOp.put [9, 9, 9, 9]]).TotalSize = 24 ∧
    KISS_QUEUE_GetItemCnt (queueRun (KISS_QUEUE_Create zeroMem 24)
      [QueueOp.put [1, 2, 3, 4], QueueOp.put [5, 6, 7, 8], QueueOp.getPtr, QueueOp.purge,
       QueueOp.getPtr, QueueOp.purge, QueueOp.put [9, 9, 9, 9]]) = 1 ∧
    (queueRun (KISS_QUEUE_Create zeroMem 24)
      [QueueOp.put [1, 2, 3, 4], QueueOp.put [5, 6, 7, 8], QueueOp.getPtr, QueueOp.purge,
       QueueOp.getPtr, QueueOp.purge, QueueOp.put [9, 9, 9, 9]]).oHead = 24 ∧
    (KISS_QUEUE_GetPtr (queueRun (KISS_QUEUE_Create zeroMem 24)
      [QueueOp.put [1, 2, 3, 4], QueueOp.put [5, 6, 7, 8], QueueOp.getPtr, QueueOp.purge,
       QueueOp.getPtr, QueueOp.purge, QueueOp.put [9, 9, 9, 9]])).2 = (0, some 32) ∧
    KISS_QUEUE_PeekPtr (queueRun (KISS_QUEUE_Create zeroMem 24)
      [QueueOp.put [1, 2, 3, 4], QueueOp.put [5, 6, 7, 8], QueueOp.getPtr, QueueOp.purge,
       QueueOp.getPtr, QueueOp.purge, QueueOp.put [9, 9, 9, 9]]) = (0, some 32) ∧
    (KISS_QUEUE_Put (queueRun (KISS_QUEUE_Create zeroMem 24)
      [QueueOp.put [1, 2, 3, 4], QueueOp.put [5, 6, 7, 8], QueueOp.getPtr, QueueOp.purge,
       QueueOp.getPtr, QueueOp.purge]) (bytes [9, 9, 9, 9]) 4).2 = 0 ∧
    ¬ (24 + 8 + KISS_QUEUE_GetItemSize (queueRun (KISS_QUEUE_Create zeroMem 24)
      [QueueOp.put [1, 2, 3, 4], QueueOp.put [5, 6, 7, 8], QueueOp.getPtr, QueueOp.purge,
       QueueOp.getPtr, QueueOp.purge, QueueOp.put [9, 9, 9, 9]]) ≤ 24) := by
  decide


/-- C40: for a ring created with `MaxCount = m`, `1 ≤ m < 2^31`, and every sequence of
`Put`, `Put1`, `PutFront`, `PutFront1`, `Get`, `Get1`, `Peek`, `GetPtr`, `Purge` and
`Clear` calls with arbitrary arguments (the sequence is arbitrary, so this holds after
every call of it): `oHead < m`, `oTail < m`, `NumUsed ≤ m` and
`oTail = (oHead + NumUsed) mod m`. -/
theorem C40_ring_index_invariant (sizeofMsg m : Nat) (buf : Mem) (cs : List RingCall)
    (hm1 : 1 ≤ m) (hm : m < 2147483648) :
    (ringCalls (KISS_RING_Create sizeofMsg m buf) cs).oHead < m ∧
    (ringCalls (KISS_RING_Create sizeofMsg m buf) cs).oTail < m ∧
    (ringCalls (KISS_RING_Create sizeofMsg m buf) cs).NumUsed ≤ m ∧
    (ringCalls (KISS_RING_Create sizeofMsg m buf) cs).oTail
      = ((ringCalls (KISS_RING_Create sizeofMsg m buf) cs).oHead
          + (ringCalls (KISS_RING_Create sizeofMsg m buf) cs).NumUsed) % m := by
  have H0 : RingIndexInv m (KISS_RING_Create sizeofMsg m buf) := by
    refine ⟨rfl, ?_, ?_, Nat.zero_le _, ?_⟩
    · show 0 < m
      omega
    · show 0 < m
      omega
    · show 0 = (0 + 0) % m
      simp
  obtain ⟨a1, a2, a3, a4, a5⟩ := ringCalls_index m cs _ hm H0
  exact ⟨a2, a3, a4, a5⟩

/-- Witness of `C40_ring_index_invariant`: ring of 3 one-byte items; puts to both ends
until a put is refused, retrievals, a pin with `GetPtr` and two `Purge` calls, `Clear`,
and calls with `NULL` pointers. -/
theorem C40_ring_index_invariant_witness :
    (ringCalls (KISS_RING_Create 1 3 zeroMem)
      [RingCall.put1 (bytes [97]), RingCall.putFront1 (bytes [98]), RingCall.put (bytes [99]),
       RingCall.put (bytes [100]), RingCall.get none, RingCall.get1 (some zeroMem),
       RingCall.peek zeroMem, RingCall.getPtr (some 0), RingCall.getPtr none, RingCall.purge,
       RingCall.purge, RingCall.putFront (bytes [101]), RingCall.clear,
       RingCall.get (some zeroMem)]).oHead < 3 ∧
    (ringCalls (KISS_RING_Create 1 3 zeroMem)
      [RingCall.put1 (bytes [97]), RingCall.putFront1 (bytes [98]), RingCall.put (bytes [99]),
       RingCall.put (bytes [100]), RingCall.get none, RingCall.get1 (some zeroMem),
       RingCall.peek zeroMem, RingCall.getPtr (some 0), RingCall.getPtr none, RingCall.purge,
       RingCall.purge, RingCall.putFront (bytes [101]), RingCall.clear,
       RingCall.get (some zeroMem)]).oTail < 3 ∧
    (ringCalls (KISS_RING_Create 1 3 zeroMem)
      [RingCall.put1 (bytes [97]), RingCall.putFront1 (bytes [98]), RingCall.put (bytes [99]),
       RingCall.put (bytes [100]), RingCall.get none, RingCall.get1 (some zeroMem),
       RingCall.peek zeroMem, RingCall.getPtr (some 0), RingCall.getPtr none, RingCall.purge,
       RingCall.purge, RingCall.putFront (bytes [101]), RingCall.clear,
       RingCall.get (some zeroMem)]).NumUsed ≤ 3 ∧
    (ringCalls (KISS_RING_Create 1 3 zeroMem)
      [RingCall.put1 (bytes [97]), RingCall.putFront1 (bytes [98]), RingCall.put (bytes [99]),
       RingCall.put (bytes [100]), RingCall.get none, RingCall.get1 (some zeroMem),
       RingCall.peek zeroMem, RingCall.getPtr (some 0), RingCall.getPtr none, RingCall.purge,
       RingCall.purge, RingCall.putFront (bytes [101]), RingCall.clear,
       RingCall.get (some zeroMem)]).oTail
      = ((ringCalls (KISS_RING_Create 1 3 zeroMem)
      [RingCall.put1 (bytes [97]), RingCall.putFront1 (bytes [98]), RingCall.put (bytes [99]),
       RingCall.put (bytes [100]), RingCall.get none, RingCall.get1 (some zeroMem),
       RingCall.peek zeroMem, RingCall.getPtr (some 0), RingCall.getPtr none, RingCall.purge,
       RingCall.purge, RingCall.putFront (bytes [101]), RingCall.clear,
       RingCall.get (some zeroMem)]).oHead
        + (ringCalls (KISS_RING_Create 1 3 zeroMem)
      [RingCall.put1 (bytes [97]), RingCall.putFront1 (bytes [98]), RingCall.put (bytes [99]),
       RingCall.put (bytes [100]), RingCall.get none, RingCall.get1 (some zeroMem),
       RingCall.peek zeroMem, RingCall.getPtr (some 0), RingCall.getPtr none, RingCall.purge,
       RingCall.purge, RingCall.putFront (bytes [101]), RingCall.clear,
       RingCall.get (some zeroMem)]).NumUsed) % 3 :=
  C40_ring_index_invariant 1 3 zeroMem
    [RingCall.put1 (bytes [97]), RingCall.putFront1 (bytes [98]), RingCall.put (bytes [99]),
       RingCall.put (bytes [100]), RingCall.get none, RingCall.get1 (some zeroMem),
       RingCall.peek zeroMem, RingCall.getPtr (some 0), RingCall.getPtr none, RingCall.purge,
       RingCall.purge, RingCall.putFront (bytes [101]), RingCall.clear,
       RingCall.get (some zeroMem)] (by decide) (by decide)

end KissDS
